import Mathlib

/-!
# SQL-ly: a shallow embedding of the table storage engine and the statement dispatcher

The development follows `sqlly-go/internal/engine` (`types.go`, `table.go`,
`database.go`).

Modelling conventions.

* A Go `string` / `[]byte` is the list of its bytes (`GoString`); a byte is a natural
  number below 256.  String literals are written `str "..."`.
* Go's `int` is the 64-bit machine integer; it is an `Int` here and the narrowing
  conversion `int32(v)` of the source is the explicit wrap `int32`.
* A Go `map` is an association list read with `mapGet` and written with `mapSet`
  / `mapDelete`; a `map[string]struct{}` is a list of members.
* The backing file of a table is `Option (List Nat)`: `none` when the file does not
  exist, otherwise its bytes.  Opening a file fails exactly when it does not exist
  (and the open does not create it).
* A run-time panic of the source (a negative length handed to `make`, an assignment
  into a nil map, an index out of range) is an explicit result of the model.
* Loops that read a file are structural recursions on a bound (`fuel`) that the
  methods set to the length of the file, which no loop can exhaust: every record takes
  at least one byte.

The definitions come first: `types.go` and `table.go`, the vocabulary of the statements
and the example data, the Go library functions and `database.go`.  The theorems
follow.
-/

namespace SQLly

/-! ## Strings and bytes -/

/-- A Go string: the list of its bytes. -/
abbrev GoString := List Nat

/-- UTF-8 encoding of one code point. -/
def utf8EncodeRune (c : Nat) : List Nat :=
  if c < 128 then [c]
  else if c < 2048 then [192 + c / 64, 128 + c % 64]
  else if c < 65536 then [224 + c / 4096, 128 + c / 64 % 64, 128 + c % 64]
  else [240 + c / 262144, 128 + c / 4096 % 64, 128 + c / 64 % 64, 128 + c % 64]

/-- The Go string denoted by a literal (its UTF-8 bytes). -/
def str (s : String) : GoString :=
  s.data.flatMap (fun c => utf8EncodeRune c.toNat)

/-- Decimal digits of a natural number, as bytes. -/
def formatNat (n : Nat) : GoString :=
  (Nat.toDigits 10 n).map Char.toNat

/-- The text of `strconv.FormatInt(v, 10)`, which `%d` and `%v` print for an integer. -/
def formatInt (v : Int) : GoString :=
  if v < 0 then 45 :: formatNat (-v).toNat else formatNat v.toNat

/-! ## Machine integers and the little-endian codec of `encoding/binary` -/

/-- The Go conversion `int32(v)`: wrap to the signed 32-bit range. -/
def int32 (v : Int) : Int :=
  (v + 2147483648) % 4294967296 - 2147483648

/-- The four bytes `binary.Write(w, binary.LittleEndian, v)` emits for an `int32`. -/
def putInt32 (v : Int) : List Nat :=
  let u := (v % 4294967296).toNat
  [u % 256, u / 256 % 256, u / 65536 % 256, u / 16777216 % 256]

/-- The `int32` that `binary.LittleEndian` decodes from four bytes. -/
def getInt32 (b0 b1 b2 b3 : Nat) : Int :=
  int32 (Int.ofNat (b0 + 256 * b1 + 65536 * b2 + 16777216 * b3))

/-- Reading of a `bool` by `binary.Read`: `none` at end of file, otherwise the flag
(`bs[0] != 0`) and the rest of the input. -/
def readBool : List Nat → Option (Bool × List Nat)
  | [] => none
  | b :: r => some (b != 0, r)

/-- Reading of an `int32` by `binary.Read`.  `io.ReadFull` needs four bytes; a short
read fails (`none`) and leaves the reader at end of file. -/
def readInt32 : List Nat → Option Int × List Nat
  | b0 :: b1 :: b2 :: b3 :: r => (some (getInt32 b0 b1 b2 b3), r)
  | _ => (none, [])

/-- The bytes written by `writeString`: the length as `int32`, then the raw bytes. -/
def writeString (s : GoString) : List Nat :=
  putInt32 (int32 (Int.ofNat s.length)) ++ s

/-- The function `readString`.  The outer `none` is the panic of
`make([]byte, length)` on a negative length.  Otherwise the result is the string read
(the empty string when either read fails, the error being dropped by every caller) and
the rest of the input. -/
def readString (r : List Nat) : Option (GoString × List Nat) :=
  match readInt32 r with
  | (none, r1) => some ([], r1)
  | (some n, r1) =>
    if n < 0 then none
    else if n.toNat ≤ r1.length then some (r1.take n.toNat, r1.drop n.toNat)
    else some ([], [])

/-! ## Go maps -/

/-- Lookup `m[k]` with the comma-ok result as an `Option`. -/
def mapGet {κ ν : Type} [DecidableEq κ] : List (κ × ν) → κ → Option ν
  | [], _ => none
  | (k1, v) :: m, k => if k1 = k then some v else mapGet m k

/-- Assignment `m[k] = v`. -/
def mapSet {κ ν : Type} [DecidableEq κ] : List (κ × ν) → κ → ν → List (κ × ν)
  | [], k, v => [(k, v)]
  | (k1, v1) :: m, k, v => if k1 = k then (k, v) :: m else (k1, v1) :: mapSet m k v

/-- Removal `delete(m, k)`. -/
def mapDelete {κ ν : Type} [DecidableEq κ] (m : List (κ × ν)) (k : κ) : List (κ × ν) :=
  m.filter (fun e => decide (e.1 ≠ k))

/-- Insertion into a `map[string]struct{}`. -/
def setAdd (s : List GoString) (v : GoString) : List GoString :=
  if v ∈ s then s else s ++ [v]

/-! ## types.go -/

/-- The column types of `types.go`. -/
inductive DbType where
  | IntType
  | StringType
  deriving DecidableEq

/-- A column definition. -/
structure ColumnDef where
  Name : GoString
  Typ : DbType
  IsPrimaryKey : Bool
  IsUnique : Bool
  deriving DecidableEq

/-- A table schema. -/
structure TableSchema where
  Name : GoString
  Columns : List ColumnDef
  deriving DecidableEq

/-- The values an `interface{}` of `Row.Data` holds: the handlers store only `int`
and `string`.  A missing key reads as the nil interface, `none`. -/
inductive Value where
  | int (v : Int)
  | str (s : GoString)
  deriving DecidableEq

/-- A row. -/
structure Row where
  Id : Int
  Data : List (GoString × Value)
  IsDeleted : Bool
  deriving DecidableEq

/-- The constructor `NewRow`. -/
def NewRow : Row :=
  { Id := 0, Data := [], IsDeleted := false }

/-- The comma-ok assertion `val, _ := x.(int)`: zero unless `x` holds an `int`. -/
def assertInt : Option Value → Int
  | some (Value.int v) => v
  | _ => 0

/-- The comma-ok assertion `val, _ := x.(string)`: empty unless `x` holds a `string`. -/
def assertString : Option Value → GoString
  | some (Value.str s) => s
  | _ => []

/-- The text of `fmt.Sprintf("%v", x)` for an `interface{}` of `Row.Data`. -/
def sprintV : Option Value → GoString
  | none => str "<nil>"
  | some (Value.int v) => formatInt v
  | some (Value.str s) => s

/-! ## table.go -/

/-- The errors `Table` methods return. -/
inductive TableError where
  | duplicateKey (id : Int)
  | uniqueViolation (col val : GoString)
  | notFound (id : Int)
  | pathError (path : GoString)
  deriving DecidableEq

/-- The text of `err.Error()`. -/
def TableError.Error : TableError → GoString
  | duplicateKey id => str "duplicate Primary Key: " ++ formatInt id
  | uniqueViolation col val =>
    str "violation of UNIQUE constraint on column '" ++ col ++ str "'. Value '" ++ val
      ++ str "' already exists"
  | notFound id => str "record with ID " ++ formatInt id ++ str " not found"
  | pathError path => str "open " ++ path ++ str ": no such file or directory"

/-- How a call of a mutating `Table` method ends: `nil`, an error, or a panic. -/
inductive Ret where
  | ok
  | error (e : TableError)
  | panic
  deriving DecidableEq

/-- The in-memory part of a `Table` (the mutex is not modelled). -/
structure Table where
  Schema : TableSchema
  filePath : GoString
  PrimaryKeyIdx : List (Int × Nat)
  UniqueIndexes : List (GoString × List GoString)
  deriving DecidableEq

/-- The replacer `strings.NewReplacer("..", "", "/", "", "\\", "")` of `NewTable`: one
pass from the left, the match removed and the scan resumed after it. -/
def sanitize : GoString → GoString
  | [] => []
  | 47 :: r => sanitize r
  | 92 :: r => sanitize r
  | 46 :: 46 :: r => sanitize r
  | c :: r => c :: sanitize r

/-- The column values of a record as `SelectById` and `SelectAll` read them into
`row.Data`; `none` is a panic inside `readString`. -/
def readColumns : List ColumnDef → List Nat → List (GoString × Value) →
    Option (List (GoString × Value) × List Nat)
  | [], r, data => some (data, r)
  | col :: cols, r, data =>
    if col.Name = str "id" then readColumns cols r data
    else if col.Typ = DbType.IntType then
      readColumns cols (readInt32 r).2
        (mapSet data col.Name (Value.int ((readInt32 r).1.getD 0)))
    else
      match readString r with
      | none => none
      | some (s, r1) => readColumns cols r1 (mapSet data col.Name (Value.str s))

/-- The column values of a record as `loadIndex` reads them into `rowValues`. -/
def readRowValues : List ColumnDef → List Nat → List (GoString × GoString) →
    Option (List (GoString × GoString) × List Nat)
  | [], r, vals => some (vals, r)
  | col :: cols, r, vals =>
    if col.Name = str "id" then readRowValues cols r vals
    else if col.Typ = DbType.IntType then
      readRowValues cols (readInt32 r).2
        (mapSet vals col.Name (formatInt ((readInt32 r).1.getD 0)))
    else
      match readString r with
      | none => none
      | some (s, r1) => readRowValues cols r1 (mapSet vals col.Name s)

/-- The inner loop of `loadIndex` over `t.UniqueIndexes`: every set whose column has a
value in `rowValues` receives that value. -/
def addRowValues (rowValues : List (GoString × GoString))
    (uq : List (GoString × List GoString)) : List (GoString × List GoString) :=
  uq.map (fun e =>
    match mapGet rowValues e.1 with
    | some val => (e.1, setAdd e.2 val)
    | none => e)

/-- The loop of `loadIndex`.  `fuel` bounds the number of records (every record takes
at least one byte), `pos` is the file position of `r`.  `none` is a panic. -/
def loadIndexLoop (cols : List ColumnDef) :
    Nat → Nat → List Nat → List (Int × Nat) → List (GoString × List GoString) →
    Option (List (Int × Nat) × List (GoString × List GoString))
  | 0, _, _, pk, uq => some (pk, uq)
  | fuel + 1, pos, r, pk, uq =>
    match readBool r with
    | none => some (pk, uq)
    | some (isDeleted, r1) =>
      match readInt32 r1 with
      | (none, _) => some (pk, uq)
      | (some id, r2) =>
        match readRowValues cols r2 [] with
        | none => none
        | some (rowValues, r3) =>
          if isDeleted then
            loadIndexLoop cols fuel (pos + (r.length - r3.length)) r3 pk uq
          else
            loadIndexLoop cols fuel (pos + (r.length - r3.length)) r3 (mapSet pk id pos)
              (addRowValues rowValues uq)

/-- The method `loadIndex`: both indexes are cleared and rebuilt from the file; a file
that cannot be opened leaves them empty.  `none` is a panic. -/
def Table.loadIndex (t : Table) (file : Option (List Nat)) : Option Table :=
  let uq0 := t.UniqueIndexes.map (fun e => (e.1, ([] : List GoString)))
  match file with
  | none => some { t with PrimaryKeyIdx := [], UniqueIndexes := uq0 }
  | some content =>
    (loadIndexLoop t.Schema.Columns content.length 0 content [] uq0).map
      (fun p => { t with PrimaryKeyIdx := p.1, UniqueIndexes := p.2 })

/-- The uniqueness sets `NewTable` creates: one for every unique column not named
`id`. -/
def initUnique : List ColumnDef → List (GoString × List GoString) →
    List (GoString × List GoString)
  | [], uq => uq
  | col :: cols, uq =>
    if col.IsUnique && decide (col.Name ≠ str "id") then
      initUnique cols (mapSet uq col.Name [])
    else initUnique cols uq

/-- The method `initFile`: the file is created empty. -/
def initFile : Option (List Nat) :=
  some []

/-- The method `Drop`: the backing file is removed from the directory `files`. -/
def Table.Drop (t : Table) (files : List (GoString × List Nat)) : List (GoString × List Nat) :=
  mapDelete files t.filePath

/-- The file name `NewTable` computes. -/
def tablePath (dbName tableName : GoString) : GoString :=
  sanitize dbName ++ str "_" ++ sanitize tableName ++ str ".db"

/-- The constructor `NewTable` on a backing file `file`: the file is created empty
when it does not exist, then `loadIndex` runs.  The result is the table and the file;
`none` is a panic of `loadIndex`. -/
def NewTable (dbName tableName : GoString) (columns : List ColumnDef)
    (file : Option (List Nat)) : Option (Table × Option (List Nat)) :=
  let t : Table :=
    { Schema := { Name := tableName, Columns := columns }
      filePath := tablePath dbName tableName
      PrimaryKeyIdx := []
      UniqueIndexes := initUnique columns [] }
  let file1 := match file with
    | none => initFile
    | some content => some content
  (t.loadIndex file1).map (fun t1 => (t1, file1))

/-- The unique-constraint check of `Insert`: the error of the first unique column
whose value is already in its set. -/
def checkUnique (uq : List (GoString × List GoString)) (row : Row) :
    List ColumnDef → Option TableError
  | [] => none
  | col :: cols =>
    if col.IsUnique && decide (col.Name ≠ str "id") then
      match mapGet uq col.Name with
      | some idx =>
        if sprintV (mapGet row.Data col.Name) ∈ idx then
          some (TableError.uniqueViolation col.Name (sprintV (mapGet row.Data col.Name)))
        else checkUnique uq row cols
      | none => checkUnique uq row cols
    else checkUnique uq row cols

/-- The bytes `Insert` writes for the columns of a row. -/
def encodeColumns (row : Row) : List ColumnDef → List Nat
  | [] => []
  | col :: cols =>
    if col.Name = str "id" then encodeColumns row cols
    else if col.Typ = DbType.IntType then
      putInt32 (int32 (assertInt (mapGet row.Data col.Name))) ++ encodeColumns row cols
    else
      writeString (assertString (mapGet row.Data col.Name)) ++ encodeColumns row cols

/-- The record `Insert` appends: the flag byte 0, the id as `int32`, the columns. -/
def encodeRecord (cols : List ColumnDef) (row : Row) : List Nat :=
  0 :: (putInt32 (int32 row.Id) ++ encodeColumns row cols)

/-- The last loop of `Insert`: the row's values enter the uniqueness sets.  The flag
is `false` when `t.UniqueIndexes[col.Name]` is nil, where the assignment panics and
the loop stops. -/
def addUnique (row : Row) : List ColumnDef → List (GoString × List GoString) →
    List (GoString × List GoString) × Bool
  | [], uq => (uq, true)
  | col :: cols, uq =>
    if col.IsUnique && decide (col.Name ≠ str "id") then
      match mapGet uq col.Name with
      | some idx =>
        addUnique row cols (mapSet uq col.Name (setAdd idx (sprintV (mapGet row.Data col.Name))))
      | none => (uq, false)
    else addUnique row cols uq

/-- The method `Insert`. -/
def Table.Insert (t : Table) (file : Option (List Nat)) (row : Row) :
    Ret × Table × Option (List Nat) :=
  if (mapGet t.PrimaryKeyIdx row.Id).isSome then
    (Ret.error (TableError.duplicateKey row.Id), t, file)
  else
    match checkUnique t.UniqueIndexes row t.Schema.Columns with
    | some e => (Ret.error e, t, file)
    | none =>
      let content := file.getD []
      let pos := content.length
      let content1 := content ++ encodeRecord t.Schema.Columns row
      let uq := addUnique row t.Schema.Columns t.UniqueIndexes
      (if uq.2 then Ret.ok else Ret.panic,
        { t with PrimaryKeyIdx := mapSet t.PrimaryKeyIdx row.Id pos, UniqueIndexes := uq.1 },
        some content1)

/-- One byte written at `offset` (a write past the end fills the gap with zeros). -/
def writeByteAt (content : List Nat) (offset : Nat) (b : Nat) : List Nat :=
  content.take offset ++ List.replicate (offset - content.length) 0 ++ b :: content.drop (offset + 1)

/-- The method `Delete`. -/
def Table.Delete (t : Table) (file : Option (List Nat)) (id : Int) :
    Ret × Table × Option (List Nat) :=
  match mapGet t.PrimaryKeyIdx id with
  | none => (Ret.error (TableError.notFound id), t, file)
  | some offset =>
    match file with
    | none => (Ret.error (TableError.pathError t.filePath), t, file)
    | some content =>
      (Ret.ok, { t with PrimaryKeyIdx := mapDelete t.PrimaryKeyIdx id },
        some (writeByteAt content offset 1))

/-- The method `Update`: `Delete`, then `Insert` when the delete returned nil. -/
def Table.Update (t : Table) (file : Option (List Nat)) (row : Row) :
    Ret × Table × Option (List Nat) :=
  match t.Delete file row.Id with
  | (Ret.ok, t1, file1) => t1.Insert file1 row
  | r => r

/-- The method `SelectById`.  The outer `none` is a panic; `some none` is the nil
row. -/
def Table.SelectById (t : Table) (file : Option (List Nat)) (id : Int) :
    Option (Option Row) :=
  match mapGet t.PrimaryKeyIdx id with
  | none => some none
  | some offset =>
    match file with
    | none => some none
    | some content =>
      let r := content.drop offset
      let isDeleted := (readBool r).elim false (fun p => p.1)
      let r1 := (readBool r).elim [] (fun p => p.2)
      if isDeleted then some none
      else
        let rId := (readInt32 r1).1.getD 0
        (readColumns t.Schema.Columns (readInt32 r1).2 (mapSet [] (str "id") (Value.int rId))).map
          (fun p => some { Id := rId, Data := p.1, IsDeleted := false })

/-- The loop of `SelectAll`; `fuel` bounds the number of records.  `none` is a
panic. -/
def selectAllLoop (cols : List ColumnDef) : Nat → List Nat → Option (List Row)
  | 0, _ => some []
  | fuel + 1, r =>
    match readBool r with
    | none => some []
    | some (isDeleted, r1) =>
      match readInt32 r1 with
      | (none, _) => some []
      | (some id, r2) =>
        match readColumns cols r2 (mapSet [] (str "id") (Value.int id)) with
        | none => none
        | some (data, r3) =>
          (selectAllLoop cols fuel r3).map (fun rows =>
            if isDeleted then rows else { Id := id, Data := data, IsDeleted := false } :: rows)

/-- The method `SelectAll`: the live rows in file order, none when the file cannot be
opened.  `none` is a panic. -/
def Table.SelectAll (t : Table) (file : Option (List Nat)) : Option (List Row) :=
  match file with
  | none => some []
  | some content => selectAllLoop t.Schema.Columns content.length content

/-! ## Vocabulary of the statements -/

/-- A value of the declared type: a 32-bit integer for an `IntType` column, a string
whose length fits the signed 32-bit length field for a `StringType` column. -/
def validValue : DbType → Option Value → Bool
  | DbType.IntType, some (Value.int v) => decide (-2147483648 ≤ v) && decide (v < 2147483648)
  | DbType.StringType, some (Value.str s) => decide (s.length < 2147483648)
  | _, _ => false

/-- A valid row of a schema: a 32-bit id and, for every column not named `id`, a value
of the declared type. -/
def ValidRow (cols : List ColumnDef) (row : Row) : Prop :=
  -2147483648 ≤ row.Id ∧ row.Id < 2147483648 ∧
    ∀ col ∈ cols, col.Name ≠ str "id" → validValue col.Typ (mapGet row.Data col.Name) = true

/-- The text values of a row fit the signed 32-bit length field of the record
format. -/
def ShortText (cols : List ColumnDef) (row : Row) : Prop :=
  ∀ col ∈ cols, col.Name ≠ str "id" → col.Typ = DbType.StringType →
    (assertString (mapGet row.Data col.Name)).length < 2147483648

/-- The value the record of a row holds for a column. -/
def storedValue (col : ColumnDef) (row : Row) : Value :=
  if col.Typ = DbType.IntType then Value.int (int32 (assertInt (mapGet row.Data col.Name)))
  else Value.str (assertString (mapGet row.Data col.Name))

/-- The column map a reader builds from the record of a row, starting from `data`. -/
def storedData (row : Row) : List ColumnDef → List (GoString × Value) → List (GoString × Value)
  | [], data => data
  | col :: cols, data =>
    if col.Name = str "id" then storedData row cols data
    else storedData row cols (mapSet data col.Name (storedValue col row))

/-- The row a reader gets back from the record of `row`. -/
def storedRow (cols : List ColumnDef) (row : Row) : Row :=
  { Id := int32 row.Id
    Data := storedData row cols (mapSet [] (str "id") (Value.int (int32 row.Id)))
    IsDeleted := false }

/-- A call of one of the three mutating methods. -/
inductive Op where
  | insert (row : Row)
  | delete (id : Int)
  | update (row : Row)
  deriving DecidableEq

/-- The call `op` on a table and its backing file. -/
def Op.apply : Op → Table × Option (List Nat) → Ret × Table × Option (List Nat)
  | Op.insert row, s => s.1.Insert s.2 row
  | Op.delete id, s => s.1.Delete s.2 id
  | Op.update row, s => s.1.Update s.2 row

/-- The table and file after a sequence of calls, whatever each call returned. -/
def run : List Op → Table × Option (List Nat) → Table × Option (List Nat)
  | [], s => s
  | op :: ops, s => run ops (op.apply s).2

/-- Every call of the sequence returns nil. -/
def AllOk : List Op → Table × Option (List Nat) → Prop
  | [], _ => True
  | op :: ops, s => (op.apply s).1 = Ret.ok ∧ AllOk ops (op.apply s).2

/-! ## The file as a log of records -/

/-- A record of the file seen abstractly: its tombstone flag and the row `Insert`
wrote it from. -/
structure Entry where
  deleted : Bool
  row : Row
  deriving DecidableEq

/-- The bytes of a record. -/
def encodeEntry (cols : List ColumnDef) (e : Entry) : List Nat :=
  (if e.deleted then 1 else 0) :: (putInt32 (int32 e.row.Id) ++ encodeColumns e.row cols)

/-- The bytes of a sequence of records. -/
def encodeLog (cols : List ColumnDef) : List Entry → List Nat
  | [] => []
  | e :: log => encodeEntry cols e ++ encodeLog cols log

/-- The rows of the records that are not tombstoned, in file order. -/
def liveRows : List Entry → List Row
  | [] => []
  | e :: log => if e.deleted then liveRows log else e.row :: liveRows log

/-- The offset of the first live record written for id `k`, the log starting at file
position `pos`. -/
def liveOffset (cols : List ColumnDef) : List Entry → Nat → Int → Option Nat
  | [], _, _ => none
  | e :: log, pos, k =>
    if e.deleted = false ∧ e.row.Id = k then some pos
    else liveOffset cols log (pos + (encodeEntry cols e).length) k

/-- The log after the first live record written for id `k` is tombstoned. -/
def tombstone (k : Int) : List Entry → List Entry
  | [] => []
  | e :: log =>
    if e.deleted = false ∧ e.row.Id = k then { e with deleted := true } :: log
    else e :: tombstone k log

/-- The strings `loadIndex` collects in `rowValues` from the record of a row, starting
from `vals`. -/
def storedStrings (row : Row) : List ColumnDef → List (GoString × GoString) →
    List (GoString × GoString)
  | [], vals => vals
  | col :: cols, vals =>
    if col.Name = str "id" then storedStrings row cols vals
    else storedStrings row cols (mapSet vals col.Name (sprintV (some (storedValue col row))))

/-- The indexes `loadIndex` builds from a log that starts at file position `pos`. -/
def loadLog (cols : List ColumnDef) :
    List Entry → Nat → List (Int × Nat) → List (GoString × List GoString) →
    List (Int × Nat) × List (GoString × List GoString)
  | [], _, pk, uq => (pk, uq)
  | e :: log, pos, pk, uq =>
    if e.deleted then loadLog cols log (pos + (encodeEntry cols e).length) pk uq
    else
      loadLog cols log (pos + (encodeEntry cols e).length) (mapSet pk (int32 e.row.Id) pos)
        (addRowValues (storedStrings e.row cols []) uq)

/-- The log after a call of `Insert`: the row is appended unless an error was
returned. -/
def insertLog (r : Ret) (row : Row) (log : List Entry) : List Entry :=
  match r with
  | Ret.error _ => log
  | _ => log ++ [{ deleted := false, row := row }]

/-- The log after a call of `Delete`. -/
def deleteLog (r : Ret) (id : Int) (log : List Entry) : List Entry :=
  match r with
  | Ret.ok => tombstone id log
  | _ => log

/-- The log after the call `op` made in state `s`. -/
def Op.applyLog (op : Op) (s : Table × Option (List Nat)) (log : List Entry) : List Entry :=
  match op with
  | Op.insert row => insertLog (s.1.Insert s.2 row).1 row log
  | Op.delete id => deleteLog (s.1.Delete s.2 id).1 id log
  | Op.update row =>
    match s.1.Delete s.2 row.Id with
    | (Ret.ok, t1, file1) => insertLog (t1.Insert file1 row).1 row (tombstone row.Id log)
    | _ => log

/-- The log after a sequence of calls. -/
def runLog : List Op → Table × Option (List Nat) → List Entry → List Entry
  | [], _, log => log
  | op :: ops, s, log => runLog ops (op.apply s).2 (op.applyLog s log)

/-- The representation invariant of a table with schema `cols`: the file is the
encoding of the log, the primary-key index maps exactly the ids of the live records to
their offsets, no two live records were written for the same id, and every unique
column not named `id` has a uniqueness set holding the value of every record. -/
structure Inv (cols : List ColumnDef) (s : Table × Option (List Nat)) (log : List Entry) :
    Prop where
  schema : s.1.Schema.Columns = cols
  file_eq : s.2 = some (encodeLog cols log)
  index : ∀ k, mapGet s.1.PrimaryKeyIdx k = liveOffset cols log 0 k
  nodup : ((liveRows log).map (fun r => r.Id)).Nodup
  unique : ∀ c ∈ cols, c.IsUnique = true → c.Name ≠ str "id" →
    ∃ idx, mapGet s.1.UniqueIndexes c.Name = some idx ∧
      ∀ e ∈ log, sprintV (mapGet e.row.Data c.Name) ∈ idx

/-- Every unique column of `cols` not named `id` has a uniqueness set in `uq`. -/
def HasSets (cols : List ColumnDef) (uq : List (GoString × List GoString)) : Prop :=
  ∀ c ∈ cols, c.IsUnique = true → c.Name ≠ str "id" → (mapGet uq c.Name).isSome

/-- The row an `Op` writes, if any. -/
def Op.row? : Op → Option Row
  | Op.insert row => some row
  | Op.delete _ => none
  | Op.update row => some row

/-- Following the spec's words: the rows whose latest write is still live, ordered by
the time of that write.  An insert writes a row; a delete ends the life of the row
with that id; an update is a delete followed by an insert. -/
def liveWrites : List Op → List Row → List Row
  | [], rows => rows
  | Op.insert row :: ops, rows => liveWrites ops (rows ++ [row])
  | Op.delete id :: ops, rows => liveWrites ops (rows.filter (fun r => decide (r.Id ≠ id)))
  | Op.update row :: ops, rows =>
    liveWrites ops (rows.filter (fun r => decide (r.Id ≠ row.Id)) ++ [row])

/-! ## Example data: the seed schemas of `NewDatabase` -/

/-- The columns `userCols` of `NewDatabase`. -/
def userCols : List ColumnDef :=
  [ { Name := str "id", Typ := DbType.IntType, IsPrimaryKey := true, IsUnique := false },
    { Name := str "username", Typ := DbType.StringType, IsPrimaryKey := false, IsUnique := false },
    { Name := str "age", Typ := DbType.IntType, IsPrimaryKey := false, IsUnique := false } ]

/-- The row of `INSERT INTO users VALUES (001, "John Doe", 25)`. -/
def johnRow : Row :=
  { Id := 1
    Data := [(str "id", Value.int 1), (str "username", Value.str (str "John Doe")),
      (str "age", Value.int 25)]
    IsDeleted := false }

/-- The empty `users` table of the `default` database, before its file exists. -/
def usersTable : Table :=
  { Schema := { Name := str "users", Columns := userCols }
    filePath := str "default_users.db"
    PrimaryKeyIdx := []
    UniqueIndexes := [] }

/-- A schema with a unique text column:
`CREATE TABLE members (id int, email text UNIQUE, age int)`. -/
def memberCols : List ColumnDef :=
  [ { Name := str "id", Typ := DbType.IntType, IsPrimaryKey := true, IsUnique := false },
    { Name := str "email", Typ := DbType.StringType, IsPrimaryKey := false, IsUnique := true },
    { Name := str "age", Typ := DbType.IntType, IsPrimaryKey := false, IsUnique := false } ]

/-- A row of `members`. -/
def memberRow (id : Int) (email : String) (age : Int) : Row :=
  { Id := id
    Data := [(str "id", Value.int id), (str "email", Value.str (str email)),
      (str "age", Value.int age)]
    IsDeleted := false }

/-- The email column of `memberCols`. -/
def emailCol : ColumnDef :=
  { Name := str "email", Typ := DbType.StringType, IsPrimaryKey := false, IsUnique := true }

/-- The `members` table of database `shop` as `NewTable` creates it, with its empty
file. -/
def membersFresh : Table × Option (List Nat) :=
  ({ Schema := { Name := str "members", Columns := memberCols }
     filePath := str "shop_members.db"
     PrimaryKeyIdx := []
     UniqueIndexes := [(str "email", [])] }, some [])

/-- The `users` table of database `default` as `NewTable` creates it, with its empty
file. -/
def usersFresh : Table × Option (List Nat) :=
  (usersTable, some [])

/-- A row of `users`. -/
def userRow (id : Int) (username : String) (age : Int) : Row :=
  { Id := id
    Data := [(str "id", Value.int id), (str "username", Value.str (str username)),
      (str "age", Value.int age)]
    IsDeleted := false }

/-- A row of `users` with the text `s` as its `username`. -/
def textRow (s : GoString) : Row :=
  { Id := 1
    Data := [(str "id", Value.int 1), (str "username", Value.str s), (str "age", Value.int 25)]
    IsDeleted := false }

/-- The schema of `CREATE TABLE t (id int)`. -/
def idCols : List ColumnDef :=
  [ { Name := str "id", Typ := DbType.IntType, IsPrimaryKey := true, IsUnique := false } ]

/-- The row of `INSERT INTO t VALUES (<id>)` for the schema `idCols`. -/
def idRow (id : Int) : Row :=
  { Id := id, Data := [(str "id", Value.int id)], IsDeleted := false }

/-! ## The Go library functions of `database.go`

`strings`, `strconv`, `fmt` and `encoding/json` as far as `database.go` calls them.
The Unicode case tables of the Go runtime are not part of the repository: the result of
`strings.ToUpper` / `strings.ToLower` on a string that holds a non-ASCII byte is a
parameter (`Unicode`); on ASCII strings both functions are modelled exactly. -/

/-- The case mapping of the Go runtime on strings that hold a non-ASCII byte:
`strings.Map(unicode.ToUpper, s)` and `strings.Map(unicode.ToLower, s)`. -/
structure Unicode where
  upper : GoString → GoString
  lower : GoString → GoString

/-- A case mapping for statements written in ASCII, which never consult it. -/
def asciiOnly : Unicode :=
  { upper := fun s => s, lower := fun s => s }

/-- The function `strings.ToUpper`. -/
def ToUpper (U : Unicode) (s : GoString) : GoString :=
  if s.all (fun b => decide (b < 128)) then
    s.map (fun b => if 97 ≤ b ∧ b ≤ 122 then b - 32 else b)
  else U.upper s

/-- The function `strings.ToLower`. -/
def ToLower (U : Unicode) (s : GoString) : GoString :=
  if s.all (fun b => decide (b < 128)) then
    s.map (fun b => if 65 ≤ b ∧ b ≤ 90 then b + 32 else b)
  else U.lower s

/-- The number of bytes of the white-space rune (`unicode.IsSpace`) encoded at the head
of the input, 0 when there is none: the ASCII spaces, U+0085, U+00A0, U+1680,
U+2000 to U+200A, U+2028, U+2029, U+202F, U+205F, U+3000. -/
def spaceLen : List Nat → Nat
  | [] => 0
  | b0 :: r =>
    if b0 = 9 ∨ b0 = 10 ∨ b0 = 11 ∨ b0 = 12 ∨ b0 = 13 ∨ b0 = 32 then 1
    else match r with
      | b1 :: b2 :: _ =>
        if b0 = 194 ∧ (b1 = 133 ∨ b1 = 160) then 2
        else if b0 = 225 ∧ b1 = 154 ∧ b2 = 128 then 3
        else if b0 = 226 ∧ b1 = 128 ∧
            ((128 ≤ b2 ∧ b2 ≤ 138) ∨ b2 = 168 ∨ b2 = 169 ∨ b2 = 175) then 3
        else if b0 = 226 ∧ b1 = 129 ∧ b2 = 159 then 3
        else if b0 = 227 ∧ b1 = 128 ∧ b2 = 128 then 3
        else 0
      | b1 :: [] => if b0 = 194 ∧ (b1 = 133 ∨ b1 = 160) then 2 else 0
      | [] => 0

/-- The scan of `strings.Fields`: `skip` counts the bytes still to drop of the
white-space rune being passed, `cur` is the field being collected. -/
def fieldsAux : List Nat → Nat → GoString → List GoString
  | [], _, cur => if cur = [] then [] else [cur]
  | _ :: r, skip + 1, cur => fieldsAux r skip cur
  | b :: r, 0, cur =>
    if spaceLen (b :: r) = 0 then fieldsAux r 0 (cur ++ [b])
    else (if cur = [] then [] else [cur]) ++ fieldsAux r (spaceLen (b :: r) - 1) []

/-- The function `strings.Fields`. -/
def Fields (s : GoString) : List GoString :=
  fieldsAux s 0 []

/-- Leading white space removed (`strings.TrimLeftFunc(s, unicode.IsSpace)`); `fuel`
bounds the number of runes. -/
def trimLeftSpace : Nat → GoString → GoString
  | 0, s => s
  | fuel + 1, s => if spaceLen s = 0 then s else trimLeftSpace fuel (s.drop (spaceLen s))

/-- The number of bytes of the white-space rune encoded at the end of the input, given
reversed; 0 when there is none. -/
def spaceLenRev : List Nat → Nat
  | [] => 0
  | b0 :: r =>
    if b0 = 9 ∨ b0 = 10 ∨ b0 = 11 ∨ b0 = 12 ∨ b0 = 13 ∨ b0 = 32 then 1
    else match r with
      | b1 :: b2 :: _ =>
        if b1 = 194 ∧ (b0 = 133 ∨ b0 = 160) then 2
        else if b2 = 225 ∧ b1 = 154 ∧ b0 = 128 then 3
        else if b2 = 226 ∧ b1 = 128 ∧
            ((128 ≤ b0 ∧ b0 ≤ 138) ∨ b0 = 168 ∨ b0 = 169 ∨ b0 = 175) then 3
        else if b2 = 226 ∧ b1 = 129 ∧ b0 = 159 then 3
        else if b2 = 227 ∧ b1 = 128 ∧ b0 = 128 then 3
        else 0
      | b1 :: [] => if b1 = 194 ∧ (b0 = 133 ∨ b0 = 160) then 2 else 0
      | [] => 0

/-- Trailing white space removed, on the reversed string. -/
def trimLeftSpaceRev : Nat → GoString → GoString
  | 0, s => s
  | fuel + 1, s =>
    if spaceLenRev s = 0 then s else trimLeftSpaceRev fuel (s.drop (spaceLenRev s))

/-- The function `strings.TrimSpace`. -/
def TrimSpace (s : GoString) : GoString :=
  (trimLeftSpaceRev s.length (trimLeftSpace s.length s).reverse).reverse

/-- Leading bytes of `cutset` removed. -/
def trimLeftSet (cutset : GoString) : GoString → GoString
  | [] => []
  | b :: r => if b ∈ cutset then trimLeftSet cutset r else b :: r

/-- The function `strings.Trim` for an ASCII `cutset`. -/
def Trim (s cutset : GoString) : GoString :=
  (trimLeftSet cutset (trimLeftSet cutset s).reverse).reverse

/-- The test `strings.HasPrefix`. -/
def startsWith : GoString → GoString → Bool
  | _, [] => true
  | [], _ :: _ => false
  | b :: s, c :: p => decide (b = c) && startsWith s p

/-- The function `strings.TrimPrefix`. -/
def trimStart (s p : GoString) : GoString :=
  if startsWith s p then s.drop p.length else s

/-- The function `strings.Index`: the offset of the first occurrence, `none` for -1. -/
def Index : GoString → GoString → Option Nat
  | [], sub => if sub = [] then some 0 else none
  | b :: s, sub =>
    if startsWith (b :: s) sub then some 0 else (Index s sub).map (fun i => i + 1)

/-- The function `strings.LastIndex`: the offset of the last occurrence, `none` for
-1. -/
def LastIndex : GoString → GoString → Option Nat
  | [], sub => if sub = [] then some 0 else none
  | b :: s, sub =>
    match LastIndex s sub with
    | some i => some (i + 1)
    | none => if startsWith (b :: s) sub then some 0 else none

/-- The test `strings.Contains`. -/
def Contains (s sub : GoString) : Bool :=
  (Index s sub).isSome

/-- The scan of `strings.Split` for a non-empty separator: `skip` counts the bytes
still to drop of the separator being passed. -/
def splitAux (sep : GoString) : List Nat → Nat → GoString → List GoString
  | [], _, cur => [cur]
  | _ :: r, skip + 1, cur => splitAux sep r skip cur
  | b :: r, 0, cur =>
    if startsWith (b :: r) sep then cur :: splitAux sep r (sep.length - 1) []
    else splitAux sep r 0 (cur ++ [b])

/-- The function `strings.Split` for a non-empty separator. -/
def Split (s sep : GoString) : List GoString :=
  splitAux sep s 0 []

/-- The function `strings.Join` with the empty separator. -/
def Join (parts : List GoString) : GoString :=
  parts.flatten

/-- The slice expression `s[lo:hi]`; `none` is the panic on bounds out of range. -/
def slice (s : GoString) (lo hi : Nat) : Option GoString :=
  if lo ≤ hi ∧ hi ≤ s.length then some ((s.take hi).drop lo) else none

/-- The slice expression `s[lo:]`; `none` is the panic on bounds out of range. -/
def sliceFrom (s : GoString) (lo : Nat) : Option GoString :=
  slice s lo s.length

/-- The digit loop of `strconv.ParseUint(s, 10, 64)`: `none` is a syntax error, a
`false` flag a range error, met as soon as the value leaves the 64-bit range. -/
def parseDigits : List Nat → Nat → Option (Nat × Bool)
  | [], n => some (n, true)
  | c :: r, n =>
    if 48 ≤ c ∧ c ≤ 57 then
      if n ≥ 1844674407370955162 then some (18446744073709551615, false)
      else if n * 10 + (c - 48) > 18446744073709551615 then some (18446744073709551615, false)
      else parseDigits r (n * 10 + (c - 48))
    else none

/-- The value `strconv.ParseInt(s, 10, 0)` returns for the digits `body` after the
sign. -/
def parseSigned (neg : Bool) (body : GoString) : Int :=
  if body = [] then 0
  else match parseDigits body 0 with
    | none => 0
    | some (n, _) =>
      if neg then (if n > 9223372036854775808 then -9223372036854775808 else -(Int.ofNat n))
      else (if n ≥ 9223372036854775808 then 9223372036854775807 else Int.ofNat n)

/-- The value `strconv.Atoi` returns on a 64-bit platform; every caller drops the
error.  A syntax error gives 0, a range error the nearest 64-bit integer. -/
def Atoi : GoString → Int
  | [] => 0
  | 43 :: r => parseSigned false r
  | 45 :: r => parseSigned true r
  | c :: r => parseSigned false (c :: r)

/-- A hexadecimal digit of `encoding/json`. -/
def hexDigit (n : Nat) : Nat :=
  if n < 10 then 48 + n else 87 + n

/-- The size of the rune `utf8.DecodeRuneInString` reads at the head of the input: 1 for
an ASCII byte, 2 to 4 for a well-formed sequence, 0 for an invalid byte (the rune
error of width 1). -/
def runeLen : List Nat → Nat
  | [] => 0
  | b0 :: r =>
    if b0 < 128 then 1
    else if b0 < 194 then 0
    else if b0 < 224 then
      match r with
      | b1 :: _ => if 128 ≤ b1 ∧ b1 ≤ 191 then 2 else 0
      | _ => 0
    else if b0 < 240 then
      match r with
      | b1 :: b2 :: _ =>
        if (if b0 = 224 then 160 else 128) ≤ b1 ∧ b1 ≤ (if b0 = 237 then 159 else 191) ∧
            128 ≤ b2 ∧ b2 ≤ 191 then 3 else 0
      | _ => 0
    else if b0 < 245 then
      match r with
      | b1 :: b2 :: b3 :: _ =>
        if (if b0 = 240 then 144 else 128) ≤ b1 ∧ b1 ≤ (if b0 = 244 then 143 else 191) ∧
            128 ≤ b2 ∧ b2 ≤ 191 ∧ 128 ≤ b3 ∧ b3 ≤ 191 then 4 else 0
      | _ => 0
    else 0

/-- The body of a JSON string as `encoding/json` writes it with HTML escaping: `keep`
counts the bytes still to copy of the rune being passed. -/
def jsonEscape : List Nat → Nat → GoString
  | [], _ => []
  | b :: r, keep + 1 => b :: jsonEscape r keep
  | 226 :: 128 :: 168 :: r, 0 => 92 :: 117 :: 50 :: 48 :: 50 :: 56 :: jsonEscape r 0
  | 226 :: 128 :: 169 :: r, 0 => 92 :: 117 :: 50 :: 48 :: 50 :: 57 :: jsonEscape r 0
  | b :: r, 0 =>
    if b < 128 then
      if b = 92 ∨ b = 34 then 92 :: b :: jsonEscape r 0
      else if b = 8 then 92 :: 98 :: jsonEscape r 0
      else if b = 12 then 92 :: 102 :: jsonEscape r 0
      else if b = 10 then 92 :: 110 :: jsonEscape r 0
      else if b = 13 then 92 :: 114 :: jsonEscape r 0
      else if b = 9 then 92 :: 116 :: jsonEscape r 0
      else if b < 32 ∨ b = 38 ∨ b = 60 ∨ b = 62 then
        92 :: 117 :: 48 :: 48 :: hexDigit (b / 16) :: hexDigit (b % 16) :: jsonEscape r 0
      else b :: jsonEscape r 0
    else if runeLen (b :: r) = 0 then
      92 :: 117 :: 102 :: 102 :: 102 :: 100 :: jsonEscape r 0
    else b :: jsonEscape r (runeLen (b :: r) - 1)

/-- A JSON string literal. -/
def jsonString (s : GoString) : GoString :=
  34 :: (jsonEscape s 0 ++ [34])

/-- A JSON value of `Row.Data`. -/
def jsonValue : Value → GoString
  | Value.int v => formatInt v
  | Value.str s => jsonString s

/-- The byte-wise order of Go strings, `a < b`. -/
def strLt : GoString → GoString → Bool
  | [], [] => false
  | [], _ :: _ => true
  | _ :: _, [] => false
  | a :: x, b :: y => decide (a < b) || (decide (a = b) && strLt x y)

/-- Insertion of a map entry into a list sorted by key. -/
def insertSorted (e : GoString × Value) : List (GoString × Value) → List (GoString × Value)
  | [] => [e]
  | e1 :: l => if strLt e1.1 e.1 then e1 :: insertSorted e l else e :: e1 :: l

/-- The entries of a map sorted by key, as `encoding/json` visits them. -/
def sortByKey : List (GoString × Value) → List (GoString × Value)
  | [] => []
  | e :: l => insertSorted e (sortByKey l)

/-- The members of a JSON object, separated by commas. -/
def jsonMembers : List (GoString × Value) → GoString
  | [] => []
  | [e] => jsonString e.1 ++ 58 :: jsonValue e.2
  | e :: l => jsonString e.1 ++ 58 :: jsonValue e.2 ++ 44 :: jsonMembers l

/-- The text `json.Marshal(row.Data)` returns: an object with the keys in sorted
order. -/
def jsonMarshal (data : List (GoString × Value)) : GoString :=
  123 :: (jsonMembers (sortByKey data) ++ [125])

/-! ## database.go

The state a statement runs in is the `Database` (its table mapping) together with the
files of the working directory.  A handler returns the result string, `none` when it
panics; `ExecuteSql` recovers the panic and returns the empty string. -/

/-- The files of the working directory, by path. -/
abbrev Files := List (GoString × List Nat)

/-- A database (the mutex is not modelled). -/
structure Database where
  Name : GoString
  Tables : List (GoString × Table)
  deriving DecidableEq

/-- The file of a table after a call, written back to the directory. -/
def putFile (files : Files) (path : GoString) (file : Option (List Nat)) : Files :=
  match file with
  | some content => mapSet files path content
  | none => mapDelete files path

/-- The state after a method of the table registered as `name` has run. -/
def putTable (db : Database) (files : Files) (name : GoString)
    (r : Table × Option (List Nat)) : Database × Files :=
  ({ db with Tables := mapSet db.Tables name r.1 }, putFile files r.1.filePath r.2)

/-- The column loop of `handleCreate` over the comma-separated definitions. -/
def parseColumns (U : Unicode) : List GoString → List ColumnDef
  | [] => []
  | c :: rest =>
    match Fields (TrimSpace c) with
    | name :: typeStr :: more =>
      { Name := name
        Typ := if ToLower U typeStr = str "int" then DbType.IntType else DbType.StringType
        IsPrimaryKey := decide (name = str "id")
        IsUnique := match more with
          | u :: _ => decide (ToUpper U u = str "UNIQUE")
          | [] => false } :: parseColumns U rest
    | _ => parseColumns U rest

/-- The validation loop of `handleCreate`: some column is named `id` and has type
`int`. -/
def hasId (columns : List ColumnDef) : Bool :=
  columns.any (fun c => decide (c.Name = str "id") && decide (c.Typ = DbType.IntType))

/-- The handler `handleCreate`. -/
def handleCreate (U : Unicode) (db : Database) (files : Files) (sql : GoString) :
    Option GoString × Database × Files :=
  match Index sql (str "("), LastIndex sql (str ")") with
  | some openParen, some closeParen =>
    match slice sql 0 openParen, slice sql (openParen + 1) closeParen with
    | some headerPart, some bodyPart =>
      match (Fields (TrimSpace headerPart)).getLast? with
      | none => (none, db, files)
      | some tableName =>
        if (mapGet db.Tables tableName).isSome then (some (str "Table already exists."), db, files)
        else if hasId (parseColumns U (Split bodyPart (str ","))) = false then
          (some (str "Error: Table must include an 'id' column of type 'int'."), db, files)
        else
          match NewTable db.Name tableName (parseColumns U (Split bodyPart (str ",")))
              (mapGet files (tablePath db.Name tableName)) with
          | none => (none, db, files)
          | some r =>
            (some (str "Table '" ++ tableName ++ str "' created successfully."),
              putTable db files tableName r)
    | _, _ => (none, db, files)
  | _, _ =>
    (some (str "Syntax error. Usage: CREATE TABLE [name] (col type [UNIQUE], ...)"), db, files)

/-- The handler `handleDrop`. -/
def handleDrop (db : Database) (files : Files) (sql : GoString) :
    Option GoString × Database × Files :=
  match Fields sql with
  | _ :: _ :: tableName :: _ =>
    match mapGet db.Tables tableName with
    | some t =>
      (some (str "Table '" ++ tableName ++ str "' dropped."),
        { db with Tables := mapDelete db.Tables tableName }, t.Drop files)
    | none => (some (str "Table not found."), db, files)
  | _ => (some (str "Syntax error."), db, files)

/-- The row loop of `handleInsert`: the values are matched with the columns by
position, up to the shorter of the two lists. -/
def buildRow : List ColumnDef → List GoString → Row → Row
  | [], _, row => row
  | _ :: _, [], row => row
  | col :: cols, v :: values, row =>
    buildRow cols values
      { Id := if col.Name = str "id" then Atoi (Trim (TrimSpace v) [34, 39]) else row.Id
        Data :=
          if col.Typ = DbType.IntType then
            mapSet row.Data col.Name (Value.int (Atoi (Trim (TrimSpace v) [34, 39])))
          else mapSet row.Data col.Name (Value.str (Trim (TrimSpace v) [34, 39]))
        IsDeleted := row.IsDeleted }

/-- The result of a handler after a mutating `Table` method has run on the table
registered as `name`. -/
def afterCall (db : Database) (files : Files) (name : GoString)
    (r : Ret × Table × Option (List Nat)) (onOk : GoString) (onError : TableError → GoString) :
    Option GoString × Database × Files :=
  match r.1 with
  | Ret.ok => (some onOk, putTable db files name r.2)
  | Ret.error e => (some (onError e), putTable db files name r.2)
  | Ret.panic => (none, putTable db files name r.2)

/-- The handler `handleInsert`. -/
def handleInsert (U : Unicode) (db : Database) (files : Files) (sql : GoString) :
    Option GoString × Database × Files :=
  match Index (ToUpper U sql) (str "INTO "), Index (ToUpper U sql) (str " VALUES") with
  | some idxInto, some idxValues =>
    match slice sql (idxInto + 5) idxValues, sliceFrom sql (idxValues + 7) with
    | some namePart, some valPart =>
      match mapGet db.Tables (TrimSpace namePart) with
      | none => (some (str "Table not found."), db, files)
      | some table =>
        afterCall db files (TrimSpace namePart)
          (table.Insert (mapGet files table.filePath)
            (buildRow table.Schema.Columns (Split (Trim (TrimSpace valPart) (str "()")) (str ","))
              NewRow))
          (str "Row inserted successfully.") (fun e => str "Error: " ++ e.Error)
    | _, _ => (none, db, files)
  | _, _ => (some (str "Syntax Error."), db, files)

/-- The text `handleJoin` writes for the columns of a row other than `id`.  Go leaves
the order in which `range` visits a map unspecified; the model visits the entries in
the order they were stored. -/
def joinColumns : List (GoString × Value) → GoString
  | [] => []
  | e :: l =>
    if e.1 ≠ str "id" then sprintV (some e.2) ++ str ", " ++ joinColumns l
    else joinColumns l

/-- The inner loop of `handleJoin` over the rows of the second table. -/
def joinInner (t1Col t2Col : GoString) (r1 : Row) : List Row → GoString
  | [] => []
  | r2 :: rows2 =>
    if sprintV (mapGet r1.Data t1Col) = sprintV (mapGet r2.Data t2Col) then
      formatInt r1.Id ++ str " | " ++ joinColumns r1.Data ++ str " <-> " ++ joinColumns r2.Data
        ++ str "\n" ++ joinInner t1Col t2Col r1 rows2
    else joinInner t1Col t2Col r1 rows2

/-- The outer loop of `handleJoin` over the rows of the first table. -/
def joinOuter (t1Col t2Col : GoString) (rows2 : List Row) : List Row → GoString
  | [] => []
  | r1 :: rows1 => joinInner t1Col t2Col r1 rows2 ++ joinOuter t1Col t2Col rows2 rows1

/-- The handler `handleJoin`. -/
def handleJoin (U : Unicode) (db : Database) (files : Files) (sql : GoString) :
    Option GoString :=
  match Index (ToUpper U sql) (str "FROM "), Index (ToUpper U sql) (str " JOIN "),
      Index (ToUpper U sql) (str " ON ") with
  | some idxFrom, some idxJoin, some idxOn =>
    match slice sql (idxFrom + 5) idxJoin, slice sql (idxJoin + 6) idxOn,
        sliceFrom sql (idxOn + 4) with
    | some p1, some p2, some p3 =>
      match mapGet db.Tables (TrimSpace p1), mapGet db.Tables (TrimSpace p2) with
      | some t1, some t2 =>
        match Split (TrimSpace p3) (str "=") with
        | [c0, c1] =>
          match Split (TrimSpace c0) (str "."), Split (TrimSpace c1) (str ".") with
          | [l0, l1], [r0, r1] =>
            match t1.SelectAll (mapGet files t1.filePath),
                t2.SelectAll (mapGet files t2.filePath) with
            | some rows1, some rows2 =>
              some (str "--- JOIN RESULT (" ++ TrimSpace p1 ++ str " + " ++ TrimSpace p2
                ++ str ") ---\n"
                ++ joinOuter (if l0 ≠ TrimSpace p1 then r1 else l1)
                    (if r0 ≠ TrimSpace p2 then l1 else r1) rows2 rows1)
            | _, _ => none
          | _, _ => some (str "Cols must be t.col")
        | _ => some (str "Invalid join condition")
      | _, _ => some (str "Table not found.")
    | _, _, _ => none
  | _, _, _ => some (str "Syntax error.")

/-- The loop of `handleSelect` over the rows of a full scan. -/
def selectLines : List Row → GoString
  | [] => []
  | r :: rows => jsonMarshal r.Data ++ str "\n" ++ selectLines rows

/-- The handler `handleSelect`. -/
def handleSelect (U : Unicode) (db : Database) (files : Files) (sql : GoString) :
    Option GoString :=
  if Contains (ToUpper U sql) (str " JOIN ") then handleJoin U db files sql
  else
    match mapGet db.Tables ((Fields sql).getD 3 []) with
    | none => some (str "Table not found.")
    | some table =>
      match Index (ToUpper U sql) (str "WHERE ID=") with
      | some whereIdx =>
        match sliceFrom sql (whereIdx + 9) with
        | none => none
        | some idPart =>
          match table.SelectById (mapGet files table.filePath) (Atoi (TrimSpace idPart)) with
          | none => none
          | some none => some (str "No results.")
          | some (some row) => some (jsonMarshal row.Data)
      | none => (table.SelectAll (mapGet files table.filePath)).map selectLines

/-- The inner loop of `handleUpdate` over the columns: every column named `key`
receives the value, converted for an `int` column. -/
def applySet (key val : GoString) : List ColumnDef → List (GoString × Value) →
    List (GoString × Value)
  | [], data => data
  | col :: cols, data =>
    if col.Name = key then
      if col.Typ = DbType.IntType then applySet key val cols (mapSet data key (Value.int (Atoi val)))
      else applySet key val cols (mapSet data key (Value.str val))
    else applySet key val cols data

/-- The loop of `handleUpdate` over the assignments; `none` is the panic of `kv[1]` on
an assignment without `=`. -/
def applyUpdates (cols : List ColumnDef) : List GoString → List (GoString × Value) →
    Option (List (GoString × Value))
  | [], data => some data
  | up :: updates, data =>
    match Split up (str "=") with
    | k :: v :: _ =>
      applyUpdates cols updates (applySet (TrimSpace k) (Trim (TrimSpace v) [34, 39]) cols data)
    | _ => none

/-- The handler `handleUpdate`. -/
def handleUpdate (U : Unicode) (db : Database) (files : Files) (sql : GoString) :
    Option GoString × Database × Files :=
  match Index (ToUpper U sql) (str " SET "), Index (ToUpper U sql) (str " WHERE ") with
  | some idxSet, some idxWhere =>
    match slice sql 6 idxSet, slice sql (idxSet + 5) idxWhere, sliceFrom sql (idxWhere + 7) with
    | some namePart, some setClause, some whereClause =>
      match mapGet db.Tables (TrimSpace namePart) with
      | none => (some (str "Table not found."), db, files)
      | some t =>
        match Split (TrimSpace whereClause) (str "=") with
        | _ :: idPart :: _ =>
          match t.SelectById (mapGet files t.filePath) (Atoi (TrimSpace idPart)) with
          | none => (none, db, files)
          | some none => (some (str "Row not found."), db, files)
          | some (some row) =>
            match applyUpdates t.Schema.Columns (Split (TrimSpace setClause) (str ",")) row.Data with
            | none => (none, db, files)
            | some data =>
              afterCall db files (TrimSpace namePart)
                (t.Update (mapGet files t.filePath) { row with Data := data })
                (str "Row updated successfully.") (fun e => e.Error)
        | _ => (some (str "Invalid ID"), db, files)
    | _, _, _ => (none, db, files)
  | _, _ => (some (str "Syntax error."), db, files)

/-- The handler `handleDelete`. -/
def handleDelete (U : Unicode) (db : Database) (files : Files) (sql : GoString) :
    Option GoString × Database × Files :=
  match Fields sql with
  | _ :: _ :: tableName :: _ :: rest =>
    if rest = [] then (some (str "Syntax error."), db, files)
    else if startsWith (ToUpper U (Join rest)) (str "ID=") = false then
      (some (str "Only delete by ID supported."), db, files)
    else
      match mapGet db.Tables tableName with
      | none => (some (str "Table not found."), db, files)
      | some t =>
        afterCall db files tableName
          (t.Delete (mapGet files t.filePath) (Atoi (trimStart (ToUpper U (Join rest)) (str "ID="))))
          (str "Row deleted successfully.") (fun e => e.Error)
  | _ => (some (str "Syntax error."), db, files)

/-- The switch of `ExecuteSql` on the upper-cased first field. -/
def dispatch (U : Unicode) (db : Database) (files : Files) (sql command : GoString) :
    Option GoString × Database × Files :=
  if command = str "CREATE" then handleCreate U db files sql
  else if command = str "DROP" then handleDrop db files sql
  else if command = str "INSERT" then handleInsert U db files sql
  else if command = str "SELECT" then (handleSelect U db files sql, db, files)
  else if command = str "UPDATE" then handleUpdate U db files sql
  else if command = str "DELETE" then handleDelete U db files sql
  else (some (str "Unknown command."), db, files)

/-- The method `ExecuteSql`: the result string and the state after the statement.  A
panic of the handler is recovered and the zero value of the result, the empty string,
is returned. -/
def ExecuteSql (U : Unicode) (db : Database) (files : Files) (sql : GoString) :
    GoString × Database × Files :=
  match Fields sql with
  | [] => ([], db, files)
  | first :: _ =>
    ((dispatch U db files sql (ToUpper U first)).1.getD [],
      (dispatch U db files sql (ToUpper U first)).2)

/-- The statements of a session run one after the other; the results are collected. -/
def execAll (U : Unicode) : List GoString → Database × Files → List GoString × Database × Files
  | [], s => ([], s)
  | sql :: rest, s =>
    (((ExecuteSql U s.1 s.2 sql).1 :: (execAll U rest (ExecuteSql U s.1 s.2 sql).2).1),
      (execAll U rest (ExecuteSql U s.1 s.2 sql).2).2)

/-- A database without tables. -/
def emptyDb (name : String) : Database :=
  { Name := str name, Tables := [] }

/-! ## Vocabulary of the statements about literals, joins, records and file paths -/

/-- The digits of an integer literal: the text after one leading sign. -/
def literalBody : GoString → GoString
  | 43 :: r => r
  | 45 :: r => r
  | s => s

/-- The sign of an integer literal: `true` when it starts with `-`. -/
def literalNeg : GoString → Bool
  | 45 :: _ => true
  | _ => false

/-- The number a string of decimal digits denotes, continuing from `n`. -/
def decimalValue : List Nat → Nat → Nat
  | [], n => n
  | c :: r, n => decimalValue r (n * 10 + (c - 48))

/-- Text that is not an integer literal and whose parse ends in a syntax error: after
the sign there is nothing, or a byte that is not a digit stands after digits that
denote a number within 64 bits. -/
def NotNumber (raw : GoString) : Prop :=
  literalBody raw = [] ∨
    ∃ ds c rest, literalBody raw = ds ++ c :: rest ∧ (∀ d ∈ ds, 48 ≤ d ∧ d ≤ 57) ∧
      ¬ (48 ≤ c ∧ c ≤ 57) ∧ decimalValue ds 0 ≤ 18446744073709551615

/-- An integer literal above the 64-bit machine integer range. -/
def TooLarge (raw : GoString) : Prop :=
  literalNeg raw = false ∧ literalBody raw ≠ [] ∧ (∀ d ∈ literalBody raw, 48 ≤ d ∧ d ≤ 57) ∧
    9223372036854775808 ≤ decimalValue (literalBody raw) 0

/-- An integer literal below the 64-bit machine integer range. -/
def TooSmall (raw : GoString) : Prop :=
  literalNeg raw = true ∧ literalBody raw ≠ [] ∧ (∀ d ∈ literalBody raw, 48 ≤ d ∧ d ≤ 57) ∧
    9223372036854775808 < decimalValue (literalBody raw) 0

/-- The line `handleJoin` writes for a pair of rows whose join values are equal. -/
def joinEntry (r1 r2 : Row) : GoString :=
  formatInt r1.Id ++ str " | " ++ joinColumns r1.Data ++ str " <-> " ++ joinColumns r2.Data
    ++ str "\n"

/-- The head of a record of the file: the offset of its tombstone-flag byte, the flag
and the id. -/
structure RecordHead where
  offset : Nat
  deleted : Bool
  id : Int
  deriving DecidableEq

/-- The records of a file as the loops of `loadIndex` and `SelectAll` delimit them, from
file position `pos`; `fuel` bounds the number of records.  The scan ends where the flag
or the id cannot be read, and after a record whose columns cannot be read. -/
def scanRecords (cols : List ColumnDef) : Nat → Nat → List Nat → List RecordHead
  | 0, _, _ => []
  | fuel + 1, pos, r =>
    match readBool r with
    | none => []
    | some (isDeleted, r1) =>
      match readInt32 r1 with
      | (none, _) => []
      | (some id, r2) =>
        match readColumns cols r2 [] with
        | none => [{ offset := pos, deleted := isDeleted, id := id }]
        | some (_, r3) =>
          { offset := pos, deleted := isDeleted, id := id }
            :: scanRecords cols fuel (pos + (r.length - r3.length)) r3

/-- The records of a table file; none when the file does not exist. -/
def fileRecords (cols : List ColumnDef) (file : Option (List Nat)) : List RecordHead :=
  match file with
  | none => []
  | some content => scanRecords cols content.length 0 content

/-- Following the spec's words, the primary-key index invariant: an id is a key of the
index if and only if the file contains a record with tombstone flag 0 and that id,
there is at most one such record, and the index maps the id to the offset of that
record's tombstone-flag byte. -/
def IndexInvariant (t : Table) (file : Option (List Nat)) : Prop :=
  ∀ id : Int,
    ((mapGet t.PrimaryKeyIdx id).isSome ↔
      ∃ rec ∈ fileRecords t.Schema.Columns file, rec.deleted = false ∧ rec.id = id) ∧
    (∀ r1 ∈ fileRecords t.Schema.Columns file, ∀ r2 ∈ fileRecords t.Schema.Columns file,
      r1.deleted = false → r1.id = id → r2.deleted = false → r2.id = id → r1 = r2) ∧
    ∀ offset, mapGet t.PrimaryKeyIdx id = some offset →
      { offset := offset, deleted := false, id := id } ∈ fileRecords t.Schema.Columns file

/-- The record heads of a log that starts at file position `pos`. -/
def logHeads (cols : List ColumnDef) : List Entry → Nat → List RecordHead
  | [], _ => []
  | e :: log, pos =>
    { offset := pos, deleted := e.deleted, id := int32 e.row.Id }
      :: logHeads cols log (pos + (encodeEntry cols e).length)

/-- Every table of the mapping has the file path `NewTable` computes from the name of
the database and the name the table is registered under. -/
def PathsOk (db : Database) : Prop :=
  ∀ name t, mapGet db.Tables name = some t → t.filePath = tablePath db.Name name

/-! ## Example data: tables of the statement scenarios -/

/-- The schema of `CREATE TABLE t (id int, n int)`. -/
def numCols : List ColumnDef :=
  [ { Name := str "id", Typ := DbType.IntType, IsPrimaryKey := true, IsUnique := false },
    { Name := str "n", Typ := DbType.IntType, IsPrimaryKey := false, IsUnique := false } ]

/-- The database `shop` after `CREATE TABLE t (id int, n int)`. -/
def numScenario : Database × Files :=
  (execAll asciiOnly [str "CREATE TABLE t (id int, n int)"] (emptyDb "shop", [])).2

/-- The state of the join scenario: `users(id, name)` with the rows 1 and 2,
`orders(id, user_id, item)` with an order of user 1 and an order of user 3. -/
def joinScenario : Database × Files :=
  (execAll asciiOnly
    [str "CREATE TABLE users (id int, name text)",
      str "CREATE TABLE orders (id int, user_id int, item text)",
      str "INSERT INTO users VALUES (1, \"Ann\")",
      str "INSERT INTO users VALUES (2, \"Bob\")",
      str "INSERT INTO orders VALUES (101, 1, \"Laptop\")",
      str "INSERT INTO orders VALUES (102, 3, \"Phone\")"] (emptyDb "shop", [])).2

/-- The table of `CREATE TABLE t (id int)` in database `db` as `NewTable` creates it,
with its empty file. -/
def idFresh : Table × Option (List Nat) :=
  ({ Schema := { Name := str "t", Columns := idCols }
     filePath := str "db_t.db"
     PrimaryKeyIdx := []
     UniqueIndexes := [] }, some [])

/-- The schema of `CREATE TABLE t (id int UNIQUE)`. -/
def idUniqueCols : List ColumnDef :=
  [ { Name := str "id", Typ := DbType.IntType, IsPrimaryKey := true, IsUnique := true } ]

/-! # Theorems -/

/-! ## The codec round trip -/

theorem int32_of_range (v : Int) (h1 : -2147483648 ≤ v) (h2 : v < 2147483648) : int32 v = v := by
  unfold int32; omega

theorem int32_idem (v : Int) : int32 (int32 v) = int32 v := by
  unfold int32; omega

theorem getInt32_putInt32 (v : Int) :
    getInt32 ((v % 4294967296).toNat % 256) ((v % 4294967296).toNat / 256 % 256)
      ((v % 4294967296).toNat / 65536 % 256) ((v % 4294967296).toNat / 16777216 % 256) = int32 v := by
  unfold getInt32 int32
  simp only [Int.ofNat_eq_coe]
  omega

theorem readInt32_putInt32 (v : Int) (r : List Nat) :
    readInt32 (putInt32 v ++ r) = (some (int32 v), r) := by
  simp only [putInt32, readInt32, List.cons_append, List.nil_append, getInt32_putInt32]

theorem putInt32_length (v : Int) : (putInt32 v).length = 4 := by
  simp [putInt32]

theorem readString_writeString (s : GoString) (r : List Nat) (h : s.length < 2147483648) :
    readString (writeString s ++ r) = some (s, r) := by
  unfold readString writeString
  rw [List.append_assoc, readInt32_putInt32, int32_idem]
  have h3 : int32 (Int.ofNat s.length) = (s.length : Int) := by
    apply int32_of_range <;> simp only [Int.ofNat_eq_coe] <;> omega
  simp only [h3]
  simp

/-! ## Go maps -/

theorem mapGet_mapSet_self {κ ν : Type} [DecidableEq κ] (m : List (κ × ν)) (k : κ) (v : ν) :
    mapGet (mapSet m k v) k = some v := by
  induction m with
  | nil => simp [mapSet, mapGet]
  | cons e m ih =>
    obtain ⟨k1, v1⟩ := e
    by_cases h : k1 = k <;> simp [mapSet, mapGet, h, ih]

theorem mapGet_mapSet_other {κ ν : Type} [DecidableEq κ] (m : List (κ × ν)) (k k2 : κ) (v : ν)
    (h : k ≠ k2) : mapGet (mapSet m k v) k2 = mapGet m k2 := by
  induction m with
  | nil => simp [mapSet, mapGet, h]
  | cons e m ih =>
    obtain ⟨k1, v1⟩ := e
    by_cases h1 : k1 = k
    · subst h1; simp [mapSet, mapGet, h]
    · by_cases h2 : k1 = k2
      · subst h2; simp [mapSet, mapGet, h1]
      · simp [mapSet, mapGet, h1, h2, ih]

theorem mapGet_mapDelete_self {κ ν : Type} [DecidableEq κ] (m : List (κ × ν)) (k : κ) :
    mapGet (mapDelete m k) k = none := by
  induction m with
  | nil => simp [mapDelete, mapGet]
  | cons e m ih =>
    obtain ⟨k1, v1⟩ := e
    unfold mapDelete at ih ⊢
    by_cases h : k1 = k
    · simpa [List.filter_cons, h] using ih
    · simpa [List.filter_cons, h, mapGet] using ih

theorem mapGet_mapDelete_other {κ ν : Type} [DecidableEq κ] (m : List (κ × ν)) (k k2 : κ)
    (h : k ≠ k2) : mapGet (mapDelete m k) k2 = mapGet m k2 := by
  induction m with
  | nil => simp [mapDelete, mapGet]
  | cons e m ih =>
    obtain ⟨k1, v1⟩ := e
    unfold mapDelete at ih ⊢
    by_cases h1 : k1 = k
    · subst h1
      simpa [List.filter_cons, mapGet, h] using ih
    · simp only [List.filter_cons, h1, mapGet, ne_eq, not_false_eq_true, decide_True, ite_true]
      rw [ih]

/-! ## Reading back the record of a row -/

theorem readColumns_encodeColumns (row : Row) (cols : List ColumnDef) (rest : List Nat)
    (data : List (GoString × Value)) (h : ShortText cols row) :
    readColumns cols (encodeColumns row cols ++ rest) data
      = some (storedData row cols data, rest) := by
  induction cols generalizing data with
  | nil => simp [readColumns, encodeColumns, storedData]
  | cons col cols ih =>
    have h1 : ShortText cols row := fun c hc => h c (List.mem_cons_of_mem _ hc)
    by_cases hid : col.Name = str "id"
    · simp only [readColumns, encodeColumns, storedData, hid, if_true]
      exact ih data h1
    · by_cases ht : col.Typ = DbType.IntType
      · simp only [readColumns, encodeColumns, storedData, storedValue, hid, ht, if_true,
          if_false, List.append_assoc, readInt32_putInt32, int32_idem, Option.getD_some]
        exact ih _ h1
      · have hs : col.Typ = DbType.StringType := by
          cases hc : col.Typ with
          | IntType => exact absurd hc ht
          | StringType => rfl
        have hl := h col (List.mem_cons_self _ _) hid hs
        simp only [readColumns, encodeColumns, storedData, storedValue, hid, ht, if_false,
          List.append_assoc, readString_writeString _ _ hl]
        exact ih _ h1

theorem mapGet_storedData_other (row : Row) (cols : List ColumnDef)
    (data : List (GoString × Value)) (k : GoString)
    (h : ∀ col ∈ cols, col.Name ≠ str "id" → col.Name ≠ k) :
    mapGet (storedData row cols data) k = mapGet data k := by
  induction cols generalizing data with
  | nil => rfl
  | cons col cols ih =>
    have h1 : ∀ c ∈ cols, c.Name ≠ str "id" → c.Name ≠ k :=
      fun c hc => h c (List.mem_cons_of_mem _ hc)
    by_cases hid : col.Name = str "id"
    · simp only [storedData, hid, if_true]; exact ih data h1
    · simp only [storedData, hid, if_false]
      rw [ih _ h1, mapGet_mapSet_other _ _ _ _ (h col (List.mem_cons_self _ _) hid)]

theorem mapGet_storedData (row : Row) (cols : List ColumnDef)
    (data : List (GoString × Value)) (k : GoString) (v : Value)
    (h : ∀ col ∈ cols, col.Name ≠ str "id" → col.Name = k → storedValue col row = v)
    (hk : mapGet data k = some v ∨ ∃ col ∈ cols, col.Name ≠ str "id" ∧ col.Name = k) :
    mapGet (storedData row cols data) k = some v := by
  induction cols generalizing data with
  | nil =>
    rcases hk with hk | ⟨c, hc, _⟩
    · exact hk
    · cases hc
  | cons col cols ih =>
    have h1 : ∀ c ∈ cols, c.Name ≠ str "id" → c.Name = k → storedValue c row = v :=
      fun c hc => h c (List.mem_cons_of_mem _ hc)
    by_cases hid : col.Name = str "id"
    · simp only [storedData, hid, if_true]
      apply ih data h1
      rcases hk with hk | ⟨c, hc, hc1, hc2⟩
      · exact Or.inl hk
      · rcases List.mem_cons.mp hc with rfl | hc
        · exact absurd hid hc1
        · exact Or.inr ⟨c, hc, hc1, hc2⟩
    · simp only [storedData, hid, if_false]
      apply ih _ h1
      by_cases hn : col.Name = k
      · left
        rw [← hn, mapGet_mapSet_self, h col (List.mem_cons_self _ _) hid hn]
      · rcases hk with hk | ⟨c, hc, hc1, hc2⟩
        · left; rw [mapGet_mapSet_other _ _ _ _ hn]; exact hk
        · rcases List.mem_cons.mp hc with rfl | hc
          · exact absurd hc2 hn
          · exact Or.inr ⟨c, hc, hc1, hc2⟩

theorem storedValue_of_valid (col : ColumnDef) (row : Row)
    (h : validValue col.Typ (mapGet row.Data col.Name) = true) :
    some (storedValue col row) = mapGet row.Data col.Name := by
  unfold storedValue
  cases ht : col.Typ with
  | IntType =>
    rw [ht] at h
    cases hv : mapGet row.Data col.Name with
    | none => rw [hv] at h; simp [validValue] at h
    | some v =>
      rw [hv] at h
      cases v with
      | int v =>
        simp only [validValue, Bool.and_eq_true, decide_eq_true_eq] at h
        simp only [assertInt, if_true]
        rw [int32_of_range v h.1 h.2]
      | str s => simp [validValue] at h
  | StringType =>
    rw [ht] at h
    cases hv : mapGet row.Data col.Name with
    | none => rw [hv] at h; simp [validValue] at h
    | some v =>
      rw [hv] at h
      cases v with
      | int v => simp [validValue] at h
      | str s => simp [assertString]

theorem ValidRow.shortText {cols : List ColumnDef} {row : Row} (h : ValidRow cols row) :
    ShortText cols row := by
  intro col hc hid ht
  have hv := h.2.2 col hc hid
  rw [ht] at hv
  cases hd : mapGet row.Data col.Name with
  | none => simp [assertString]
  | some v =>
    cases v with
    | int v => simp [assertString]
    | str s => simpa [validValue, hd, assertString] using hv

/-! ## Insert and the point lookup -/

theorem Insert_ok {t t1 : Table} {file file1 : Option (List Nat)} {row : Row}
    (h : t.Insert file row = (Ret.ok, t1, file1)) :
    mapGet t.PrimaryKeyIdx row.Id = none ∧
    checkUnique t.UniqueIndexes row t.Schema.Columns = none ∧
    t1 = { t with
      PrimaryKeyIdx := mapSet t.PrimaryKeyIdx row.Id (file.getD []).length
      UniqueIndexes := (addUnique row t.Schema.Columns t.UniqueIndexes).1 } ∧
    file1 = some (file.getD [] ++ encodeRecord t.Schema.Columns row) := by
  unfold Table.Insert at h
  cases hpk : mapGet t.PrimaryKeyIdx row.Id with
  | some o => simp [hpk] at h
  | none =>
    cases hu : checkUnique t.UniqueIndexes row t.Schema.Columns with
    | some e => simp [hpk, hu] at h
    | none =>
      simp only [hpk, hu, Option.isSome_none, Bool.false_eq_true, if_false, Prod.mk.injEq] at h
      exact ⟨rfl, rfl, h.2.1.symm, h.2.2.symm⟩

theorem SelectById_record (t : Table) (pre post : List Nat) (row : Row) (id : Int)
    (hs : ShortText t.Schema.Columns row)
    (hidx : mapGet t.PrimaryKeyIdx id = some pre.length) :
    t.SelectById (some (pre ++ encodeRecord t.Schema.Columns row ++ post)) id
      = some (some (storedRow t.Schema.Columns row)) := by
  unfold Table.SelectById
  simp only [hidx, List.append_assoc, List.drop_left, encodeRecord, List.cons_append, readBool,
    Option.elim, bne_self_eq_false, Bool.false_eq_true, if_false, readInt32_putInt32,
    int32_idem, Option.getD_some, readColumns_encodeColumns _ _ _ _ hs, Option.map_some',
    storedRow]

theorem mapGet_storedRow_id (cols : List ColumnDef) (row : Row) :
    mapGet (storedRow cols row).Data (str "id") = some (Value.int (int32 row.Id)) := by
  unfold storedRow
  simp only
  rw [mapGet_storedData_other _ _ _ _ (fun c _ hc => hc), mapGet_mapSet_self]

theorem mapGet_storedRow_of_valid (cols : List ColumnDef) (row : Row) (h : ValidRow cols row)
    (col : ColumnDef) (hc : col ∈ cols) (hid : col.Name ≠ str "id") :
    mapGet (storedRow cols row).Data col.Name = mapGet row.Data col.Name := by
  have hv := storedValue_of_valid col row (h.2.2 col hc hid)
  rw [← hv]
  unfold storedRow
  simp only
  apply mapGet_storedData
  · intro c hcm hcid hcn
    have h1 := storedValue_of_valid c row (h.2.2 c hcm hcid)
    rw [hcn, ← hv] at h1
    exact Option.some.inj h1
  · exact Or.inr ⟨col, hc, hid, rfl⟩

/-- C1. Round trip of `Insert` and `SelectById`: for every table state, every schema
and every valid row (a 32-bit id and a value of the declared type for every column
not named `id`), when `Insert` returns nil the `SelectById` of the row's id that
follows returns a row with the same id and the same value in every column. -/
theorem insert_selectById_roundtrip (t t1 : Table) (file file1 : Option (List Nat)) (row : Row)
    (hv : ValidRow t.Schema.Columns row)
    (h : t.Insert file row = (Ret.ok, t1, file1)) :
    ∃ out : Row, t1.SelectById file1 row.Id = some (some out) ∧ out.Id = row.Id ∧
      mapGet out.Data (str "id") = some (Value.int row.Id) ∧
      ∀ col ∈ t.Schema.Columns, col.Name ≠ str "id" →
        mapGet out.Data col.Name = mapGet row.Data col.Name := by
  obtain ⟨_, _, ht1, hf1⟩ := Insert_ok h
  have hcols : t1.Schema.Columns = t.Schema.Columns := by rw [ht1]
  have hidx : mapGet t1.PrimaryKeyIdx row.Id = some (file.getD []).length := by
    rw [ht1]; exact mapGet_mapSet_self _ _ _
  have hsel := SelectById_record t1 (file.getD []) [] row row.Id
    (by rw [hcols]; exact hv.shortText) hidx
  rw [List.append_nil, hcols] at hsel
  have hid : int32 row.Id = row.Id := int32_of_range _ hv.1 hv.2.1
  refine ⟨storedRow t.Schema.Columns row, ?_, ?_, ?_, ?_⟩
  · rw [hf1]; exact hsel
  · simp [storedRow, hid]
  · rw [mapGet_storedRow_id, hid]
  · intro col hc hcid
    exact mapGet_storedRow_of_valid _ _ hv col hc hcid

/-- Witness of `insert_selectById_roundtrip`: the first seed row inserted into the
empty `users` table. -/
theorem insert_selectById_roundtrip_witness :
    ValidRow usersTable.Schema.Columns johnRow ∧
    (usersTable.Insert none johnRow).1 = Ret.ok ∧
    ∃ out : Row,
      (usersTable.Insert none johnRow).2.1.SelectById (usersTable.Insert none johnRow).2.2 johnRow.Id
        = some (some out) ∧ out.Id = johnRow.Id ∧
      mapGet out.Data (str "id") = some (Value.int johnRow.Id) ∧
      ∀ col ∈ usersTable.Schema.Columns, col.Name ≠ str "id" →
        mapGet out.Data col.Name = mapGet johnRow.Data col.Name :=
  ⟨by unfold ValidRow; decide, by decide,
    insert_selectById_roundtrip usersTable _ none _ johnRow (by unfold ValidRow; decide)
      (by decide)⟩

/-- C3. Primary key uniqueness: for every table state and every two rows with the same
id, when `Insert` of the first returns nil, `Insert` of the second returns the
duplicate-primary-key error and leaves the table (primary-key index and uniqueness
sets), the file bytes and the result of `SelectAll` as they were. -/
theorem insert_duplicate_key (t t1 : Table) (file file1 : Option (List Nat)) (r1 r2 : Row)
    (hid : r2.Id = r1.Id) (h : t.Insert file r1 = (Ret.ok, t1, file1)) :
    (t1.Insert file1 r2).1 = Ret.error (TableError.duplicateKey r2.Id) ∧
    (t1.Insert file1 r2).2.1 = t1 ∧
    (t1.Insert file1 r2).2.2 = file1 ∧
    (t1.Insert file1 r2).2.1.SelectAll (t1.Insert file1 r2).2.2 = t1.SelectAll file1 ∧
    (TableError.duplicateKey r2.Id).Error = str "duplicate Primary Key: " ++ formatInt r2.Id := by
  obtain ⟨_, _, ht1, _⟩ := Insert_ok h
  have hidx : mapGet t1.PrimaryKeyIdx r2.Id = some (file.getD []).length := by
    rw [ht1, hid]; exact mapGet_mapSet_self _ _ _
  have hres : t1.Insert file1 r2 = (Ret.error (TableError.duplicateKey r2.Id), t1, file1) := by
    unfold Table.Insert
    simp [hidx]
  rw [hres]
  exact ⟨rfl, rfl, rfl, rfl, rfl⟩

/-- Witness of `insert_duplicate_key`: the first seed row inserted twice. -/
theorem insert_duplicate_key_witness :
    johnRow.Id = johnRow.Id ∧
    usersTable.Insert none johnRow
      = (Ret.ok, (usersTable.Insert none johnRow).2.1, (usersTable.Insert none johnRow).2.2) ∧
    ((usersTable.Insert none johnRow).2.1.Insert (usersTable.Insert none johnRow).2.2 johnRow).1
      = Ret.error (TableError.duplicateKey 1) :=
  ⟨rfl, by decide,
    (insert_duplicate_key usersTable _ none _ johnRow johnRow rfl (by decide)).1⟩

/-- C2 (the code at the failing input). On `members (id int, email text UNIQUE, age int)`
holding the row `(1, "a@x", 30)`, the call `Update` with `(1, "a@x", 31)` (a new age,
the same e-mail) returns the UNIQUE-constraint error after its `Delete` has tombstoned
the row: the row is absent afterwards. -/
theorem update_keeping_unique_value_loses_row :
    (NewTable (str "shop") (str "members") memberCols none).map (fun s =>
      ((run [Op.insert (memberRow 1 "a@x" 30)] s).1.SelectById
          (run [Op.insert (memberRow 1 "a@x" 30)] s).2 1,
        ((Op.update (memberRow 1 "a@x" 31)).apply (run [Op.insert (memberRow 1 "a@x" 30)] s)).1,
        (run [Op.insert (memberRow 1 "a@x" 30), Op.update (memberRow 1 "a@x" 31)] s).1.SelectById
          (run [Op.insert (memberRow 1 "a@x" 30), Op.update (memberRow 1 "a@x" 31)] s).2 1,
        (run [Op.insert (memberRow 1 "a@x" 30), Op.update (memberRow 1 "a@x" 31)] s).1.SelectAll
          (run [Op.insert (memberRow 1 "a@x" 30), Op.update (memberRow 1 "a@x" 31)] s).2))
    = some (some (some (memberRow 1 "a@x" 30)),
        Ret.error (TableError.uniqueViolation (str "email") (str "a@x")),
        some none, some []) := by
  decide

/-! ## The log of records -/

theorem encodeEntry_length (cols : List ColumnDef) (e : Entry) :
    (encodeEntry cols e).length = 5 + (encodeColumns e.row cols).length := by
  simp [encodeEntry, putInt32_length]; omega

theorem encodeLog_append (cols : List ColumnDef) (l1 l2 : List Entry) :
    encodeLog cols (l1 ++ l2) = encodeLog cols l1 ++ encodeLog cols l2 := by
  induction l1 with
  | nil => rfl
  | cons e l ih => simp [encodeLog, ih]

theorem encodeLog_single (cols : List ColumnDef) (row : Row) :
    encodeLog cols [{ deleted := false, row := row }] = encodeRecord cols row := by
  simp [encodeLog, encodeEntry, encodeRecord]

theorem liveRows_append (l1 l2 : List Entry) :
    liveRows (l1 ++ l2) = liveRows l1 ++ liveRows l2 := by
  induction l1 with
  | nil => rfl
  | cons e l ih => cases hd : e.deleted <;> simp [liveRows, hd, ih]

theorem liveOffset_none_iff (cols : List ColumnDef) (log : List Entry) (pos : Nat) (k : Int) :
    liveOffset cols log pos k = none ↔ k ∉ (liveRows log).map (fun r => r.Id) := by
  induction log generalizing pos with
  | nil => simp [liveOffset, liveRows]
  | cons e log ih =>
    unfold liveOffset liveRows
    cases hd : e.deleted
    · by_cases hk : e.row.Id = k
      · simp [hk]
      · simp only [hk, and_false, if_false, Bool.false_eq_true, List.map_cons, List.mem_cons]
        rw [ih]
        constructor
        · intro h1 h2
          rcases h2 with h2 | h2
          · exact hk h2.symm
          · exact h1 h2
        · intro h1 h2
          exact h1 (Or.inr h2)
    · simp only [Bool.true_eq_false, false_and, if_false, if_true]
      exact ih _

theorem liveOffset_append (cols : List ColumnDef) (log : List Entry) (row : Row) (pos : Nat)
    (k : Int) :
    liveOffset cols (log ++ [{ deleted := false, row := row }]) pos k
      = match liveOffset cols log pos k with
        | some off => some off
        | none => if row.Id = k then some (pos + (encodeLog cols log).length) else none := by
  induction log generalizing pos with
  | nil => simp [liveOffset, encodeLog]
  | cons e log ih =>
    rw [List.cons_append]
    unfold liveOffset
    by_cases hc : e.deleted = false ∧ e.row.Id = k
    · simp only [hc, and_self, if_true]
    · simp only [hc, if_false]
      rw [ih]
      simp only [encodeLog, List.length_append, Nat.add_assoc]

theorem writeByteAt_append (pre post : List Nat) (b x : Nat) :
    writeByteAt (pre ++ b :: post) pre.length x = pre ++ x :: post := by
  unfold writeByteAt
  simp [List.take_append_eq_append_take, List.drop_append_eq_append_drop]

theorem encodeLog_tombstone (cols : List ColumnDef) (log : List Entry) (pre : List Nat)
    (k : Int) (off : Nat) (h : liveOffset cols log pre.length k = some off) :
    writeByteAt (pre ++ encodeLog cols log) off 1 = pre ++ encodeLog cols (tombstone k log) := by
  induction log generalizing pre with
  | nil => simp [liveOffset] at h
  | cons e log ih =>
    unfold liveOffset at h
    unfold tombstone
    by_cases hc : e.deleted = false ∧ e.row.Id = k
    · simp only [hc, and_self, if_true, Option.some.injEq] at h
      subst h
      simp only [hc, and_self, if_true, encodeLog, encodeEntry, Bool.false_eq_true, if_false,
        List.cons_append]
      exact writeByteAt_append _ _ _ _
    · simp only [hc, if_false] at h ⊢
      have h1 := ih (pre ++ encodeEntry cols e) (by rw [List.length_append]; exact h)
      simp only [encodeLog, ← List.append_assoc]
      simpa [List.append_assoc] using h1

theorem liveOffset_tombstone_other (cols : List ColumnDef) (log : List Entry) (pos : Nat)
    (k k2 : Int) (h : k ≠ k2) :
    liveOffset cols (tombstone k log) pos k2 = liveOffset cols log pos k2 := by
  induction log generalizing pos with
  | nil => rfl
  | cons e log ih =>
    unfold tombstone
    by_cases hc : e.deleted = false ∧ e.row.Id = k
    · have hne : ¬ (e.deleted = false ∧ e.row.Id = k2) := fun h2 => h (hc.2.symm.trans h2.2)
      rw [if_pos hc]
      unfold liveOffset
      rw [if_neg hne, if_neg (by simp)]
      simp only [encodeEntry_length]
    · simp only [hc, if_false, liveOffset, ih]

theorem liveRows_tombstone (log : List Entry) (k : Int)
    (hn : ((liveRows log).map (fun r => r.Id)).Nodup) :
    liveRows (tombstone k log) = (liveRows log).filter (fun r => decide (r.Id ≠ k)) := by
  induction log with
  | nil => rfl
  | cons e log ih =>
    unfold tombstone
    cases hd : e.deleted
    · simp only [liveRows, hd, Bool.false_eq_true, if_false, List.map_cons, List.nodup_cons] at hn
      by_cases hk : e.row.Id = k
      · simp only [hk, and_self, if_true, liveRows, Bool.false_eq_true, if_false, hd,
          List.filter_cons, ne_eq, not_true_eq_false, decide_False]
        symm
        rw [List.filter_eq_self]
        intro r hr
        simp only [ne_eq, decide_eq_true_eq]
        intro hrk
        apply hn.1
        rw [hk, ← hrk]
        exact List.mem_map_of_mem _ hr
      · simp only [hk, and_false, if_false, liveRows, hd, Bool.false_eq_true, List.filter_cons,
          ne_eq, not_false_eq_true, decide_True, if_true, ih hn.2]
    · simp only [liveRows, hd, if_true] at hn
      simp only [Bool.true_eq_false, false_and, if_false, liveRows, hd, if_true, ih hn]

theorem tombstone_rows (log : List Entry) (k : Int) :
    (tombstone k log).map (fun e => e.row) = log.map (fun e => e.row) := by
  induction log with
  | nil => rfl
  | cons e log ih =>
    unfold tombstone
    split
    · rfl
    · simp [ih]

theorem mem_tombstone_row {log : List Entry} {k : Int} {e : Entry} (h : e ∈ tombstone k log) :
    ∃ e1 ∈ log, e1.row = e.row := by
  have h1 : e.row ∈ (tombstone k log).map (fun e => e.row) := List.mem_map_of_mem _ h
  rw [tombstone_rows] at h1
  obtain ⟨e1, he1, hr⟩ := List.mem_map.mp h1
  exact ⟨e1, he1, hr⟩

theorem nodup_filter_ids (rows : List Row) (k : Int)
    (hn : (rows.map (fun r => r.Id)).Nodup) :
    ((rows.filter (fun r => decide (r.Id ≠ k))).map (fun r => r.Id)).Nodup :=
  List.Nodup.sublist (List.Sublist.map _ (List.filter_sublist _)) hn

theorem liveOffset_tombstone_self (cols : List ColumnDef) (log : List Entry) (pos : Nat)
    (k : Int) (hn : ((liveRows log).map (fun r => r.Id)).Nodup) :
    liveOffset cols (tombstone k log) pos k = none := by
  rw [liveOffset_none_iff, liveRows_tombstone log k hn]
  intro h
  obtain ⟨r, hr, hk⟩ := List.mem_map.mp h
  have := (List.mem_filter.mp hr).2
  simp only [ne_eq, decide_eq_true_eq] at this
  exact this hk

/-! ## The uniqueness sets -/

theorem mem_setAdd_self (s : List GoString) (v : GoString) : v ∈ setAdd s v := by
  unfold setAdd
  split
  · assumption
  · simp

theorem mem_setAdd_of_mem {s : List GoString} {x : GoString} (v : GoString) (h : x ∈ s) :
    x ∈ setAdd s v := by
  unfold setAdd
  split
  · exact h
  · simp [h]

theorem mapGet_mapSet_isSome {κ ν : Type} [DecidableEq κ] (m : List (κ × ν)) (k k2 : κ) (v : ν)
    (h : (mapGet m k2).isSome) : (mapGet (mapSet m k v) k2).isSome := by
  by_cases hk : k = k2
  · subst hk; rw [mapGet_mapSet_self]; rfl
  · rw [mapGet_mapSet_other _ _ _ _ hk]; exact h

theorem addUnique_mono (row : Row) (cols : List ColumnDef) (uq : List (GoString × List GoString))
    (name : GoString) (idx : List GoString) (h : mapGet uq name = some idx) :
    ∃ idx1, mapGet (addUnique row cols uq).1 name = some idx1 ∧ ∀ x ∈ idx, x ∈ idx1 := by
  induction cols generalizing uq idx with
  | nil => exact ⟨idx, h, fun _ hx => hx⟩
  | cons col cols ih =>
    unfold addUnique
    by_cases hc : (col.IsUnique && decide (col.Name ≠ str "id")) = true
    · rw [if_pos hc]
      cases hg : mapGet uq col.Name with
      | none => exact ⟨idx, h, fun _ hx => hx⟩
      | some idx0 =>
        simp only
        by_cases hn : col.Name = name
        · rw [hn] at hg
          rw [h] at hg
          cases hg
          obtain ⟨idx1, h1, h2⟩ := ih (mapSet uq col.Name
            (setAdd idx (sprintV (mapGet row.Data col.Name)))) _
            (by rw [hn]; exact mapGet_mapSet_self _ _ _)
          exact ⟨idx1, h1, fun x hx => h2 x (mem_setAdd_of_mem _ hx)⟩
        · exact ih _ idx (by rw [mapGet_mapSet_other _ _ _ _ hn]; exact h)
    · rw [if_neg hc]
      exact ih uq idx h

theorem addUnique_ok (row : Row) (cols : List ColumnDef) (uq : List (GoString × List GoString))
    (h : HasSets cols uq) : (addUnique row cols uq).2 = true := by
  induction cols generalizing uq with
  | nil => rfl
  | cons col cols ih =>
    unfold addUnique
    by_cases hc : (col.IsUnique && decide (col.Name ≠ str "id")) = true
    · rw [if_pos hc]
      have hc1 := hc
      simp only [Bool.and_eq_true, decide_eq_true_eq] at hc1
      have hs := h col (List.mem_cons_self _ _) hc1.1 hc1.2
      cases hg : mapGet uq col.Name with
      | none => rw [hg] at hs; cases hs
      | some idx0 =>
        simp only
        apply ih
        intro c hcm hu hid
        exact mapGet_mapSet_isSome _ _ _ _ (h c (List.mem_cons_of_mem _ hcm) hu hid)
    · rw [if_neg hc]
      exact ih uq (fun c hcm => h c (List.mem_cons_of_mem _ hcm))

theorem addUnique_mem (row : Row) (cols : List ColumnDef) (uq : List (GoString × List GoString))
    (h : HasSets cols uq) (c : ColumnDef) (hcm : c ∈ cols) (hu : c.IsUnique = true)
    (hid : c.Name ≠ str "id") :
    ∃ idx1, mapGet (addUnique row cols uq).1 c.Name = some idx1 ∧
      sprintV (mapGet row.Data c.Name) ∈ idx1 := by
  induction cols generalizing uq with
  | nil => cases hcm
  | cons col cols ih =>
    unfold addUnique
    by_cases hc : (col.IsUnique && decide (col.Name ≠ str "id")) = true
    · rw [if_pos hc]
      have hc1 := hc
      simp only [Bool.and_eq_true, decide_eq_true_eq] at hc1
      have hs := h col (List.mem_cons_self _ _) hc1.1 hc1.2
      cases hg : mapGet uq col.Name with
      | none => rw [hg] at hs; cases hs
      | some idx0 =>
        simp only
        have hsets : HasSets cols (mapSet uq col.Name
            (setAdd idx0 (sprintV (mapGet row.Data col.Name)))) := by
          intro c1 hc1m hu1 hid1
          exact mapGet_mapSet_isSome _ _ _ _ (h c1 (List.mem_cons_of_mem _ hc1m) hu1 hid1)
        rcases List.mem_cons.mp hcm with rfl | hcm1
        · obtain ⟨idx1, h1, h2⟩ := addUnique_mono row cols _ c.Name _
            (mapGet_mapSet_self uq c.Name (setAdd idx0 (sprintV (mapGet row.Data c.Name))))
          exact ⟨idx1, h1, h2 _ (mem_setAdd_self _ _)⟩
        · exact ih _ hsets hcm1
    · rw [if_neg hc]
      rcases List.mem_cons.mp hcm with rfl | hcm1
      · exact absurd (by simp [hu, hid]) hc
      · exact ih uq (fun c1 hc1m => h c1 (List.mem_cons_of_mem _ hc1m)) hcm1

/-! ## The representation invariant is kept by every call -/

theorem Inv.hasSets {cols : List ColumnDef} {s : Table × Option (List Nat)} {log : List Entry}
    (h : Inv cols s log) : HasSets s.1.Schema.Columns s.1.UniqueIndexes := by
  intro c hc hu hid
  rw [h.schema] at hc
  obtain ⟨idx, h1, _⟩ := h.unique c hc hu hid
  rw [h1]; rfl

theorem Inv_insert {cols : List ColumnDef} {s : Table × Option (List Nat)} {log : List Entry}
    (h : Inv cols s log) (row : Row) :
    Inv cols (s.1.Insert s.2 row).2 (insertLog (s.1.Insert s.2 row).1 row log) := by
  obtain ⟨t, file⟩ := s
  have hsets := h.hasSets
  unfold Table.Insert
  cases hpk : mapGet t.PrimaryKeyIdx row.Id with
  | some o => simpa [insertLog] using h
  | none =>
    cases hu : checkUnique t.UniqueIndexes row t.Schema.Columns with
    | some e => simpa [insertLog] using h
    | none =>
      have hok := addUnique_ok row t.Schema.Columns t.UniqueIndexes hsets
      simp only [Option.isSome_none, Bool.false_eq_true, if_false, hok, if_true, insertLog]
      have hfile : file = some (encodeLog cols log) := h.file_eq
      have hnone : liveOffset cols log 0 row.Id = none := by
        rw [← h.index]; exact hpk
      have hcols : t.Schema.Columns = cols := h.schema
      constructor
      · exact h.schema
      · simp only [hfile, Option.getD_some, encodeLog_append, encodeLog_single, hcols]
      · intro k
        simp only
        rw [liveOffset_append]
        by_cases hk : row.Id = k
        · subst hk
          rw [mapGet_mapSet_self, hnone]
          simp [hfile]
        · rw [mapGet_mapSet_other _ _ _ _ hk]
          have := h.index k
          simp only at this
          rw [this]
          cases liveOffset cols log 0 k <;> simp [hk]
      · rw [liveRows_append]
        simp only [liveRows, Bool.false_eq_true, if_false, List.map_append, List.map_cons,
          List.map_nil]
        rw [List.nodup_append]
        refine ⟨h.nodup, List.nodup_singleton _, ?_⟩
        intro a ha hb
        simp only [List.mem_singleton] at hb
        subst hb
        exact (liveOffset_none_iff cols log 0 _).mp hnone ha
      · intro c hc hcu hcid
        obtain ⟨idx, h1, h2⟩ := h.unique c hc hcu hcid
        simp only at h1 ⊢
        obtain ⟨idx1, h3, h4⟩ := addUnique_mono row t.Schema.Columns _ _ _ h1
        obtain ⟨idx2, h5, h6⟩ := addUnique_mem row t.Schema.Columns _ hsets c
          (by rw [hcols]; exact hc) hcu hcid
        rw [h3] at h5
        cases h5
        refine ⟨idx1, h3, ?_⟩
        intro e he
        rcases List.mem_append.mp he with he | he
        · exact h4 _ (h2 e he)
        · simp only [List.mem_singleton] at he
          subst he
          exact h6

theorem Inv_delete {cols : List ColumnDef} {s : Table × Option (List Nat)} {log : List Entry}
    (h : Inv cols s log) (id : Int) :
    Inv cols (s.1.Delete s.2 id).2 (deleteLog (s.1.Delete s.2 id).1 id log) := by
  obtain ⟨t, file⟩ := s
  have hfile : file = some (encodeLog cols log) := h.file_eq
  unfold Table.Delete
  cases hpk : mapGet t.PrimaryKeyIdx id with
  | none => simpa [deleteLog] using h
  | some off =>
    subst hfile
    simp only [deleteLog]
    have hoff : liveOffset cols log 0 id = some off := by rw [← h.index]; exact hpk
    constructor
    · exact h.schema
    · simp only
      have := encodeLog_tombstone cols log [] id off (by simpa using hoff)
      simpa using this
    · intro k
      simp only
      by_cases hk : id = k
      · subst hk
        rw [mapGet_mapDelete_self, liveOffset_tombstone_self _ _ _ _ h.nodup]
      · rw [mapGet_mapDelete_other _ _ _ hk, liveOffset_tombstone_other _ _ _ _ _ hk]
        exact h.index k
    · rw [liveRows_tombstone _ _ h.nodup]
      exact nodup_filter_ids _ _ h.nodup
    · intro c hc hcu hcid
      obtain ⟨idx, h1, h2⟩ := h.unique c hc hcu hcid
      refine ⟨idx, h1, ?_⟩
      intro e he
      obtain ⟨e1, he1, hr⟩ := mem_tombstone_row he
      rw [← hr]
      exact h2 e1 he1

theorem Inv_apply {cols : List ColumnDef} {s : Table × Option (List Nat)} {log : List Entry}
    (h : Inv cols s log) (op : Op) : Inv cols (op.apply s).2 (op.applyLog s log) := by
  cases op with
  | insert row => exact Inv_insert h row
  | delete id => exact Inv_delete h id
  | update row =>
    have hd := Inv_delete h row.Id
    rcases hdel : s.1.Delete s.2 row.Id with ⟨r, t1, file1⟩
    rw [hdel] at hd
    cases r with
    | ok =>
      simp only [Op.apply, Op.applyLog, Table.Update, hdel]
      exact Inv_insert (s := (t1, file1)) hd row
    | error e =>
      simp only [Op.apply, Op.applyLog, Table.Update, hdel]
      exact hd
    | panic =>
      simp only [Op.apply, Op.applyLog, Table.Update, hdel]
      exact hd

theorem Inv_run {cols : List ColumnDef} (ops : List Op) {s : Table × Option (List Nat)}
    {log : List Entry} (h : Inv cols s log) : Inv cols (run ops s) (runLog ops s log) := by
  induction ops generalizing s log with
  | nil => exact h
  | cons op ops ih => exact ih (Inv_apply h op)

/-! ## A fresh table -/

theorem initUnique_mono (cols : List ColumnDef) (uq : List (GoString × List GoString))
    (k : GoString) (h : (mapGet uq k).isSome) : (mapGet (initUnique cols uq) k).isSome := by
  induction cols generalizing uq with
  | nil => exact h
  | cons col cols ih =>
    unfold initUnique
    split
    · exact ih _ (mapGet_mapSet_isSome _ _ _ _ h)
    · exact ih _ h

theorem initUnique_hasSets (cols : List ColumnDef) (uq : List (GoString × List GoString)) :
    HasSets cols (initUnique cols uq) := by
  induction cols generalizing uq with
  | nil => intro c hc; cases hc
  | cons col cols ih =>
    intro c hc hu hid
    unfold initUnique
    by_cases hcol : (col.IsUnique && decide (col.Name ≠ str "id")) = true
    · rw [if_pos hcol]
      rcases List.mem_cons.mp hc with rfl | hc1
      · apply initUnique_mono
        rw [mapGet_mapSet_self]; rfl
      · exact ih _ c hc1 hu hid
    · rw [if_neg hcol]
      rcases List.mem_cons.mp hc with rfl | hc1
      · exact absurd (by simp [hu, hid]) hcol
      · exact ih _ c hc1 hu hid

theorem mapGet_map_clear (uq : List (GoString × List GoString)) (k : GoString) :
    mapGet (uq.map (fun e => (e.1, ([] : List GoString)))) k
      = (mapGet uq k).map (fun _ => []) := by
  induction uq with
  | nil => rfl
  | cons e uq ih =>
    obtain ⟨k1, v1⟩ := e
    by_cases h : k1 = k <;> simp [mapGet, h, ih]

theorem NewTable_fresh {dbName tableName : GoString} {cols : List ColumnDef} :
    NewTable dbName tableName cols none
      = some ({ Schema := { Name := tableName, Columns := cols }
                filePath := tablePath dbName tableName
                PrimaryKeyIdx := []
                UniqueIndexes := (initUnique cols []).map (fun e => (e.1, [])) }, some []) := by
  simp [NewTable, initFile, Table.loadIndex, loadIndexLoop]

theorem Inv_fresh {dbName tableName : GoString} {cols : List ColumnDef}
    {s : Table × Option (List Nat)} (h : NewTable dbName tableName cols none = some s) :
    Inv cols s [] := by
  rw [NewTable_fresh] at h
  cases h
  constructor
  · rfl
  · rfl
  · intro k; rfl
  · simp [liveRows]
  · intro c hc hu hid
    have := initUnique_hasSets cols [] c hc hu hid
    simp only
    rw [mapGet_map_clear]
    cases hg : mapGet (initUnique cols []) c.Name with
    | none => rw [hg] at this; cases this
    | some idx => exact ⟨[], rfl, fun e he => by cases he⟩

/-! ## The full scan of a log -/

theorem selectAllLoop_encodeLog (cols : List ColumnDef) (log : List Entry)
    (hs : ∀ e ∈ log, ShortText cols e.row) (fuel : Nat)
    (hf : (encodeLog cols log).length ≤ fuel) :
    selectAllLoop cols fuel (encodeLog cols log)
      = some ((liveRows log).map (storedRow cols)) := by
  induction log generalizing fuel with
  | nil =>
    cases fuel <;> simp [selectAllLoop, encodeLog, readBool, liveRows]
  | cons e log ih =>
    have hlen : (encodeLog cols (e :: log)).length
        = 5 + (encodeColumns e.row cols).length + (encodeLog cols log).length := by
      simp [encodeLog, encodeEntry_length]
    cases fuel with
    | zero => omega
    | succ fuel =>
      have ih1 := ih (fun e1 he1 => hs e1 (List.mem_cons_of_mem _ he1)) fuel (by omega)
      have hse := hs e (List.mem_cons_self _ _)
      simp only [selectAllLoop, encodeLog, encodeEntry, List.cons_append, readBool,
        List.append_assoc, readInt32_putInt32, int32_idem,
        readColumns_encodeColumns _ _ _ _ hse, ih1, Option.map_some', liveRows]
      cases hd : e.deleted <;> simp [storedRow]

theorem SelectAll_of_inv {cols : List ColumnDef} {s : Table × Option (List Nat)}
    {log : List Entry} (h : Inv cols s log) (hs : ∀ e ∈ log, ShortText cols e.row) :
    s.1.SelectAll s.2 = some ((liveRows log).map (storedRow cols)) := by
  unfold Table.SelectAll
  rw [h.file_eq, h.schema]
  exact selectAllLoop_encodeLog cols log hs _ (le_refl _)

/-! ## Successful calls and the live writes -/

theorem insertLog_rows (P : Row → Prop) (r : Ret) (row : Row) (log : List Entry)
    (hl : ∀ e ∈ log, P e.row) (hr : P row) : ∀ e ∈ insertLog r row log, P e.row := by
  intro e he
  cases r with
  | error x => exact hl e he
  | ok =>
    rcases List.mem_append.mp he with he | he
    · exact hl e he
    · simp only [List.mem_singleton] at he; subst he; exact hr
  | panic =>
    rcases List.mem_append.mp he with he | he
    · exact hl e he
    · simp only [List.mem_singleton] at he; subst he; exact hr

theorem tombstone_rows_pred (P : Row → Prop) (k : Int) (log : List Entry)
    (hl : ∀ e ∈ log, P e.row) : ∀ e ∈ tombstone k log, P e.row := by
  intro e he
  obtain ⟨e1, he1, hr⟩ := mem_tombstone_row he
  rw [← hr]; exact hl e1 he1

theorem applyLog_rows (P : Row → Prop) (op : Op) (s : Table × Option (List Nat))
    (log : List Entry) (hl : ∀ e ∈ log, P e.row) (hr : ∀ row, op.row? = some row → P row) :
    ∀ e ∈ op.applyLog s log, P e.row := by
  cases op with
  | insert row => exact insertLog_rows P _ row log hl (hr row rfl)
  | delete id =>
    unfold Op.applyLog deleteLog
    simp only
    split
    · exact tombstone_rows_pred P id log hl
    · exact hl
  | update row =>
    unfold Op.applyLog
    simp only
    split
    · exact insertLog_rows P _ row _ (tombstone_rows_pred P _ log hl) (hr row rfl)
    · exact hl

theorem runLog_rows (P : Row → Prop) (ops : List Op) (s : Table × Option (List Nat))
    (log : List Entry) (hl : ∀ e ∈ log, P e.row)
    (hr : ∀ op ∈ ops, ∀ row, op.row? = some row → P row) :
    ∀ e ∈ runLog ops s log, P e.row := by
  induction ops generalizing s log with
  | nil => exact hl
  | cons op ops ih =>
    exact ih _ _ (applyLog_rows P op s log hl (hr op (List.mem_cons_self _ _)))
      (fun o ho => hr o (List.mem_cons_of_mem _ ho))

theorem liveRows_insertLog_ok (row : Row) (log : List Entry) :
    liveRows (insertLog Ret.ok row log) = liveRows log ++ [row] := by
  simp [insertLog, liveRows_append, liveRows]

theorem Update_ok {t : Table} {file : Option (List Nat)} {row : Row}
    (h : (t.Update file row).1 = Ret.ok) :
    (t.Delete file row.Id).1 = Ret.ok ∧
    ((t.Delete file row.Id).2.1.Insert (t.Delete file row.Id).2.2 row).1 = Ret.ok ∧
    t.Update file row = (t.Delete file row.Id).2.1.Insert (t.Delete file row.Id).2.2 row := by
  unfold Table.Update at h ⊢
  rcases hdel : t.Delete file row.Id with ⟨r, t1, file1⟩
  rw [hdel] at h
  cases r with
  | ok => exact ⟨rfl, h, rfl⟩
  | error e => cases h
  | panic => cases h

theorem liveRows_applyLog_ok {cols : List ColumnDef} {s : Table × Option (List Nat)}
    {log : List Entry} (h : Inv cols s log) (op : Op) (hok : (op.apply s).1 = Ret.ok) :
    liveRows (op.applyLog s log) = liveWrites [op] (liveRows log) := by
  cases op with
  | insert row =>
    simp only [Op.apply] at hok
    simp only [Op.applyLog, hok, liveWrites]
    exact liveRows_insertLog_ok row log
  | delete id =>
    simp only [Op.apply] at hok
    simp only [Op.applyLog, hok, liveWrites, deleteLog]
    exact liveRows_tombstone log id h.nodup
  | update row =>
    simp only [Op.apply] at hok
    obtain ⟨h1, h2, _⟩ := Update_ok hok
    rcases hdel : s.1.Delete s.2 row.Id with ⟨r, t1, file1⟩
    rw [hdel] at h1 h2
    simp only at h1 h2
    subst h1
    simp only [Op.applyLog, hdel, h2, liveWrites]
    rw [liveRows_insertLog_ok, liveRows_tombstone log row.Id h.nodup]

theorem liveWrites_cons (op : Op) (ops : List Op) (rows : List Row) :
    liveWrites (op :: ops) rows = liveWrites ops (liveWrites [op] rows) := by
  cases op <;> rfl

theorem liveRows_runLog_ok {cols : List ColumnDef} (ops : List Op)
    {s : Table × Option (List Nat)} {log : List Entry} (h : Inv cols s log)
    (hok : AllOk ops s) : liveRows (runLog ops s log) = liveWrites ops (liveRows log) := by
  induction ops generalizing s log with
  | nil => rfl
  | cons op ops ih =>
    rw [liveWrites_cons, ← liveRows_applyLog_ok h op hok.1]
    exact ih (Inv_apply h op) hok.2

/-- C6 (amended). `SelectAll` returns the live records in file order: after any sequence of
calls of `Insert`, `Delete` and `Update` on a freshly created table that all returned
nil, the text values written being shorter than 2^31 bytes (the limit of the length
field of a record), `SelectAll` returns, as read back from their records, exactly the
rows whose latest write is still live, in the order of those writes; a valid row is
read back from its record with the same id and the same value in every column. -/
theorem selectAll_live_writes (dbName tableName : GoString) (cols : List ColumnDef)
    (ops : List Op) (s : Table × Option (List Nat))
    (hnew : NewTable dbName tableName cols none = some s)
    (hshort : ∀ op ∈ ops, ∀ row, op.row? = some row → ShortText cols row)
    (hok : AllOk ops s) :
    (run ops s).1.SelectAll (run ops s).2
        = some ((liveWrites ops []).map (storedRow cols)) ∧
      ∀ row, ValidRow cols row →
        (storedRow cols row).Id = row.Id ∧
        mapGet (storedRow cols row).Data (str "id") = some (Value.int row.Id) ∧
        ∀ col ∈ cols, col.Name ≠ str "id" →
          mapGet (storedRow cols row).Data col.Name = mapGet row.Data col.Name := by
  have hinv := Inv_run ops (Inv_fresh hnew)
  have hrows := runLog_rows (ShortText cols) ops s [] (fun e he => by cases he) hshort
  constructor
  · rw [SelectAll_of_inv hinv hrows, liveRows_runLog_ok ops (Inv_fresh hnew) hok]
    rfl
  · intro row hv
    have hid : int32 row.Id = row.Id := int32_of_range _ hv.1 hv.2.1
    refine ⟨hid, ?_, fun col hc hcid => mapGet_storedRow_of_valid cols row hv col hc hcid⟩
    rw [mapGet_storedRow_id, hid]

/-! ## Reopening a table -/

theorem readRowValues_rest (cols : List ColumnDef) (r : List Nat)
    (vals : List (GoString × GoString)) (data : List (GoString × Value)) :
    (readRowValues cols r vals).map Prod.snd = (readColumns cols r data).map Prod.snd := by
  induction cols generalizing r vals data with
  | nil => rfl
  | cons col cols ih =>
    unfold readRowValues readColumns
    by_cases hid : col.Name = str "id"
    · simp only [hid, if_true]; exact ih _ _ _
    · by_cases ht : col.Typ = DbType.IntType
      · simp only [hid, ht, if_true, if_false]; exact ih _ _ _
      · simp only [hid, ht, if_false]
        cases readString r with
        | none => rfl
        | some p => exact ih _ _ _

theorem loadIndexLoop_isSome (cols : List ColumnDef) (fuel pos : Nat) (r : List Nat)
    (pk : List (Int × Nat)) (uq : List (GoString × List GoString)) :
    (loadIndexLoop cols fuel pos r pk uq).isSome = (selectAllLoop cols fuel r).isSome := by
  induction fuel generalizing pos r pk uq with
  | zero => rfl
  | succ fuel ih =>
    unfold loadIndexLoop selectAllLoop
    cases hb : readBool r with
    | none => rfl
    | some p =>
      obtain ⟨isDeleted, r1⟩ := p
      simp only
      rcases hi : readInt32 r1 with ⟨v, r2⟩
      cases v with
      | none => rfl
      | some id =>
        simp only
        have hrest := readRowValues_rest cols r2 [] (mapSet [] (str "id") (Value.int id))
        cases hv : readRowValues cols r2 [] with
        | none =>
          rw [hv] at hrest
          cases hc : readColumns cols r2 (mapSet [] (str "id") (Value.int id)) with
          | none => rfl
          | some q => rw [hc] at hrest; cases hrest
        | some p1 =>
          rw [hv] at hrest
          cases hc : readColumns cols r2 (mapSet [] (str "id") (Value.int id)) with
          | none => rw [hc] at hrest; cases hrest
          | some q =>
            rw [hc] at hrest
            simp only [Option.map_some', Option.some.injEq] at hrest
            obtain ⟨rowValues, r3⟩ := p1
            obtain ⟨data, r3'⟩ := q
            simp only at hrest
            subst hrest
            simp only [Option.isSome_map']
            cases isDeleted
            · simp only [Bool.false_eq_true, if_false]; exact ih _ _ _ _
            · simp only [if_true]; exact ih _ _ _ _

theorem NewTable_selectAll (dbName tableName : GoString) (cols : List ColumnDef)
    (file : Option (List Nat)) (t : Table) (ht : t.Schema.Columns = cols) :
    (NewTable dbName tableName cols file).bind (fun p => p.1.SelectAll p.2)
      = t.SelectAll file := by
  cases file with
  | none =>
    simp [NewTable, initFile, Table.loadIndex, loadIndexLoop, Table.SelectAll, selectAllLoop]
  | some content =>
    have hs := loadIndexLoop_isSome cols content.length 0 content []
      ((initUnique cols []).map (fun e => (e.1, ([] : List GoString))))
    unfold NewTable Table.loadIndex Table.SelectAll
    simp only [ht]
    cases hl : loadIndexLoop cols content.length 0 content []
        ((initUnique cols []).map (fun e => (e.1, ([] : List GoString)))) with
    | none =>
      rw [hl] at hs
      cases hsel : selectAllLoop cols content.length content with
      | none => rfl
      | some rows => rw [hsel] at hs; cases hs
    | some p => simp

theorem NewTable_schema {dbName tableName : GoString} {cols : List ColumnDef}
    {file : Option (List Nat)} {s : Table × Option (List Nat)}
    (h : NewTable dbName tableName cols file = some s) : s.1.Schema.Columns = cols := by
  cases file with
  | none =>
    rw [NewTable_fresh] at h
    cases h
    rfl
  | some content =>
    unfold NewTable Table.loadIndex at h
    simp only [Option.map_map, Option.map_eq_some'] at h
    obtain ⟨p, _, hp⟩ := h
    rw [← hp]; rfl

theorem Insert_schema (t : Table) (file : Option (List Nat)) (row : Row) :
    (t.Insert file row).2.1.Schema = t.Schema := by
  unfold Table.Insert
  split
  · rfl
  · split <;> rfl

theorem Delete_schema (t : Table) (file : Option (List Nat)) (id : Int) :
    (t.Delete file id).2.1.Schema = t.Schema := by
  unfold Table.Delete
  split
  · rfl
  · split <;> rfl

theorem apply_schema (op : Op) (s : Table × Option (List Nat)) :
    (op.apply s).2.1.Schema = s.1.Schema := by
  cases op with
  | insert row => exact Insert_schema _ _ _
  | delete id => exact Delete_schema _ _ _
  | update row =>
    have hd := Delete_schema s.1 s.2 row.Id
    simp only [Op.apply, Table.Update]
    rcases hdel : s.1.Delete s.2 row.Id with ⟨r, t1, file1⟩
    rw [hdel] at hd
    cases r with
    | ok => simp only; rw [Insert_schema]; exact hd
    | error e => exact hd
    | panic => exact hd

theorem run_schema (ops : List Op) (s : Table × Option (List Nat)) :
    (run ops s).1.Schema = s.1.Schema := by
  induction ops generalizing s with
  | nil => rfl
  | cons op ops ih => rw [run, ih, apply_schema]

/-! ## The bounds of the loops are never exhausted -/

theorem readInt32_rest_length (r : List Nat) : (readInt32 r).2.length ≤ r.length := by
  unfold readInt32
  split
  · simp only [List.length_cons]; omega
  · simp

theorem readString_rest_length (r : List Nat) (s : GoString) (r1 : List Nat)
    (h : readString r = some (s, r1)) : r1.length ≤ r.length := by
  unfold readString at h
  have h1 := readInt32_rest_length r
  rcases hi : readInt32 r with ⟨v, r0⟩
  rw [hi] at h h1
  simp only at h1
  cases v with
  | none =>
    simp only [Option.some.injEq, Prod.mk.injEq] at h
    rw [← h.2]; exact h1
  | some n =>
    simp only at h
    split at h
    · cases h
    · split at h
      · simp only [Option.some.injEq, Prod.mk.injEq] at h
        rw [← h.2, List.length_drop]; omega
      · simp only [Option.some.injEq, Prod.mk.injEq] at h
        rw [← h.2]; simp

theorem readColumns_rest_length (cols : List ColumnDef) (r : List Nat)
    (data data1 : List (GoString × Value)) (r1 : List Nat)
    (h : readColumns cols r data = some (data1, r1)) : r1.length ≤ r.length := by
  induction cols generalizing r data with
  | nil =>
    simp only [readColumns, Option.some.injEq, Prod.mk.injEq] at h
    rw [h.2]
  | cons col cols ih =>
    unfold readColumns at h
    split at h
    · exact ih _ _ h
    · split at h
      · have := ih _ _ h
        have := readInt32_rest_length r
        omega
      · split at h
        · cases h
        · rename_i s r0 hs
          have := ih _ _ h
          have := readString_rest_length r s r0 hs
          omega

theorem selectAllLoop_fuel (cols : List ColumnDef) (f1 f2 : Nat) (r : List Nat)
    (h1 : r.length ≤ f1) (h2 : r.length ≤ f2) :
    selectAllLoop cols f1 r = selectAllLoop cols f2 r := by
  induction f1 generalizing f2 r with
  | zero =>
    have hr : r = [] := List.eq_nil_of_length_eq_zero (Nat.le_zero.mp h1)
    subst hr
    cases f2 <;> simp [selectAllLoop, readBool]
  | succ f1 ih =>
    cases f2 with
    | zero =>
      have hr : r = [] := List.eq_nil_of_length_eq_zero (Nat.le_zero.mp h2)
      subst hr
      simp [selectAllLoop, readBool]
    | succ f2 =>
      unfold selectAllLoop
      cases r with
      | nil => simp [readBool]
      | cons b r0 =>
        simp only [readBool]
        have hlen := readInt32_rest_length r0
        rcases hi : readInt32 r0 with ⟨v, r2⟩
        rw [hi] at hlen
        cases v with
        | none => rfl
        | some id =>
          simp only
          cases hc : readColumns cols r2 (mapSet [] (str "id") (Value.int id)) with
          | none => rfl
          | some p =>
            obtain ⟨data, r3⟩ := p
            have hlen3 := readColumns_rest_length cols r2 _ data r3 hc
            simp only [List.length_cons] at h1 h2 hlen
            simp only
            rw [ih f2 r3 (by omega) (by omega)]

theorem readRowValues_rest_length (cols : List ColumnDef) (r : List Nat)
    (vals vals1 : List (GoString × GoString)) (r1 : List Nat)
    (h : readRowValues cols r vals = some (vals1, r1)) : r1.length ≤ r.length := by
  have h1 := readRowValues_rest cols r vals []
  rw [h] at h1
  cases hc : readColumns cols r [] with
  | none => rw [hc] at h1; cases h1
  | some p =>
    rw [hc] at h1
    simp only [Option.map_some', Option.some.injEq] at h1
    obtain ⟨d, r2⟩ := p
    simp only at h1
    subst h1
    exact readColumns_rest_length cols r [] d r1 hc

theorem loadIndexLoop_fuel (cols : List ColumnDef) (f1 f2 pos : Nat) (r : List Nat)
    (pk : List (Int × Nat)) (uq : List (GoString × List GoString))
    (h1 : r.length ≤ f1) (h2 : r.length ≤ f2) :
    loadIndexLoop cols f1 pos r pk uq = loadIndexLoop cols f2 pos r pk uq := by
  induction f1 generalizing f2 r pos pk uq with
  | zero =>
    have hr : r = [] := List.eq_nil_of_length_eq_zero (Nat.le_zero.mp h1)
    subst hr
    cases f2 <;> simp [loadIndexLoop, readBool]
  | succ f1 ih =>
    cases f2 with
    | zero =>
      have hr : r = [] := List.eq_nil_of_length_eq_zero (Nat.le_zero.mp h2)
      subst hr
      simp [loadIndexLoop, readBool]
    | succ f2 =>
      unfold loadIndexLoop
      cases r with
      | nil => simp [readBool]
      | cons b r0 =>
        simp only [readBool]
        have hlen := readInt32_rest_length r0
        rcases hi : readInt32 r0 with ⟨v, r2⟩
        rw [hi] at hlen
        cases v with
        | none => rfl
        | some id =>
          simp only
          cases hc : readRowValues cols r2 [] with
          | none => rfl
          | some p =>
            obtain ⟨rowValues, r3⟩ := p
            have hlen3 := readRowValues_rest_length cols r2 _ rowValues r3 hc
            simp only [List.length_cons] at h1 h2 hlen
            simp only
            split
            · exact ih f2 _ r3 _ _ (by omega) (by omega)
            · exact ih f2 _ r3 _ _ (by omega) (by omega)

theorem trimLeftSpace_fuel (f1 f2 : Nat) (s : GoString) (h1 : s.length ≤ f1)
    (h2 : s.length ≤ f2) : trimLeftSpace f1 s = trimLeftSpace f2 s := by
  induction f1 generalizing f2 s with
  | zero =>
    have hs : s = [] := List.eq_nil_of_length_eq_zero (Nat.le_zero.mp h1)
    subst hs
    cases f2 <;> simp [trimLeftSpace, spaceLen]
  | succ f1 ih =>
    cases f2 with
    | zero =>
      have hs : s = [] := List.eq_nil_of_length_eq_zero (Nat.le_zero.mp h2)
      subst hs
      simp [trimLeftSpace, spaceLen]
    | succ f2 =>
      unfold trimLeftSpace
      split
      · rfl
      · rename_i hn
        cases s with
        | nil => simp [spaceLen] at hn
        | cons b s0 =>
          have hd : ((b :: s0).drop (spaceLen (b :: s0))).length ≤ s0.length := by
            rw [List.length_drop]
            simp only [List.length_cons]
            omega
          simp only [List.length_cons] at h1 h2
          exact ih f2 _ (by omega) (by omega)

theorem trimLeftSpaceRev_fuel (f1 f2 : Nat) (s : GoString) (h1 : s.length ≤ f1)
    (h2 : s.length ≤ f2) : trimLeftSpaceRev f1 s = trimLeftSpaceRev f2 s := by
  induction f1 generalizing f2 s with
  | zero =>
    have hs : s = [] := List.eq_nil_of_length_eq_zero (Nat.le_zero.mp h1)
    subst hs
    cases f2 <;> simp [trimLeftSpaceRev, spaceLenRev]
  | succ f1 ih =>
    cases f2 with
    | zero =>
      have hs : s = [] := List.eq_nil_of_length_eq_zero (Nat.le_zero.mp h2)
      subst hs
      simp [trimLeftSpaceRev, spaceLenRev]
    | succ f2 =>
      unfold trimLeftSpaceRev
      split
      · rfl
      · rename_i hn
        cases s with
        | nil => simp [spaceLenRev] at hn
        | cons b s0 =>
          have hd : ((b :: s0).drop (spaceLenRev (b :: s0))).length ≤ s0.length := by
            rw [List.length_drop]
            simp only [List.length_cons]
            omega
          simp only [List.length_cons] at h1 h2
          exact ih f2 _ (by omega) (by omega)

/-- C7. Index rebuild idempotence: after any sequence of calls of `Insert`, `Delete` and
`Update` on a table opened by `NewTable` (on a new or an existing file), closing and
reopening the table (`NewTable` on the file as it is, which runs `loadIndex`) gives
the same result of `SelectAll` as before closing. -/
theorem reopen_same_selectAll (dbName tableName : GoString) (cols : List ColumnDef)
    (file0 : Option (List Nat)) (ops : List Op) (s : Table × Option (List Nat))
    (hnew : NewTable dbName tableName cols file0 = some s) :
    (NewTable dbName tableName cols (run ops s).2).bind (fun p => p.1.SelectAll p.2)
      = (run ops s).1.SelectAll (run ops s).2 := by
  apply NewTable_selectAll
  rw [run_schema, NewTable_schema hnew]

/-! ## Tombstone exclusion -/

theorem liveRows_pred (P : Row → Prop) (log : List Entry) (h : ∀ e ∈ log, P e.row) :
    ∀ r ∈ liveRows log, P r := by
  induction log with
  | nil => intro r hr; cases hr
  | cons e log ih =>
    intro r hr
    unfold liveRows at hr
    have ih1 := ih (fun e1 he1 => h e1 (List.mem_cons_of_mem _ he1))
    split at hr
    · exact ih1 r hr
    · rcases List.mem_cons.mp hr with rfl | hr1
      · exact h e (List.mem_cons_self _ _)
      · exact ih1 r hr1

theorem map_storedRow_filter (cols : List ColumnDef) (rows : List Row) (d : Int)
    (h : ∀ r ∈ rows, -2147483648 ≤ r.Id ∧ r.Id < 2147483648) :
    (rows.filter (fun r => decide (r.Id ≠ d))).map (storedRow cols)
      = (rows.map (storedRow cols)).filter (fun r => decide (r.Id ≠ d)) := by
  induction rows with
  | nil => rfl
  | cons r rows ih =>
    have hr := h r (List.mem_cons_self _ _)
    have hid : (storedRow cols r).Id = r.Id := int32_of_range _ hr.1 hr.2
    have ih1 := ih (fun r1 hr1 => h r1 (List.mem_cons_of_mem _ hr1))
    by_cases hd : r.Id = d
    · rw [List.filter_cons, if_neg (by simp [hd]), List.map_cons, List.filter_cons,
        if_neg (by simp [hid, hd])]
      exact ih1
    · rw [List.filter_cons, if_pos (by simp [hd]), List.map_cons, List.map_cons,
        List.filter_cons, if_pos (by simp [hid, hd]), ih1]

/-- C5 (amended). Tombstone exclusion: in every table reached from a freshly created one
by calls of `Insert`, `Delete` and `Update` whose rows have ids in the signed 32-bit
range (and text values that fit the length field of a record), after `Delete d` returns
nil, `SelectById d` returns no row, `SelectAll` has no row with id `d`, and it returns
every other row it returned before, unchanged and in the same order. -/
theorem delete_excludes_row (dbName tableName : GoString) (cols : List ColumnDef)
    (ops : List Op) (s s1 : Table × Option (List Nat)) (d : Int)
    (hnew : NewTable dbName tableName cols none = some s)
    (hrows : ∀ op ∈ ops, ∀ row, op.row? = some row →
      ShortText cols row ∧ -2147483648 ≤ row.Id ∧ row.Id < 2147483648)
    (hdel : (run ops s).1.Delete (run ops s).2 d = (Ret.ok, s1)) :
    s1.1.SelectById s1.2 d = some none ∧
    ∃ before : List Row, (run ops s).1.SelectAll (run ops s).2 = some before ∧
      s1.1.SelectAll s1.2 = some (before.filter (fun r => decide (r.Id ≠ d))) ∧
      ∀ r ∈ before.filter (fun r => decide (r.Id ≠ d)), r.Id ≠ d := by
  have hinv := Inv_run ops (Inv_fresh hnew)
  have hP := runLog_rows
    (fun row => ShortText cols row ∧ -2147483648 ≤ row.Id ∧ row.Id < 2147483648)
    ops s [] (fun e he => by cases he) hrows
  have hinv1 := Inv_delete hinv d
  rw [hdel] at hinv1
  simp only [deleteLog] at hinv1
  constructor
  · have hidx := hinv1.index d
    rw [liveOffset_tombstone_self _ _ _ _ hinv.nodup] at hidx
    unfold Table.SelectById
    rw [hidx]
  · refine ⟨_, SelectAll_of_inv hinv (fun e he => (hP e he).1), ?_, ?_⟩
    · rw [SelectAll_of_inv hinv1
        (tombstone_rows_pred (ShortText cols) d _ (fun e he => (hP e he).1)),
        liveRows_tombstone _ _ hinv.nodup, map_storedRow_filter]
      exact liveRows_pred _ _ (fun e he => (hP e he).2)
    · intro r hr
      have := (List.mem_filter.mp hr).2
      simpa using this

/-! ## The indexes `loadIndex` rebuilds from a log -/

theorem readRowValues_encodeColumns (row : Row) (cols : List ColumnDef) (rest : List Nat)
    (vals : List (GoString × GoString)) (h : ShortText cols row) :
    readRowValues cols (encodeColumns row cols ++ rest) vals
      = some (storedStrings row cols vals, rest) := by
  induction cols generalizing vals with
  | nil => simp [readRowValues, encodeColumns, storedStrings]
  | cons col cols ih =>
    have h1 : ShortText cols row := fun c hc => h c (List.mem_cons_of_mem _ hc)
    by_cases hid : col.Name = str "id"
    · simp only [readRowValues, encodeColumns, storedStrings, hid, if_true]
      exact ih vals h1
    · by_cases ht : col.Typ = DbType.IntType
      · simp only [readRowValues, encodeColumns, storedStrings, storedValue, hid, ht, if_true,
          if_false, List.append_assoc, readInt32_putInt32, int32_idem, Option.getD_some, sprintV]
        exact ih _ h1
      · have hs : col.Typ = DbType.StringType := by
          cases hc : col.Typ with
          | IntType => exact absurd hc ht
          | StringType => rfl
        have hl := h col (List.mem_cons_self _ _) hid hs
        simp only [readRowValues, encodeColumns, storedStrings, storedValue, hid, ht, if_false,
          List.append_assoc, readString_writeString _ _ hl, sprintV]
        exact ih _ h1

theorem loadIndexLoop_encodeLog (cols : List ColumnDef) (log : List Entry)
    (hs : ∀ e ∈ log, ShortText cols e.row) (fuel pos : Nat) (pk : List (Int × Nat))
    (uq : List (GoString × List GoString)) (hf : (encodeLog cols log).length ≤ fuel) :
    loadIndexLoop cols fuel pos (encodeLog cols log) pk uq
      = some (loadLog cols log pos pk uq) := by
  induction log generalizing fuel pos pk uq with
  | nil =>
    cases fuel <;> simp [loadIndexLoop, encodeLog, readBool, loadLog]
  | cons e log ih =>
    have hlen : (encodeLog cols (e :: log)).length
        = 5 + (encodeColumns e.row cols).length + (encodeLog cols log).length := by
      simp [encodeLog, encodeEntry_length]
    cases fuel with
    | zero => omega
    | succ fuel =>
      have hse := hs e (List.mem_cons_self _ _)
      have hpos : (encodeEntry cols e ++ encodeLog cols log).length
          - (encodeLog cols log).length = (encodeEntry cols e).length := by
        simp
      have ih1 := fun pos pk uq =>
        ih (fun e1 he1 => hs e1 (List.mem_cons_of_mem _ he1)) fuel pos pk uq (by omega)
      unfold loadIndexLoop loadLog
      rw [encodeLog]
      have hb : readBool (encodeEntry cols e ++ encodeLog cols log)
          = some (e.deleted, putInt32 (int32 e.row.Id) ++
              (encodeColumns e.row cols ++ encodeLog cols log)) := by
        cases hd : e.deleted <;> simp [encodeEntry, readBool, hd]
      rw [hb]
      simp only [readInt32_putInt32, int32_idem, readRowValues_encodeColumns _ _ _ _ hse, hpos]
      cases hd : e.deleted
      · simp only [Bool.false_eq_true, if_false]; exact ih1 _ _ _
      · simp only [if_true]; exact ih1 _ _ _

theorem addRowValues_get (rv : List (GoString × GoString))
    (uq : List (GoString × List GoString)) (k : GoString) :
    mapGet (addRowValues rv uq) k
      = (mapGet uq k).map (fun idx =>
          match mapGet rv k with
          | some val => setAdd idx val
          | none => idx) := by
  induction uq with
  | nil => rfl
  | cons e uq ih =>
    obtain ⟨k1, v1⟩ := e
    unfold addRowValues at ih ⊢
    by_cases h : k1 = k
    · subst h
      cases hg : mapGet rv k1 <;> simp [mapGet, hg]
    · cases hg : mapGet rv k1 <;> simp [mapGet, hg, h, ih]

theorem loadLog_uq_mono (cols : List ColumnDef) (log : List Entry) (pos : Nat)
    (pk : List (Int × Nat)) (uq : List (GoString × List GoString)) (k : GoString)
    (idx : List GoString) (h : mapGet uq k = some idx) :
    ∃ idx1, mapGet (loadLog cols log pos pk uq).2 k = some idx1 ∧ ∀ x ∈ idx, x ∈ idx1 := by
  induction log generalizing pos pk uq idx with
  | nil => exact ⟨idx, h, fun _ hx => hx⟩
  | cons e log ih =>
    unfold loadLog
    cases hd : e.deleted
    · simp only [Bool.false_eq_true, if_false]
      cases hg : mapGet (storedStrings e.row cols []) k with
      | none =>
        exact ih _ _ _ idx (by rw [addRowValues_get, h, hg]; rfl)
      | some val =>
        obtain ⟨idx1, h1, h2⟩ := ih (pos + (encodeEntry cols e).length)
          (mapSet pk (int32 e.row.Id) pos) (addRowValues (storedStrings e.row cols []) uq)
          (setAdd idx val) (by rw [addRowValues_get, h, hg]; rfl)
        exact ⟨idx1, h1, fun x hx => h2 x (mem_setAdd_of_mem _ hx)⟩
    · simp only [if_true]
      exact ih _ _ _ idx h

theorem loadLog_uq_mem (cols : List ColumnDef) (log : List Entry) (pos : Nat)
    (pk : List (Int × Nat)) (uq : List (GoString × List GoString)) (k : GoString)
    (idx : List GoString) (h : mapGet uq k = some idx) (e : Entry) (he : e ∈ log)
    (hlive : e.deleted = false) (val : GoString)
    (hval : mapGet (storedStrings e.row cols []) k = some val) :
    ∃ idx1, mapGet (loadLog cols log pos pk uq).2 k = some idx1 ∧ val ∈ idx1 := by
  induction log generalizing pos pk uq idx with
  | nil => cases he
  | cons e1 log ih =>
    unfold loadLog
    rcases List.mem_cons.mp he with rfl | he1
    · simp only [hlive, Bool.false_eq_true, if_false]
      obtain ⟨idx1, h1, h2⟩ := loadLog_uq_mono cols log (pos + (encodeEntry cols e).length)
        (mapSet pk (int32 e.row.Id) pos) (addRowValues (storedStrings e.row cols []) uq) k
        (setAdd idx val) (by rw [addRowValues_get, h, hval]; rfl)
      exact ⟨idx1, h1, h2 _ (mem_setAdd_self _ _)⟩
    · cases hd : e1.deleted
      · simp only [Bool.false_eq_true, if_false]
        cases hg : mapGet (storedStrings e1.row cols []) k with
        | none => exact ih _ _ _ idx (by rw [addRowValues_get, h, hg]; rfl) he1
        | some v1 => exact ih _ _ _ (setAdd idx v1) (by rw [addRowValues_get, h, hg]; rfl) he1
      · simp only [if_true]
        exact ih _ _ _ idx h he1

theorem mapSet_mapVal {κ ν μ : Type} [DecidableEq κ] (g : ν → μ) (m : List (κ × ν)) (k : κ)
    (v : ν) :
    mapSet (m.map (fun e => (e.1, g e.2))) k (g v) = (mapSet m k v).map (fun e => (e.1, g e.2)) := by
  induction m with
  | nil => rfl
  | cons e m ih =>
    obtain ⟨k1, v1⟩ := e
    by_cases h : k1 = k <;> simp [mapSet, h, ih]

theorem mapGet_mapVal {κ ν μ : Type} [DecidableEq κ] (g : ν → μ) (m : List (κ × ν)) (k : κ) :
    mapGet (m.map (fun e => (e.1, g e.2))) k = (mapGet m k).map g := by
  induction m with
  | nil => rfl
  | cons e m ih =>
    obtain ⟨k1, v1⟩ := e
    by_cases h : k1 = k <;> simp [mapGet, h, ih]

theorem storedStrings_eq_map (row : Row) (cols : List ColumnDef)
    (data : List (GoString × Value)) :
    storedStrings row cols (data.map (fun e => (e.1, sprintV (some e.2))))
      = (storedData row cols data).map (fun e => (e.1, sprintV (some e.2))) := by
  induction cols generalizing data with
  | nil => rfl
  | cons col cols ih =>
    unfold storedStrings storedData
    by_cases hid : col.Name = str "id"
    · simp only [hid, if_true]; exact ih data
    · simp only [hid, if_false]
      rw [mapSet_mapVal (fun v => sprintV (some v))]
      exact ih _

theorem mapGet_storedStrings_of_valid (cols : List ColumnDef) (row : Row)
    (h : ValidRow cols row) (c : ColumnDef) (hc : c ∈ cols) (hid : c.Name ≠ str "id") :
    mapGet (storedStrings row cols []) c.Name = some (sprintV (mapGet row.Data c.Name)) := by
  have hv := storedValue_of_valid c row (h.2.2 c hc hid)
  have h1 := storedStrings_eq_map row cols []
  simp only [List.map_nil] at h1
  rw [h1, mapGet_mapVal (fun v => sprintV (some v)), ← hv]
  have h2 : mapGet (storedData row cols []) c.Name = some (storedValue c row) := by
    apply mapGet_storedData
    · intro c1 hc1 hc1id hc1n
      have h3 := storedValue_of_valid c1 row (h.2.2 c1 hc1 hc1id)
      rw [hc1n, ← hv] at h3
      exact Option.some.inj h3
    · exact Or.inr ⟨c, hc, hid, rfl⟩
  rw [h2]
  rfl

theorem checkUnique_some (uq : List (GoString × List GoString)) (row : Row)
    (cols : List ColumnDef) (c : ColumnDef) (hc : c ∈ cols) (hu : c.IsUnique = true)
    (hid : c.Name ≠ str "id") (idx : List GoString) (hg : mapGet uq c.Name = some idx)
    (hm : sprintV (mapGet row.Data c.Name) ∈ idx) :
    ∃ c1 v1, checkUnique uq row cols = some (TableError.uniqueViolation c1 v1) := by
  induction cols with
  | nil => cases hc
  | cons col cols ih =>
    unfold checkUnique
    by_cases hcol : (col.IsUnique && decide (col.Name ≠ str "id")) = true
    · rw [if_pos hcol]
      cases hg1 : mapGet uq col.Name with
      | none =>
        simp only
        rcases List.mem_cons.mp hc with rfl | hc1
        · rw [hg] at hg1; cases hg1
        · exact ih hc1
      | some idx1 =>
        simp only
        by_cases hm1 : sprintV (mapGet row.Data col.Name) ∈ idx1
        · rw [if_pos hm1]; exact ⟨_, _, rfl⟩
        · rw [if_neg hm1]
          rcases List.mem_cons.mp hc with rfl | hc1
          · rw [hg] at hg1; cases hg1; exact absurd hm hm1
          · exact ih hc1
    · rw [if_neg hcol]
      rcases List.mem_cons.mp hc with rfl | hc1
      · exact absurd (by simp [hu, hid]) hcol
      · exact ih hc1

theorem Insert_unique_error (t : Table) (file : Option (List Nat)) (row : Row)
    (hpk : mapGet t.PrimaryKeyIdx row.Id = none) (c : ColumnDef) (hc : c ∈ t.Schema.Columns)
    (hu : c.IsUnique = true) (hid : c.Name ≠ str "id") (idx : List GoString)
    (hg : mapGet t.UniqueIndexes c.Name = some idx)
    (hm : sprintV (mapGet row.Data c.Name) ∈ idx) :
    ∃ c1 v1, t.Insert file row = (Ret.error (TableError.uniqueViolation c1 v1), t, file) := by
  obtain ⟨c1, v1, h⟩ := checkUnique_some t.UniqueIndexes row t.Schema.Columns c hc hu hid idx hg hm
  refine ⟨c1, v1, ?_⟩
  unfold Table.Insert
  simp [hpk, h]

theorem mem_liveRows {log : List Entry} {r : Row} (h : r ∈ liveRows log) :
    ∃ e ∈ log, e.deleted = false ∧ e.row = r := by
  induction log with
  | nil => cases h
  | cons e log ih =>
    unfold liveRows at h
    cases hd : e.deleted
    · rw [hd] at h
      simp only [Bool.false_eq_true, if_false] at h
      rcases List.mem_cons.mp h with rfl | h1
      · exact ⟨e, List.mem_cons_self _ _, hd, rfl⟩
      · obtain ⟨e1, he1, h2⟩ := ih h1
        exact ⟨e1, List.mem_cons_of_mem _ he1, h2⟩
    · rw [hd] at h
      simp only [if_true] at h
      obtain ⟨e1, he1, h2⟩ := ih h
      exact ⟨e1, List.mem_cons_of_mem _ he1, h2⟩

theorem NewTable_of_log (dbName tableName : GoString) (cols : List ColumnDef)
    (log : List Entry) (hs : ∀ e ∈ log, ShortText cols e.row) :
    NewTable dbName tableName cols (some (encodeLog cols log))
      = some ({ Schema := { Name := tableName, Columns := cols }
                filePath := tablePath dbName tableName
                PrimaryKeyIdx := (loadLog cols log 0 []
                  ((initUnique cols []).map (fun e => (e.1, ([] : List GoString))))).1
                UniqueIndexes := (loadLog cols log 0 []
                  ((initUnique cols []).map (fun e => (e.1, ([] : List GoString))))).2 },
              some (encodeLog cols log)) := by
  unfold NewTable Table.loadIndex
  simp only [loadIndexLoop_encodeLog cols log hs _ 0 _ _ (le_refl _), Option.map_some']

/-- C4 (amended). Unique column enforcement: in every table reached from a freshly created
one by calls of `Insert`, `Delete` and `Update` with valid rows, for every unique
column `u` not named `id` and every live row `r` (a row `SelectAll` returns), `Insert`
of a row whose id is not in the primary-key index and whose value in `u` equals that
of `r` returns a UNIQUE-constraint error and leaves table and file as they were; the
same holds for the table reopened on the file, its indexes rebuilt by `loadIndex`. -/
theorem unique_column_enforced (dbName tableName : GoString) (cols : List ColumnDef)
    (ops : List Op) (s : Table × Option (List Nat)) (u : ColumnDef) (rows : List Row)
    (r r2 : Row)
    (hnew : NewTable dbName tableName cols none = some s)
    (hvalid : ∀ op ∈ ops, ∀ row, op.row? = some row → ValidRow cols row)
    (hu : u ∈ cols) (huniq : u.IsUnique = true) (hid : u.Name ≠ str "id")
    (hsel : (run ops s).1.SelectAll (run ops s).2 = some rows) (hr : r ∈ rows)
    (heq : mapGet r2.Data u.Name = mapGet r.Data u.Name) :
    (mapGet (run ops s).1.PrimaryKeyIdx r2.Id = none →
      ∃ c v, (run ops s).1.Insert (run ops s).2 r2
        = (Ret.error (TableError.uniqueViolation c v), run ops s)) ∧
    ∃ t2 : Table, NewTable dbName tableName cols (run ops s).2 = some (t2, (run ops s).2) ∧
      (mapGet t2.PrimaryKeyIdx r2.Id = none →
        ∃ c v, t2.Insert (run ops s).2 r2
          = (Ret.error (TableError.uniqueViolation c v), t2, (run ops s).2)) := by
  have hinv := Inv_run ops (Inv_fresh hnew)
  have hP := runLog_rows (ValidRow cols) ops s [] (fun e he => by cases he) hvalid
  have hshort : ∀ e ∈ runLog ops s [], ShortText cols e.row := fun e he => (hP e he).shortText
  rw [SelectAll_of_inv hinv hshort] at hsel
  cases hsel
  obtain ⟨row0, hrow0, rfl⟩ := List.mem_map.mp hr
  obtain ⟨e, he, hlive, rfl⟩ := mem_liveRows hrow0
  have hval := hP e he
  have hdata : mapGet r2.Data u.Name = mapGet e.row.Data u.Name := by
    rw [heq]; exact mapGet_storedRow_of_valid cols e.row hval u hu hid
  constructor
  · intro hpk
    obtain ⟨idx, h1, h2⟩ := hinv.unique u hu huniq hid
    exact Insert_unique_error _ _ r2 hpk u (by rw [hinv.schema]; exact hu) huniq hid idx h1
      (by rw [hdata]; exact h2 e he)
  · have hfile := hinv.file_eq
    refine ⟨_, by rw [hfile]; exact NewTable_of_log dbName tableName cols _ hshort, ?_⟩
    intro hpk
    have hsome := initUnique_hasSets cols [] u hu huniq hid
    have h0 : mapGet ((initUnique cols []).map (fun e => (e.1, ([] : List GoString)))) u.Name
        = some [] := by
      rw [mapGet_map_clear]
      cases hg : mapGet (initUnique cols []) u.Name with
      | none => rw [hg] at hsome; cases hsome
      | some x => rfl
    obtain ⟨idx1, h3, h4⟩ := loadLog_uq_mem cols (runLog ops s []) 0 [] _ u.Name [] h0 e he hlive _
      (mapGet_storedStrings_of_valid cols e.row hval u hu hid)
    exact Insert_unique_error _ _ r2 hpk u hu huniq hid idx1 h3 (by rw [hdata]; exact h4)

/-- C4 (counterexample). Two inputs at which `Insert` of a row whose unique value equals
that of a live row does not return the UNIQUE-constraint error.  After
`INSERT INTO members VALUES (1)` the live row reads back with the e-mail `""`, and
`Insert` of `(2, "", 0)` returns nil and appends a record.  With the rows
`(1, "a@x", 30)` and `(2, "b@x", 40)` live, `Insert` of `(2, "a@x", 50)` returns the
duplicate-primary-key error. -/
theorem unique_column_counterexample :
    (run [Op.insert (idRow 1)] membersFresh).1.SelectAll (run [Op.insert (idRow 1)] membersFresh).2
      = some [memberRow 1 "" 0] ∧
    (run [Op.insert (idRow 1), Op.insert (memberRow 2 "" 0)] membersFresh).1.SelectAll
        (run [Op.insert (idRow 1), Op.insert (memberRow 2 "" 0)] membersFresh).2
      = some [memberRow 1 "" 0, memberRow 2 "" 0] ∧
    ((Op.insert (memberRow 2 "" 0)).apply (run [Op.insert (idRow 1)] membersFresh)).1 = Ret.ok ∧
    ((Op.insert (memberRow 2 "a@x" 50)).apply
        (run [Op.insert (memberRow 1 "a@x" 30), Op.insert (memberRow 2 "b@x" 40)] membersFresh)).1
      = Ret.error (TableError.duplicateKey 2) := by
  decide

/-- Witness of `unique_column_enforced`: `members` holding `(1, "a@x", 30)`, and the row
`(2, "a@x", 40)`. -/
theorem unique_column_enforced_witness :
    NewTable (str "shop") (str "members") memberCols none = some membersFresh ∧
    (∃ c v, (run [Op.insert (memberRow 1 "a@x" 30)] membersFresh).1.Insert
        (run [Op.insert (memberRow 1 "a@x" 30)] membersFresh).2 (memberRow 2 "a@x" 40)
      = (Ret.error (TableError.uniqueViolation c v),
          run [Op.insert (memberRow 1 "a@x" 30)] membersFresh)) ∧
    ∃ t2 : Table, NewTable (str "shop") (str "members") memberCols
        (run [Op.insert (memberRow 1 "a@x" 30)] membersFresh).2
        = some (t2, (run [Op.insert (memberRow 1 "a@x" 30)] membersFresh).2) ∧
      ∃ c v, t2.Insert (run [Op.insert (memberRow 1 "a@x" 30)] membersFresh).2
          (memberRow 2 "a@x" 40)
        = (Ret.error (TableError.uniqueViolation c v), t2,
            (run [Op.insert (memberRow 1 "a@x" 30)] membersFresh).2) := by
  have h := unique_column_enforced (str "shop") (str "members") memberCols
    [Op.insert (memberRow 1 "a@x" 30)] membersFresh emailCol [memberRow 1 "a@x" 30]
    (memberRow 1 "a@x" 30) (memberRow 2 "a@x" 40) (by decide)
    (by
      intro op hop row hrow
      simp only [List.mem_singleton] at hop
      subst hop
      cases hrow
      unfold ValidRow
      decide)
    (by decide) rfl (by decide) (by decide) (by decide) (by decide)
  refine ⟨by decide, h.1 (by decide), ?_⟩
  obtain ⟨t2, h2, h3⟩ := h.2
  refine ⟨t2, h2, h3 ?_⟩
  have h4 : (t2, (run [Op.insert (memberRow 1 "a@x" 30)] membersFresh).2)
      = ({ Schema := { Name := str "members", Columns := memberCols }
           filePath := str "shop_members.db"
           PrimaryKeyIdx := [(1, 0)]
           UniqueIndexes := [(str "email", [str "a@x"])] },
         (run [Op.insert (memberRow 1 "a@x" 30)] membersFresh).2) :=
    Option.some.inj (h2.symm.trans (by decide))
  rw [(Prod.mk.inj h4).1]
  decide

/-- C5 (counterexample). On `CREATE TABLE t (id int)`, after `Insert` of the ids
4294967296 and 0 (both records hold the 32-bit id 0), `Delete 0` returns nil and
`SelectAll` still returns a row with id 0. -/
theorem delete_leaves_row_counterexample :
    (NewTable (str "db") (str "t") idCols none).map (fun s =>
      (((Op.delete 0).apply (run [Op.insert (idRow 4294967296), Op.insert (idRow 0)] s)).1,
        (run [Op.insert (idRow 4294967296), Op.insert (idRow 0), Op.delete 0] s).1.SelectAll
          (run [Op.insert (idRow 4294967296), Op.insert (idRow 0), Op.delete 0] s).2))
    = some (Ret.ok, some [idRow 0]) := by
  decide

/-- Witness of `delete_excludes_row`: `users` holding the rows 1 and 2, and `Delete 1`. -/
theorem delete_excludes_row_witness :
    NewTable (str "default") (str "users") userCols none = some usersFresh ∧
    (run [Op.insert (userRow 1 "John Doe" 25), Op.insert (userRow 2 "Jane Smith" 30)]
        usersFresh).1.Delete
      (run [Op.insert (userRow 1 "John Doe" 25), Op.insert (userRow 2 "Jane Smith" 30)]
        usersFresh).2 1
      = (Ret.ok, run [Op.insert (userRow 1 "John Doe" 25), Op.insert (userRow 2 "Jane Smith" 30),
          Op.delete 1] usersFresh) ∧
    (run [Op.insert (userRow 1 "John Doe" 25), Op.insert (userRow 2 "Jane Smith" 30),
        Op.delete 1] usersFresh).1.SelectById
      (run [Op.insert (userRow 1 "John Doe" 25), Op.insert (userRow 2 "Jane Smith" 30),
        Op.delete 1] usersFresh).2 1 = some none :=
  ⟨by decide, by decide,
    (delete_excludes_row (str "default") (str "users") userCols
      [Op.insert (userRow 1 "John Doe" 25), Op.insert (userRow 2 "Jane Smith" 30)] usersFresh
      (run [Op.insert (userRow 1 "John Doe" 25), Op.insert (userRow 2 "Jane Smith" 30),
        Op.delete 1] usersFresh) 1 (by decide)
      (by
        intro op hop row hrow
        simp only [List.mem_cons, List.mem_singleton, List.not_mem_nil, or_false] at hop
        rcases hop with rfl | rfl <;> cases hrow <;>
          exact ⟨by unfold ShortText; decide, by decide, by decide⟩)
      (by decide)).1⟩

/-- Witness of `selectAll_live_writes`: two inserts, an update of the first row and a
delete of the second on the `users` table. -/
theorem selectAll_live_writes_witness :
    NewTable (str "default") (str "users") userCols none = some usersFresh ∧
    AllOk [Op.insert (userRow 1 "John Doe" 25), Op.insert (userRow 2 "Jane Smith" 30),
        Op.update (userRow 1 "John Doe" 26), Op.delete 2] usersFresh ∧
    (run [Op.insert (userRow 1 "John Doe" 25), Op.insert (userRow 2 "Jane Smith" 30),
        Op.update (userRow 1 "John Doe" 26), Op.delete 2] usersFresh).1.SelectAll
      (run [Op.insert (userRow 1 "John Doe" 25), Op.insert (userRow 2 "Jane Smith" 30),
        Op.update (userRow 1 "John Doe" 26), Op.delete 2] usersFresh).2
      = some [userRow 1 "John Doe" 26] :=
  ⟨by decide, ⟨by decide, by decide, by decide, by decide, trivial⟩,
    (selectAll_live_writes (str "default") (str "users") userCols
      [Op.insert (userRow 1 "John Doe" 25), Op.insert (userRow 2 "Jane Smith" 30),
        Op.update (userRow 1 "John Doe" 26), Op.delete 2] usersFresh (by decide)
      (by
        intro op hop row hrow
        simp only [List.mem_cons, List.mem_singleton, List.not_mem_nil, or_false] at hop
        rcases hop with rfl | rfl | rfl | rfl <;> cases hrow <;> (unfold ShortText; decide))
      ⟨by decide, by decide, by decide, by decide, trivial⟩).1.trans (by decide)⟩

/-- Witness of `reopen_same_selectAll`: the `users` table after two inserts and a
delete. -/
theorem reopen_same_selectAll_witness :
    NewTable (str "default") (str "users") userCols none = some usersFresh ∧
    (NewTable (str "default") (str "users") userCols
        (run [Op.insert (userRow 1 "John Doe" 25), Op.insert (userRow 2 "Jane Smith" 30),
          Op.delete 1] usersFresh).2).bind (fun p => p.1.SelectAll p.2)
      = some [userRow 2 "Jane Smith" 30] :=
  ⟨by decide,
    (reopen_same_selectAll (str "default") (str "users") userCols none
      [Op.insert (userRow 1 "John Doe" 25), Op.insert (userRow 2 "Jane Smith" 30), Op.delete 1]
      usersFresh (by decide)).trans (by decide)⟩

/-! ## The statement dispatcher -/

/-- C9 (the code at the failing input). With the rows 0 and 1 in `users`, the statement
`DELETE FROM users WHERE id=1 AND age=2` is not rejected: it returns the success
message and deletes the row with id 0 (row 1 stays).  With row 0 inserted again,
`DELETE FROM users WHERE id=abc` does the same. -/
theorem delete_non_integer_predicate_deletes_row_zero :
    (execAll asciiOnly
      [str "CREATE TABLE users (id int, username text, age int)",
       str "INSERT INTO users VALUES (0, 'Zero', 20)",
       str "INSERT INTO users VALUES (1, 'John', 25)",
       str "DELETE FROM users WHERE id=1 AND age=2",
       str "SELECT * FROM users",
       str "INSERT INTO users VALUES (0, 'Zero', 20)",
       str "DELETE FROM users WHERE id=abc",
       str "SELECT * FROM users"]
      (emptyDb "shop", [])).1
    = [str "Table 'users' created successfully.",
       str "Row inserted successfully.",
       str "Row inserted successfully.",
       str "Row deleted successfully.",
       str "\x7b\"age\":25,\"id\":1,\"username\":\"John\"\x7d\n",
       str "Row inserted successfully.",
       str "Row deleted successfully.",
       str "\x7b\"age\":25,\"id\":1,\"username\":\"John\"\x7d\n"] := by
  decide

theorem utf8EncodeRune_ne_nil (c : Nat) : utf8EncodeRune c ≠ [] := by
  unfold utf8EncodeRune
  split
  · simp
  · split
    · simp
    · split <;> simp

theorem str_eq_nil_iff (s : String) : str s = [] ↔ s = "" := by
  unfold str
  constructor
  · intro h
    cases hs : s.data with
    | nil =>
      cases s
      simp only at hs
      subst hs
      rfl
    | cons c cs =>
      rw [hs] at h
      simp only [List.flatMap_cons, List.append_eq_nil, utf8EncodeRune_ne_nil, false_and] at h
  · intro h
    subst h
    rfl

example : str "Table not found." ≠ [] := by simp [str_eq_nil_iff]
example (t : GoString) : str "Table '" ++ t ++ str "' dropped." ≠ [] := by simp [str_eq_nil_iff]

theorem TableError.Error_ne_nil (e : TableError) : e.Error ≠ [] := by
  cases e <;> simp [TableError.Error, str_eq_nil_iff]

theorem afterCall_ne_nil (db : Database) (files : Files) (name : GoString)
    (r : Ret × Table × Option (List Nat)) (onOk : GoString) (onError : TableError → GoString)
    (h1 : onOk ≠ []) (h2 : ∀ e, onError e ≠ []) (out : GoString)
    (h : (afterCall db files name r onOk onError).1 = some out) : out ≠ [] := by
  unfold afterCall at h
  split at h
  · simp only [Option.some.injEq] at h; rw [← h]; exact h1
  · simp only [Option.some.injEq] at h; rw [← h]; exact h2 _
  · cases h

theorem handleCreate_ne_nil (U : Unicode) (db : Database) (files : Files) (sql out : GoString)
    (h : (handleCreate U db files sql).1 = some out) : out ≠ [] := by
  unfold handleCreate at h
  split at h
  · split at h
    · split at h
      · cases h
      · split at h
        · simp only [Option.some.injEq] at h; rw [← h]; simp [str_eq_nil_iff]
        · split at h
          · simp only [Option.some.injEq] at h; rw [← h]; simp [str_eq_nil_iff]
          · split at h
            · cases h
            · simp only [Option.some.injEq] at h; rw [← h]; simp [str_eq_nil_iff]
    · cases h
  · simp only [Option.some.injEq] at h; rw [← h]; simp [str_eq_nil_iff]

theorem handleDrop_ne_nil (db : Database) (files : Files) (sql out : GoString)
    (h : (handleDrop db files sql).1 = some out) : out ≠ [] := by
  unfold handleDrop at h
  split at h
  · split at h
    · simp only [Option.some.injEq] at h; rw [← h]; simp [str_eq_nil_iff]
    · simp only [Option.some.injEq] at h; rw [← h]; simp [str_eq_nil_iff]
  · simp only [Option.some.injEq] at h; rw [← h]; simp [str_eq_nil_iff]

theorem handleInsert_ne_nil (U : Unicode) (db : Database) (files : Files) (sql out : GoString)
    (h : (handleInsert U db files sql).1 = some out) : out ≠ [] := by
  unfold handleInsert at h
  split at h
  · split at h
    · split at h
      · simp only [Option.some.injEq] at h; rw [← h]; simp [str_eq_nil_iff]
      · exact afterCall_ne_nil _ _ _ _ _ _ (by simp [str_eq_nil_iff])
          (fun e => by simp [str_eq_nil_iff]) out h
    · cases h
  · simp only [Option.some.injEq] at h; rw [← h]; simp [str_eq_nil_iff]

theorem handleUpdate_ne_nil (U : Unicode) (db : Database) (files : Files) (sql out : GoString)
    (h : (handleUpdate U db files sql).1 = some out) : out ≠ [] := by
  unfold handleUpdate at h
  split at h
  · split at h
    · split at h
      · simp only [Option.some.injEq] at h; rw [← h]; simp [str_eq_nil_iff]
      · split at h
        · split at h
          · cases h
          · simp only [Option.some.injEq] at h; rw [← h]; simp [str_eq_nil_iff]
          · split at h
            · cases h
            · exact afterCall_ne_nil _ _ _ _ _ _ (by simp [str_eq_nil_iff])
                (fun e => TableError.Error_ne_nil e) out h
        · simp only [Option.some.injEq] at h; rw [← h]; simp [str_eq_nil_iff]
    · cases h
  · simp only [Option.some.injEq] at h; rw [← h]; simp [str_eq_nil_iff]

theorem handleDelete_ne_nil (U : Unicode) (db : Database) (files : Files) (sql out : GoString)
    (h : (handleDelete U db files sql).1 = some out) : out ≠ [] := by
  unfold handleDelete at h
  split at h
  · split at h
    · simp only [Option.some.injEq] at h; rw [← h]; simp [str_eq_nil_iff]
    · split at h
      · simp only [Option.some.injEq] at h; rw [← h]; simp [str_eq_nil_iff]
      · split at h
        · simp only [Option.some.injEq] at h; rw [← h]; simp [str_eq_nil_iff]
        · exact afterCall_ne_nil _ _ _ _ _ _ (by simp [str_eq_nil_iff])
            (fun e => TableError.Error_ne_nil e) out h
  · simp only [Option.some.injEq] at h; rw [← h]; simp [str_eq_nil_iff]

theorem handleJoin_ne_nil (U : Unicode) (db : Database) (files : Files) (sql out : GoString)
    (h : handleJoin U db files sql = some out) : out ≠ [] := by
  unfold handleJoin at h
  split at h
  · split at h
    · split at h
      · split at h
        · split at h
          · split at h
            · simp only [Option.some.injEq] at h; rw [← h]; simp [str_eq_nil_iff]
            · cases h
          · simp only [Option.some.injEq] at h; rw [← h]; simp [str_eq_nil_iff]
        · simp only [Option.some.injEq] at h; rw [← h]; simp [str_eq_nil_iff]
      · simp only [Option.some.injEq] at h; rw [← h]; simp [str_eq_nil_iff]
    · cases h
  · simp only [Option.some.injEq] at h; rw [← h]; simp [str_eq_nil_iff]

theorem selectLines_eq_nil (rows : List Row) : selectLines rows = [] ↔ rows = [] := by
  cases rows with
  | nil => simp [selectLines]
  | cons r rows => simp [selectLines, jsonMarshal]

theorem handleSelect_eq_nil (U : Unicode) (db : Database) (files : Files) (sql : GoString) :
    handleSelect U db files sql = some [] ↔
      Contains (ToUpper U sql) (str " JOIN ") = false ∧
      ∃ table, mapGet db.Tables ((Fields sql).getD 3 []) = some table ∧
        Index (ToUpper U sql) (str "WHERE ID=") = none ∧
        table.SelectAll (mapGet files table.filePath) = some [] := by
  unfold handleSelect
  constructor
  · intro h
    split at h
    · exact absurd rfl (handleJoin_ne_nil U db files sql [] h)
    · rename_i hj
      refine ⟨by simpa using hj, ?_⟩
      split at h
      · simp [str_eq_nil_iff] at h
      · rename_i table htable
        refine ⟨table, htable, ?_⟩
        split at h
        · split at h
          · cases h
          · split at h
            · cases h
            · simp [str_eq_nil_iff] at h
            · simp [jsonMarshal] at h
        · rename_i hidx
          refine ⟨hidx, ?_⟩
          cases hsel : table.SelectAll (mapGet files table.filePath) with
          | none => rw [hsel] at h; cases h
          | some rows =>
            rw [hsel] at h
            simp only [Option.map_some', Option.some.injEq, selectLines_eq_nil] at h
            rw [h]
  · rintro ⟨hj, table, htable, hidx, hsel⟩
    rw [if_neg (by rw [hj]; decide)]
    simp only [htable, hidx, hsel]
    rfl

theorem dispatch_eq_nil (U : Unicode) (db : Database) (files : Files) (sql command : GoString) :
    (dispatch U db files sql command).1 = some [] ↔
      command = str "SELECT" ∧ handleSelect U db files sql = some [] := by
  unfold dispatch
  constructor
  · intro h
    split at h
    · exact absurd rfl (handleCreate_ne_nil U db files sql [] h)
    · split at h
      · exact absurd rfl (handleDrop_ne_nil db files sql [] h)
      · split at h
        · exact absurd rfl (handleInsert_ne_nil U db files sql [] h)
        · split at h
          · rename_i hs
            exact ⟨hs, h⟩
          · split at h
            · exact absurd rfl (handleUpdate_ne_nil U db files sql [] h)
            · split at h
              · exact absurd rfl (handleDelete_ne_nil U db files sql [] h)
              · simp [str_eq_nil_iff] at h
  · rintro ⟨hc, hs⟩
    subst hc
    have h1 : str "SELECT" ≠ str "CREATE" := by decide
    have h2 : str "SELECT" ≠ str "DROP" := by decide
    have h3 : str "SELECT" ≠ str "INSERT" := by decide
    simp only [h1, h2, h3, if_false, if_true]
    exact hs

/-- C10 (amended). Every statement yields exactly one result string, and that string is
empty in exactly three cases: the text has no token (it is empty or white space only),
the handler panics (the panic is recovered and the zero value returned), or the
statement is a `SELECT` without ` JOIN ` and without `WHERE ID=` on a table that has no
live row.  In every other case the result is a non-empty string. -/
theorem executeSql_result_empty_iff (U : Unicode) (db : Database) (files : Files)
    (sql : GoString) :
    (ExecuteSql U db files sql).1 = [] ↔
      Fields sql = [] ∨
      (∃ first rest, Fields sql = first :: rest ∧
        (dispatch U db files sql (ToUpper U first)).1 = none) ∨
      (∃ first rest table, Fields sql = first :: rest ∧ ToUpper U first = str "SELECT" ∧
        Contains (ToUpper U sql) (str " JOIN ") = false ∧
        mapGet db.Tables ((Fields sql).getD 3 []) = some table ∧
        Index (ToUpper U sql) (str "WHERE ID=") = none ∧
        table.SelectAll (mapGet files table.filePath) = some []) := by
  unfold ExecuteSql
  cases hf : Fields sql with
  | nil => simp
  | cons first rest =>
    simp only [false_or, List.cons.injEq, reduceCtorEq]
    constructor
    · intro h
      cases hd : (dispatch U db files sql (ToUpper U first)).1 with
      | none => exact Or.inl ⟨first, rest, ⟨rfl, rfl⟩, hd⟩
      | some out =>
        rw [hd] at h
        simp only [Option.getD_some] at h
        subst h
        obtain ⟨hc, hs⟩ := (dispatch_eq_nil U db files sql _).mp hd
        obtain ⟨hj, table, htable, hidx, hsel⟩ := (handleSelect_eq_nil U db files sql).mp hs
        rw [hf] at htable
        exact Or.inr ⟨first, rest, table, ⟨rfl, rfl⟩, hc, hj, htable, hidx, hsel⟩
    · rintro (⟨f, r, ⟨rfl, rfl⟩, hd⟩ | ⟨f, r, table, ⟨rfl, rfl⟩, hc, hj, htable, hidx, hsel⟩)
      · rw [hd]; rfl
      · have hs := (handleSelect_eq_nil U db files sql).mpr
          ⟨hj, table, by rw [hf]; exact htable, hidx, hsel⟩
        rw [(dispatch_eq_nil U db files sql _).mpr ⟨hc, hs⟩]
        rfl

/-- C10 (counterexample). Four statements for which `ExecuteSql` returns the empty string:
the empty text, white space only, `CREATE )(` (the slice of the column list panics),
and `SELECT * FROM t` on a table without rows. -/
theorem executeSql_empty_results :
    (ExecuteSql asciiOnly (emptyDb "shop") [] (str "")).1 = [] ∧
    (ExecuteSql asciiOnly (emptyDb "shop") [] (str "  \t ")).1 = [] ∧
    (ExecuteSql asciiOnly (emptyDb "shop") [] (str "CREATE )(")).1 = [] ∧
    (execAll asciiOnly [str "CREATE TABLE t (id int)", str "SELECT * FROM t"]
      (emptyDb "shop", [])).1 = [str "Table 't' created successfully.", []] := by
  decide

theorem Index_le_length (s sub : GoString) (i : Nat) (h : Index s sub = some i) :
    i ≤ s.length := by
  induction s generalizing i with
  | nil =>
    unfold Index at h
    split at h
    · cases h; exact Nat.le_refl _
    · cases h
  | cons b s ih =>
    unfold Index at h
    split at h
    · cases h; exact Nat.zero_le _
    · cases hi : Index s sub with
      | none => rw [hi] at h; cases h
      | some j =>
        rw [hi] at h
        simp only [Option.map_some', Option.some.injEq] at h
        have := ih j hi
        simp only [List.length_cons]
        omega

theorem slice_zero (s : GoString) (i : Nat) (h : i ≤ s.length) :
    slice s 0 i = some (s.take i) := by
  unfold slice
  simp [h]

/-- C8 (amended). Schema validation on CREATE: for every statement dispatched to
`handleCreate` whose parenthesized column list is parsed and holds no column named `id`
of type `int`, `ExecuteSql` creates no table (table mapping and files are unchanged)
and returns the validation error, unless the table name is already taken, in which
case it returns `Table already exists.`. -/
theorem create_without_id_rejected (U : Unicode) (db : Database) (files : Files)
    (sql first : GoString) (rest : List GoString) (openParen closeParen : Nat)
    (bodyPart tableName : GoString)
    (hf : Fields sql = first :: rest) (hcmd : ToUpper U first = str "CREATE")
    (ho : Index sql (str "(") = some openParen)
    (hc : LastIndex sql (str ")") = some closeParen)
    (hbody : slice sql (openParen + 1) closeParen = some bodyPart)
    (hname : (Fields (TrimSpace (sql.take openParen))).getLast? = some tableName)
    (hid : hasId (parseColumns U (Split bodyPart (str ","))) = false) :
    ExecuteSql U db files sql
      = (if (mapGet db.Tables tableName).isSome then str "Table already exists."
          else str "Error: Table must include an 'id' column of type 'int'.", db, files) := by
  unfold ExecuteSql
  rw [hf]
  simp only [hcmd, dispatch, if_true, handleCreate, ho, hc,
    slice_zero sql openParen (Index_le_length _ _ _ ho), hbody, hname, hid]
  split <;> rfl

/-- Witness of `create_without_id_rejected`: the statement
`CREATE TABLE t (name text, age int)` on a database without tables. -/
theorem create_without_id_rejected_witness :
    hasId (parseColumns asciiOnly (Split (str "name text, age int") (str ","))) = false ∧
    ExecuteSql asciiOnly (emptyDb "shop") [] (str "CREATE TABLE t (name text, age int)")
      = (str "Error: Table must include an 'id' column of type 'int'.", emptyDb "shop", []) :=
  ⟨by decide,
    create_without_id_rejected asciiOnly (emptyDb "shop") []
      (str "CREATE TABLE t (name text, age int)") (str "CREATE")
      [str "TABLE", str "t", str "(name", str "text,", str "age", str "int)"] 15 34
      (str "name text, age int") (str "t")
      (by decide) (by decide) (by decide) (by decide) (by decide) (by decide) (by decide)⟩

/-- C8 (counterexample). When the table `t` exists, `CREATE TABLE t (name text, age int)`,
whose column list has no `id` column, returns `Table already exists.` and not the
validation error. -/
theorem create_without_id_existing_table :
    hasId (parseColumns asciiOnly (Split (str "name text, age int") (str ","))) = false ∧
    (execAll asciiOnly [str "CREATE TABLE t (id int)", str "CREATE TABLE t (name text, age int)"]
      (emptyDb "shop", [])).1
      = [str "Table 't' created successfully.", str "Table already exists."] := by
  decide

/-! ## A text value too long for the length field -/

theorem readString_negative (n : Int) (hn : int32 n < 0) (r : List Nat) :
    readString (putInt32 n ++ r) = none := by
  unfold readString
  rw [readInt32_putInt32]
  simp [hn]

theorem selectAllLoop_panic (cols : List ColumnDef) (fuel : Nat) (id : Int) (rest : List Nat)
    (h : readColumns cols rest (mapSet [] (str "id") (Value.int (int32 id))) = none) :
    selectAllLoop cols (fuel + 1) (0 :: (putInt32 (int32 id) ++ rest)) = none := by
  simp [selectAllLoop, readBool, readInt32_putInt32, int32_idem, h]

theorem insert_long_text_selectAll (s : GoString) (hs : s.length = 2147483648) :
    ((Op.insert (textRow s)).apply usersFresh).1 = Ret.ok ∧
    (run [Op.insert (textRow s)] usersFresh).1.SelectAll
      (run [Op.insert (textRow s)] usersFresh).2 = none := by
  have hlen : int32 (int32 (Int.ofNat s.length)) < 0 := by rw [hs]; decide
  have hok : ((Op.insert (textRow s)).apply usersFresh).1 = Ret.ok := by
    simp [Op.apply, usersFresh, usersTable, Table.Insert, mapGet, checkUnique, userCols,
      addUnique, textRow]
  refine ⟨hok, ?_⟩
  simp only [Op.apply] at hok
  simp only [run, Op.apply]
  rcases hins : usersFresh.1.Insert usersFresh.2 (textRow s) with ⟨r, t1, f1⟩
  rw [hins] at hok
  simp only at hok
  subst hok
  obtain ⟨_, _, ht1, hf1⟩ := Insert_ok hins
  rw [hf1, ht1]
  simp only [Table.SelectAll, usersFresh, usersTable, Option.getD_some, List.nil_append,
    encodeRecord, List.length_cons]
  apply selectAllLoop_panic
  have henc : encodeColumns (textRow s) userCols
      = putInt32 (int32 (Int.ofNat s.length)) ++ (s ++ putInt32 (int32 25)) := by
    have : encodeColumns (textRow s) userCols = writeString s ++ (putInt32 (int32 25) ++ []) := rfl
    rw [this, writeString, List.append_nil, List.append_assoc]
  have hread : ∀ (r : List Nat) (data : List (GoString × Value)), readString r = none →
      readColumns userCols r data = none := by
    intro r data hr
    have : readColumns userCols r data
        = match readString r with
          | none => none
          | some (x, r1) =>
            readColumns (userCols.drop 2) r1 (mapSet data (str "username") (Value.str x)) := rfl
    rw [this, hr]
  rw [henc]
  exact hread _ _ (readString_negative _ hlen _)

/-- C6 (counterexample). On the `users` table, `Insert` of a row whose `username` is a text
of 2147483648 bytes returns nil (the length field of its record holds -2147483648),
and `SelectAll` then panics instead of returning the row.  And a row written without
its `username` and `age` (`INSERT INTO users VALUES (1)`) is returned with the values
`""` and 0 of its record. -/
theorem selectAll_long_text_counterexample :
    (((Op.insert (textRow (List.replicate 2147483648 97))).apply usersFresh).1 = Ret.ok ∧
      (run [Op.insert (textRow (List.replicate 2147483648 97))] usersFresh).1.SelectAll
        (run [Op.insert (textRow (List.replicate 2147483648 97))] usersFresh).2 = none) ∧
    ((Op.insert (idRow 1)).apply usersFresh).1 = Ret.ok ∧
    (run [Op.insert (idRow 1)] usersFresh).1.SelectAll (run [Op.insert (idRow 1)] usersFresh).2
      = some [userRow 1 "" 0] :=
  ⟨insert_long_text_selectAll (List.replicate 2147483648 97) (List.length_replicate _ _),
    by decide, by decide⟩

/-! ## The value of Atoi on text that is not a machine integer -/

theorem decimalValue_ge (ds : List Nat) (n : Nat) : n ≤ decimalValue ds n := by
  induction ds generalizing n with
  | nil => exact le_refl _
  | cons c r ih =>
    unfold decimalValue
    have := ih (n * 10 + (c - 48))
    omega

theorem parseDigits_digits (ds : List Nat) (n : Nat) (hd : ∀ d ∈ ds, 48 ≤ d ∧ d ≤ 57)
    (hn : n ≤ 18446744073709551615) :
    parseDigits ds n
      = if decimalValue ds n ≤ 18446744073709551615 then some (decimalValue ds n, true)
        else some (18446744073709551615, false) := by
  induction ds generalizing n with
  | nil => simp [parseDigits, decimalValue, hn]
  | cons c r ih =>
    have hc := hd c (List.mem_cons_self _ _)
    have hge := decimalValue_ge r (n * 10 + (c - 48))
    unfold parseDigits decimalValue
    rw [if_pos hc]
    by_cases h1 : n ≥ 1844674407370955162
    · rw [if_pos h1, if_neg (by omega)]
    · rw [if_neg h1]
      by_cases h2 : n * 10 + (c - 48) > 18446744073709551615
      · rw [if_pos h2, if_neg (by omega)]
      · rw [if_neg h2]
        exact ih _ (fun d hdm => hd d (List.mem_cons_of_mem _ hdm)) (by omega)

theorem parseDigits_nondigit (ds : List Nat) (c : Nat) (rest : List Nat) (n : Nat)
    (hd : ∀ d ∈ ds, 48 ≤ d ∧ d ≤ 57) (hc : ¬ (48 ≤ c ∧ c ≤ 57))
    (hv : decimalValue ds n ≤ 18446744073709551615) :
    parseDigits (ds ++ c :: rest) n = none := by
  induction ds generalizing n with
  | nil => simp only [List.nil_append, parseDigits, if_neg hc]
  | cons d r ih =>
    have hdd := hd d (List.mem_cons_self _ _)
    unfold decimalValue at hv
    have hge := decimalValue_ge r (n * 10 + (d - 48))
    simp only [List.cons_append, parseDigits]
    rw [if_pos hdd, if_neg (by omega), if_neg (by omega)]
    exact ih _ (fun x hx => hd x (List.mem_cons_of_mem _ hx)) hv

theorem Atoi_eq_parseSigned (raw : GoString) :
    Atoi raw = parseSigned (literalNeg raw) (literalBody raw) := by
  cases raw with
  | nil => simp [Atoi, literalNeg, literalBody, parseSigned]
  | cons c r =>
    by_cases h43 : c = 43
    · subst h43; rfl
    · by_cases h45 : c = 45
      · subst h45; rfl
      · rw [Atoi.eq_4 _ _ (fun h => h43 h) (fun h => h45 h)]
        have hb : literalBody (c :: r) = c :: r := by
          unfold literalBody
          split
          · rename_i heq; injection heq with h _; exact absurd h h43
          · rename_i heq; injection heq with h _; exact absurd h h45
          · rfl
        have hn : literalNeg (c :: r) = false := by
          unfold literalNeg
          split
          · rename_i heq; injection heq with h _; exact absurd h h45
          · rfl
        rw [hb, hn]

theorem Atoi_notNumber (raw : GoString) (h : NotNumber raw) : Atoi raw = 0 := by
  rw [Atoi_eq_parseSigned]
  unfold parseSigned
  rcases h with h | ⟨ds, c, rest, hb, hd, hc, hv⟩
  · rw [if_pos h]
  · rw [hb, if_neg (by simp), parseDigits_nondigit ds c rest 0 hd hc hv]

theorem Atoi_tooLarge (raw : GoString) (h : TooLarge raw) :
    Atoi raw = 9223372036854775807 := by
  obtain ⟨hneg, hne, hd, hv⟩ := h
  rw [Atoi_eq_parseSigned, hneg]
  unfold parseSigned
  rw [if_neg hne, parseDigits_digits _ 0 hd (by omega)]
  by_cases h1 : decimalValue (literalBody raw) 0 ≤ 18446744073709551615
  · rw [if_pos h1]
    simp only [Bool.false_eq_true, if_false]
    rw [if_pos hv]
  · rw [if_neg h1]
    simp

theorem Atoi_tooSmall (raw : GoString) (h : TooSmall raw) :
    Atoi raw = -9223372036854775808 := by
  obtain ⟨hneg, hne, hd, hv⟩ := h
  rw [Atoi_eq_parseSigned, hneg]
  unfold parseSigned
  rw [if_neg hne, parseDigits_digits _ 0 hd (by omega)]
  by_cases h1 : decimalValue (literalBody raw) 0 ≤ 18446744073709551615
  · rw [if_pos h1]
    simp only [if_true]
    rw [if_pos hv]
  · rw [if_neg h1]
    simp

/-! ## The row handleInsert builds -/

theorem buildRow_data_other (k : GoString) (cols : List ColumnDef) (values : List GoString)
    (row : Row)
    (h : ∀ j c, cols[j]? = some c → j < values.length → c.Name ≠ k) :
    mapGet (buildRow cols values row).Data k = mapGet row.Data k := by
  induction cols generalizing values row with
  | nil => rfl
  | cons col cols ih =>
    cases values with
    | nil => rfl
    | cons v values =>
      unfold buildRow
      rw [ih values _ (fun j c hc hj => h (j + 1) c (by simpa using hc) (by simpa using hj))]
      have h0 : col.Name ≠ k := h 0 col (by simp) (by simp)
      simp only
      split <;> exact mapGet_mapSet_other _ _ _ _ h0

theorem buildRow_id_other (cols : List ColumnDef) (values : List GoString) (row : Row)
    (h : ∀ j c, cols[j]? = some c → j < values.length → c.Name ≠ str "id") :
    (buildRow cols values row).Id = row.Id := by
  induction cols generalizing values row with
  | nil => rfl
  | cons col cols ih =>
    cases values with
    | nil => rfl
    | cons v values =>
      unfold buildRow
      rw [ih values _ (fun j c hc hj => h (j + 1) c (by simpa using hc) (by simpa using hj))]
      have h0 : col.Name ≠ str "id" := h 0 col (by simp) (by simp)
      simp only [if_neg h0]

theorem buildRow_data (cols : List ColumnDef) (values : List GoString) (row : Row) (i : Nat)
    (col : ColumnDef) (v : GoString) (hc : cols[i]? = some col) (hv : values[i]? = some v)
    (hlast : ∀ j c, i < j → j < values.length → cols[j]? = some c → c.Name ≠ col.Name) :
    mapGet (buildRow cols values row).Data col.Name
      = some (if col.Typ = DbType.IntType then Value.int (Atoi (Trim (TrimSpace v) [34, 39]))
          else Value.str (Trim (TrimSpace v) [34, 39])) := by
  induction cols generalizing values row i with
  | nil => simp at hc
  | cons c0 cols ih =>
    cases values with
    | nil => simp at hv
    | cons v0 values =>
      unfold buildRow
      cases i with
      | zero =>
        simp only [List.getElem?_cons_zero, Option.some.injEq] at hc hv
        subst hc hv
        rw [buildRow_data_other c0.Name cols values _
          (fun j c hcj hj => hlast (j + 1) c (by omega) (by simpa using hj) (by simpa using hcj))]
        simp only
        split <;> exact mapGet_mapSet_self _ _ _
      | succ i =>
        simp only [List.getElem?_cons_succ] at hc hv
        exact ih values _ i hc hv
          (fun j c hij hj hcj => hlast (j + 1) c (by omega) (by simpa using hj)
            (by simpa using hcj))

theorem buildRow_id (cols : List ColumnDef) (values : List GoString) (row : Row) (i : Nat)
    (col : ColumnDef) (v : GoString) (hc : cols[i]? = some col) (hv : values[i]? = some v)
    (hid : col.Name = str "id")
    (hlast : ∀ j c, i < j → j < values.length → cols[j]? = some c → c.Name ≠ col.Name) :
    (buildRow cols values row).Id = Atoi (Trim (TrimSpace v) [34, 39]) := by
  induction cols generalizing values row i with
  | nil => simp at hc
  | cons c0 cols ih =>
    cases values with
    | nil => simp at hv
    | cons v0 values =>
      unfold buildRow
      cases i with
      | zero =>
        simp only [List.getElem?_cons_zero, Option.some.injEq] at hc hv
        subst hc hv
        rw [buildRow_id_other cols values _
          (fun j c hcj hj => by
            rw [← hid]
            exact hlast (j + 1) c (by omega) (by simpa using hj) (by simpa using hcj))]
        simp only [if_pos hid]
      | succ i =>
        simp only [List.getElem?_cons_succ] at hc hv
        exact ih values _ i hc hv
          (fun j c hij hj hcj => hlast (j + 1) c (by omega) (by simpa using hj)
            (by simpa using hcj))

/-- C11 (amended). Integer coercion on INSERT: for every statement dispatched to
`handleInsert` that names an existing table, and every positional value `v` for a column
`col` of type `int` (no later column that receives a value having the same name), the
statement is not rejected for the value: it runs `Insert` with the row built from the
values and returns `Row inserted successfully.` or the error of `Insert`.  The row holds
for `col` the result of `strconv.Atoi` on the trimmed value, and the record stores it
converted to `int32` (as the id of the record when `col` is named `id`).  That result is
0 for text that is not a number; for a literal above the 64-bit range it is
9223372036854775807, stored as -1, and for a literal below the range it is
-9223372036854775808, stored as 0. -/
theorem insert_integer_coercion (U : Unicode) (db : Database) (files : Files)
    (sql first : GoString) (rest : List GoString) (idxInto idxValues : Nat)
    (namePart valPart : GoString) (table : Table) (i : Nat) (col : ColumnDef) (v : GoString)
    (hf : Fields sql = first :: rest) (hcmd : ToUpper U first = str "INSERT")
    (hinto : Index (ToUpper U sql) (str "INTO ") = some idxInto)
    (hvalues : Index (ToUpper U sql) (str " VALUES") = some idxValues)
    (hname : slice sql (idxInto + 5) idxValues = some namePart)
    (hval : sliceFrom sql (idxValues + 7) = some valPart)
    (htable : mapGet db.Tables (TrimSpace namePart) = some table)
    (hcol : table.Schema.Columns[i]? = some col) (hint : col.Typ = DbType.IntType)
    (hv : (Split (Trim (TrimSpace valPart) (str "()")) (str ","))[i]? = some v)
    (hlast : ∀ j c, i < j → j < (Split (Trim (TrimSpace valPart) (str "()")) (str ",")).length →
      table.Schema.Columns[j]? = some c → c.Name ≠ col.Name) :
    ExecuteSql U db files sql
      = ((afterCall db files (TrimSpace namePart)
            (table.Insert (mapGet files table.filePath)
              (buildRow table.Schema.Columns
                (Split (Trim (TrimSpace valPart) (str "()")) (str ",")) NewRow))
            (str "Row inserted successfully.") (fun e => str "Error: " ++ e.Error)).1.getD [],
          (afterCall db files (TrimSpace namePart)
            (table.Insert (mapGet files table.filePath)
              (buildRow table.Schema.Columns
                (Split (Trim (TrimSpace valPart) (str "()")) (str ",")) NewRow))
            (str "Row inserted successfully.") (fun e => str "Error: " ++ e.Error)).2) ∧
    mapGet (buildRow table.Schema.Columns
        (Split (Trim (TrimSpace valPart) (str "()")) (str ",")) NewRow).Data col.Name
      = some (Value.int (Atoi (Trim (TrimSpace v) [34, 39]))) ∧
    (col.Name = str "id" →
      (buildRow table.Schema.Columns
        (Split (Trim (TrimSpace valPart) (str "()")) (str ",")) NewRow).Id
        = Atoi (Trim (TrimSpace v) [34, 39])) ∧
    storedValue col (buildRow table.Schema.Columns
        (Split (Trim (TrimSpace valPart) (str "()")) (str ",")) NewRow)
      = Value.int (int32 (Atoi (Trim (TrimSpace v) [34, 39]))) ∧
    (NotNumber (Trim (TrimSpace v) [34, 39]) → Atoi (Trim (TrimSpace v) [34, 39]) = 0) ∧
    (TooLarge (Trim (TrimSpace v) [34, 39]) →
      Atoi (Trim (TrimSpace v) [34, 39]) = 9223372036854775807 ∧
      int32 (Atoi (Trim (TrimSpace v) [34, 39])) = -1) ∧
    (TooSmall (Trim (TrimSpace v) [34, 39]) →
      Atoi (Trim (TrimSpace v) [34, 39]) = -9223372036854775808 ∧
      int32 (Atoi (Trim (TrimSpace v) [34, 39])) = 0) := by
  have h1 : str "INSERT" ≠ str "CREATE" := by decide
  have h2 : str "INSERT" ≠ str "DROP" := by decide
  have hdata := buildRow_data table.Schema.Columns _ NewRow i col v hcol hv hlast
  rw [if_pos hint] at hdata
  refine ⟨?_, hdata, ?_, ?_, Atoi_notNumber _, ?_, ?_⟩
  · unfold ExecuteSql
    rw [hf]
    simp only [hcmd, dispatch, h1, h2, if_false, if_true, handleInsert, hinto, hvalues, hname,
      hval, htable]
  · intro hid
    exact buildRow_id table.Schema.Columns _ NewRow i col v hcol hv hid hlast
  · unfold storedValue
    rw [if_pos hint, hdata]
    rfl
  · intro h
    rw [Atoi_tooLarge _ h]
    exact ⟨rfl, by decide⟩
  · intro h
    rw [Atoi_tooSmall _ h]
    exact ⟨rfl, by decide⟩

/-- Witness of `insert_integer_coercion`: `INSERT INTO t VALUES (1, abc)` into the table
of `CREATE TABLE t (id int, n int)`; the value `abc` of column `n` is stored as 0. -/
theorem insert_integer_coercion_witness :
    NotNumber (str "abc") ∧
    (ExecuteSql asciiOnly numScenario.1 numScenario.2 (str "INSERT INTO t VALUES (1, abc)")).1
      = str "Row inserted successfully." ∧
    Atoi (Trim (TrimSpace (str " abc")) [34, 39]) = 0 ∧
    storedValue { Name := str "n", Typ := DbType.IntType, IsPrimaryKey := false, IsUnique := false }
        (buildRow numCols (Split (Trim (TrimSpace (str " (1, abc)")) (str "()")) (str ","))
          NewRow)
      = Value.int (int32 (Atoi (Trim (TrimSpace (str " abc")) [34, 39]))) := by
  have hnot : NotNumber (str "abc") :=
    Or.inr ⟨[], 97, [98, 99], rfl, by simp, by decide, by decide⟩
  have h := insert_integer_coercion asciiOnly numScenario.1 numScenario.2
    (str "INSERT INTO t VALUES (1, abc)") (str "INSERT")
    [str "INTO", str "t", str "VALUES", str "(1,", str "abc)"] 7 13 (str "t") (str " (1, abc)")
    { Schema := { Name := str "t", Columns := numCols }
      filePath := str "shop_t.db"
      PrimaryKeyIdx := []
      UniqueIndexes := [] }
    1 { Name := str "n", Typ := DbType.IntType, IsPrimaryKey := false, IsUnique := false }
    (str " abc")
    (by decide) (by decide) (by decide) (by decide) (by decide) (by decide) (by decide)
    (by decide) (by decide) (by decide)
    (by
      intro j c h1 h2
      have hlen : (Split (Trim (TrimSpace (str " (1, abc)")) (str "()")) (str ",")).length = 2 := by
        decide
      omega)
  refine ⟨hnot, ?_, h.2.2.2.2.1 hnot, h.2.2.2.1⟩
  rw [h.1]
  decide

/-- C11 (counterexample). On `CREATE TABLE t (id int, n int)`, the statement
`INSERT INTO t VALUES (1, 99999999999999999999)` is accepted and the value stored for
`n` is -1, not 0. -/
theorem insert_out_of_range_counterexample :
    (execAll asciiOnly
      [str "CREATE TABLE t (id int, n int)",
        str "INSERT INTO t VALUES (1, 99999999999999999999)",
        str "SELECT * FROM t WHERE ID=1"] (emptyDb "shop", [])).1
      = [str "Table 't' created successfully.", str "Row inserted successfully.",
          str "\x7b\"id\":1,\"n\":-1\x7d"] := by
  decide

/-! ## The nested loops of the join -/

theorem joinInner_eq (c1 c2 : GoString) (r1 : Row) (rows2 : List Row) :
    joinInner c1 c2 r1 rows2
      = ((rows2.map (Prod.mk r1)).filter (fun p =>
          decide (sprintV (mapGet p.1.Data c1) = sprintV (mapGet p.2.Data c2)))).flatMap
            (fun p => joinEntry p.1 p.2) := by
  induction rows2 with
  | nil => rfl
  | cons r2 rows2 ih =>
    unfold joinInner
    by_cases h : sprintV (mapGet r1.Data c1) = sprintV (mapGet r2.Data c2)
    · rw [if_pos h, List.map_cons, List.filter_cons, if_pos (by simpa using h),
        List.flatMap_cons, ← ih]
      simp [joinEntry, List.append_assoc]
    · rw [if_neg h, List.map_cons, List.filter_cons, if_neg (by simpa using h)]
      exact ih

theorem joinOuter_eq (c1 c2 : GoString) (rows2 rows1 : List Row) :
    joinOuter c1 c2 rows2 rows1
      = ((List.product rows1 rows2).filter (fun p =>
          decide (sprintV (mapGet p.1.Data c1) = sprintV (mapGet p.2.Data c2)))).flatMap
            (fun p => joinEntry p.1 p.2) := by
  induction rows1 with
  | nil => rfl
  | cons r1 rows1 ih =>
    unfold joinOuter
    rw [ih, joinInner_eq]
    simp only [List.product, List.flatMap_cons, List.filter_append, List.flatMap_append]

/-- C12 (amended). JOIN returns exactly the matching pairs: for every statement that
`ExecuteSql` dispatches to `handleJoin` and that the substring search of `handleJoin`
splits into the names of two existing tables `t1`, `t2` and the condition
`t1.c1 = t2.c2`, the result is the header line followed by one entry for each pair
(r1, r2), r1 in `SelectAll` of `t1` and r2 in `SelectAll` of `t2`, whose values in `c1`
and `c2` have equal string representations, in nested-loop order (`t1` outer, `t2`
inner), and nothing else; database and files are unchanged. -/
theorem join_matching_pairs (U : Unicode) (db : Database) (files : Files)
    (sql first : GoString) (rest : List GoString) (idxFrom idxJoin idxOn : Nat)
    (p1 p2 p3 l r c1 c2 : GoString) (t1 t2 : Table) (rows1 rows2 : List Row)
    (hf : Fields sql = first :: rest) (hcmd : ToUpper U first = str "SELECT")
    (hfrom : Index (ToUpper U sql) (str "FROM ") = some idxFrom)
    (hjoin : Index (ToUpper U sql) (str " JOIN ") = some idxJoin)
    (hon : Index (ToUpper U sql) (str " ON ") = some idxOn)
    (hp1 : slice sql (idxFrom + 5) idxJoin = some p1)
    (hp2 : slice sql (idxJoin + 6) idxOn = some p2)
    (hp3 : sliceFrom sql (idxOn + 4) = some p3)
    (ht1 : mapGet db.Tables (TrimSpace p1) = some t1)
    (ht2 : mapGet db.Tables (TrimSpace p2) = some t2)
    (hcond : Split (TrimSpace p3) (str "=") = [l, r])
    (hl : Split (TrimSpace l) (str ".") = [TrimSpace p1, c1])
    (hr : Split (TrimSpace r) (str ".") = [TrimSpace p2, c2])
    (hrows1 : t1.SelectAll (mapGet files t1.filePath) = some rows1)
    (hrows2 : t2.SelectAll (mapGet files t2.filePath) = some rows2) :
    ExecuteSql U db files sql
      = (str "--- JOIN RESULT (" ++ TrimSpace p1 ++ str " + " ++ TrimSpace p2 ++ str ") ---\n"
          ++ ((List.product rows1 rows2).filter (fun p =>
              decide (sprintV (mapGet p.1.Data c1) = sprintV (mapGet p.2.Data c2)))).flatMap
                (fun p => joinEntry p.1 p.2), db, files) := by
  have h1 : str "SELECT" ≠ str "CREATE" := by decide
  have h2 : str "SELECT" ≠ str "DROP" := by decide
  have h3 : str "SELECT" ≠ str "INSERT" := by decide
  unfold ExecuteSql
  rw [hf]
  simp only [hcmd, dispatch, h1, h2, h3, if_false, if_true, handleSelect, Contains, hjoin,
    Option.isSome_some, handleJoin, hfrom, hon, hp1, hp2, hp3, ht1, ht2, hcond, hl, hr,
    hrows1, hrows2, ne_eq, not_true_eq_false, joinOuter_eq, Option.getD_some]

/-- Witness of `join_matching_pairs`: the join scenario, where one order matches a user
and one does not. -/
theorem join_matching_pairs_witness :
    ExecuteSql asciiOnly joinScenario.1 joinScenario.2
      (str "SELECT * FROM orders JOIN users ON orders.user_id = users.id")
      = (str "--- JOIN RESULT (orders + users) ---\n101 | 1, Laptop,  <-> Ann, \n",
          joinScenario.1, joinScenario.2) := by
  have h := join_matching_pairs asciiOnly joinScenario.1 joinScenario.2
    (str "SELECT * FROM orders JOIN users ON orders.user_id = users.id") (str "SELECT")
    [str "*", str "FROM", str "orders", str "JOIN", str "users", str "ON",
      str "orders.user_id", str "=", str "users.id"] 9 20 31
    (str "orders") (str "users") (str "orders.user_id = users.id")
    (str "orders.user_id ") (str " users.id") (str "user_id") (str "id")
    { Schema := { Name := str "orders", Columns :=
        [ { Name := str "id", Typ := DbType.IntType, IsPrimaryKey := true, IsUnique := false },
          { Name := str "user_id", Typ := DbType.IntType, IsPrimaryKey := false,
            IsUnique := false },
          { Name := str "item", Typ := DbType.StringType, IsPrimaryKey := false,
            IsUnique := false } ] }
      filePath := str "shop_orders.db"
      PrimaryKeyIdx := [(101, 0), (102, 19)]
      UniqueIndexes := [] }
    { Schema := { Name := str "users", Columns :=
        [ { Name := str "id", Typ := DbType.IntType, IsPrimaryKey := true, IsUnique := false },
          { Name := str "name", Typ := DbType.StringType, IsPrimaryKey := false,
            IsUnique := false } ] }
      filePath := str "shop_users.db"
      PrimaryKeyIdx := [(1, 0), (2, 12)]
      UniqueIndexes := [] }
    [ { Id := 101, Data := [(str "id", Value.int 101), (str "user_id", Value.int 1),
          (str "item", Value.str (str "Laptop"))], IsDeleted := false },
      { Id := 102, Data := [(str "id", Value.int 102), (str "user_id", Value.int 3),
          (str "item", Value.str (str "Phone"))], IsDeleted := false } ]
    [ { Id := 1, Data := [(str "id", Value.int 1), (str "name", Value.str (str "Ann"))],
        IsDeleted := false },
      { Id := 2, Data := [(str "id", Value.int 2), (str "name", Value.str (str "Bob"))],
        IsDeleted := false } ]
    (by decide) (by decide) (by decide) (by decide) (by decide) (by decide) (by decide)
    (by decide) (by decide) (by decide) (by decide) (by decide) (by decide) (by decide)
    (by decide)
  rw [h]
  decide

/-- C12 (counterexample). With the tables `join` and `b`, each holding row 1, the
statement `SELECT * FROM join JOIN b ON join.id = b.id` returns the empty string: the
first ` JOIN ` found is the one before the table name, the slice of the first table name
panics, and the panic is recovered.  The same join written with `b` first returns the
header and the matching pair. -/
theorem join_keyword_table_counterexample :
    (execAll asciiOnly
      [str "CREATE TABLE join (id int)", str "CREATE TABLE b (id int)",
        str "INSERT INTO join VALUES (1)", str "INSERT INTO b VALUES (1)",
        str "SELECT * FROM join JOIN b ON join.id = b.id",
        str "SELECT * FROM b JOIN join ON b.id = join.id"] (emptyDb "shop", [])).1
      = [str "Table 'join' created successfully.", str "Table 'b' created successfully.",
          str "Row inserted successfully.", str "Row inserted successfully.", str "",
          str "--- JOIN RESULT (b + join) ---\n1 |  <-> \n"] := by
  decide

/-! ## The UPDATE statement on a table with a unique column -/

/-- C13 (failing input). UPDATE statement effect: on
`CREATE TABLE members (id int, email text UNIQUE, age int)` holding the row
(1, "a@x", 30), the statement `UPDATE members SET age=31 WHERE id=1` returns the
UNIQUE-constraint error, and afterwards row 1 is gone: the select by id finds no row and
the full scan is empty. -/
theorem update_statement_loses_row :
    (execAll asciiOnly
      [str "CREATE TABLE members (id int, email text UNIQUE, age int)",
        str "INSERT INTO members VALUES (1, \"a@x\", 30)",
        str "SELECT * FROM members WHERE id=1",
        str "UPDATE members SET age=31 WHERE id=1",
        str "SELECT * FROM members WHERE id=1",
        str "SELECT * FROM members"] (emptyDb "shop", [])).1
      = [str "Table 'members' created successfully.", str "Row inserted successfully.",
          str "\x7b\"age\":30,\"email\":\"a@x\",\"id\":1\x7d",
          str "violation of UNIQUE constraint on column 'email'. Value 'a@x' already exists",
          str "No results.", str ""] := by
  decide

/-! ## The insert/select scenario -/

/-- C14 (amended). Insert/select scenario output: on a database without tables, whatever
its name, over a directory that holds no file for the table, after
`CREATE TABLE users (id int, username text, age int)` and
`INSERT INTO users VALUES (1, "John", 25)` have succeeded, `SELECT * FROM users WHERE ID=1`
returns exactly the JSON object of the row with its keys in sorted order,
`{"age":25,"id":1,"username":"John"}`. -/
theorem insert_select_scenario_output (name : GoString) (files : Files)
    (hfresh : mapGet files (tablePath name (str "users")) = none) :
    (execAll asciiOnly
      [str "CREATE TABLE users (id int, username text, age int)",
        str "INSERT INTO users VALUES (1, \"John\", 25)",
        str "SELECT * FROM users WHERE ID=1"] ({ Name := name, Tables := [] }, files)).1
      = [str "Table 'users' created successfully.", str "Row inserted successfully.",
          str "\x7b\"age\":25,\"id\":1,\"username\":\"John\"\x7d"] := by
  have hF1 : Fields (str "CREATE TABLE users (id int, username text, age int)")
      = [str "CREATE", str "TABLE", str "users", str "(id", str "int,", str "username",
          str "text,", str "age", str "int)"] := by decide
  have h1 : ExecuteSql asciiOnly { Name := name, Tables := [] } files
      (str "CREATE TABLE users (id int, username text, age int)")
      = (str "Table 'users' created successfully.",
          { Name := name, Tables := [(str "users",
            { Schema := { Name := str "users", Columns := userCols }
              filePath := tablePath name (str "users")
              PrimaryKeyIdx := [], UniqueIndexes := [] })] },
          mapSet files (tablePath name (str "users")) []) := by
    unfold ExecuteSql
    rw [hF1]
    simp only [show ToUpper asciiOnly (str "CREATE") = str "CREATE" from by decide, dispatch,
      if_true, handleCreate,
      show Index (str "CREATE TABLE users (id int, username text, age int)") (str "(")
        = some 19 from by decide,
      show LastIndex (str "CREATE TABLE users (id int, username text, age int)") (str ")")
        = some 50 from by decide,
      show slice (str "CREATE TABLE users (id int, username text, age int)") 0 19
        = some (str "CREATE TABLE users ") from by decide,
      show slice (str "CREATE TABLE users (id int, username text, age int)") (19 + 1) 50
        = some (str "id int, username text, age int") from by decide,
      show (Fields (TrimSpace (str "CREATE TABLE users "))).getLast? = some (str "users")
        from by decide,
      show parseColumns asciiOnly (Split (str "id int, username text, age int") (str ","))
        = userCols from by decide,
      show hasId userCols = true from by decide, hfresh, NewTable_fresh]
    rfl
  have h2 : ExecuteSql asciiOnly
      { Name := name, Tables := [(str "users",
            { Schema := { Name := str "users", Columns := userCols }
              filePath := tablePath name (str "users")
              PrimaryKeyIdx := [], UniqueIndexes := [] })] }
      (mapSet files (tablePath name (str "users")) [])
      (str "INSERT INTO users VALUES (1, \"John\", 25)")
      = (str "Row inserted successfully.",
          { Name := name, Tables := [(str "users",
            { Schema := { Name := str "users", Columns := userCols }
              filePath := tablePath name (str "users")
              PrimaryKeyIdx := [(1, 0)], UniqueIndexes := [] })] },
          mapSet (mapSet files (tablePath name (str "users")) []) (tablePath name (str "users"))
            (encodeRecord userCols (userRow 1 "John" 25))) := by
    unfold ExecuteSql
    rw [show Fields (str "INSERT INTO users VALUES (1, \"John\", 25)")
      = [str "INSERT", str "INTO", str "users", str "VALUES", str "(1,", str "\"John\",",
          str "25)"] from by decide]
    simp only [show ToUpper asciiOnly (str "INSERT") = str "INSERT" from by decide, dispatch,
      show (str "INSERT" = str "CREATE") = False from by decide,
      show (str "INSERT" = str "DROP") = False from by decide, if_false, if_true,
      handleInsert,
      show Index (ToUpper asciiOnly (str "INSERT INTO users VALUES (1, \"John\", 25)"))
        (str "INTO ") = some 7 from by decide,
      show Index (ToUpper asciiOnly (str "INSERT INTO users VALUES (1, \"John\", 25)"))
        (str " VALUES") = some 17 from by decide,
      show slice (str "INSERT INTO users VALUES (1, \"John\", 25)") (7 + 5) 17
        = some (str "users") from by decide,
      show sliceFrom (str "INSERT INTO users VALUES (1, \"John\", 25)") (17 + 7)
        = some (str " (1, \"John\", 25)") from by decide,
      show TrimSpace (str "users") = str "users" from by decide,
      show mapGet [(str "users",
            ({ Schema := { Name := str "users", Columns := userCols }
               filePath := tablePath name (str "users")
               PrimaryKeyIdx := [], UniqueIndexes := [] } : Table))] (str "users")
        = some { Schema := { Name := str "users", Columns := userCols }
                 filePath := tablePath name (str "users")
                 PrimaryKeyIdx := [], UniqueIndexes := [] } from rfl,
      mapGet_mapSet_self,
      show buildRow userCols (Split (Trim (TrimSpace (str " (1, \"John\", 25)")) (str "()"))
        (str ",")) NewRow = userRow 1 "John" 25 from by decide]
    rfl
  have h3 : ExecuteSql asciiOnly
      { Name := name, Tables := [(str "users",
            { Schema := { Name := str "users", Columns := userCols }
              filePath := tablePath name (str "users")
              PrimaryKeyIdx := [(1, 0)], UniqueIndexes := [] })] }
      (mapSet (mapSet files (tablePath name (str "users")) []) (tablePath name (str "users"))
            (encodeRecord userCols (userRow 1 "John" 25)))
      (str "SELECT * FROM users WHERE ID=1")
      = (str "\x7b\"age\":25,\"id\":1,\"username\":\"John\"\x7d", 
          { Name := name, Tables := [(str "users",
            { Schema := { Name := str "users", Columns := userCols }
              filePath := tablePath name (str "users")
              PrimaryKeyIdx := [(1, 0)], UniqueIndexes := [] })] },
          mapSet (mapSet files (tablePath name (str "users")) []) (tablePath name (str "users"))
            (encodeRecord userCols (userRow 1 "John" 25))) := by
    unfold ExecuteSql
    rw [show Fields (str "SELECT * FROM users WHERE ID=1")
      = [str "SELECT", str "*", str "FROM", str "users", str "WHERE", str "ID=1"]
      from by decide]
    simp only [show ToUpper asciiOnly (str "SELECT") = str "SELECT" from by decide, dispatch,
      show (str "SELECT" = str "CREATE") = False from by decide,
      show (str "SELECT" = str "DROP") = False from by decide,
      show (str "SELECT" = str "INSERT") = False from by decide, if_false, if_true,
      handleSelect,
      show Contains (ToUpper asciiOnly (str "SELECT * FROM users WHERE ID=1")) (str " JOIN ")
        = false from by decide, Bool.false_eq_true,
      show (Fields (str "SELECT * FROM users WHERE ID=1")).getD 3 [] = str "users"
        from by decide,
      show mapGet [(str "users",
            ({ Schema := { Name := str "users", Columns := userCols }
               filePath := tablePath name (str "users")
               PrimaryKeyIdx := [(1, 0)], UniqueIndexes := [] } : Table))] (str "users")
        = some { Schema := { Name := str "users", Columns := userCols }
                 filePath := tablePath name (str "users")
                 PrimaryKeyIdx := [(1, 0)], UniqueIndexes := [] } from rfl,
      show Index (ToUpper asciiOnly (str "SELECT * FROM users WHERE ID=1")) (str "WHERE ID=")
        = some 20 from by decide,
      show sliceFrom (str "SELECT * FROM users WHERE ID=1") (20 + 9) = some (str "1")
        from by decide,
      show Atoi (TrimSpace (str "1")) = 1 from by decide,
      mapGet_mapSet_self]
    rfl
  simp only [execAll, h1, h2, h3]

/-- Witness of `insert_select_scenario_output`: the database `shop` over an empty
directory. -/
theorem insert_select_scenario_output_witness :
    mapGet ([] : Files) (tablePath (str "shop") (str "users")) = none ∧
    (execAll asciiOnly
      [str "CREATE TABLE users (id int, username text, age int)",
        str "INSERT INTO users VALUES (1, \"John\", 25)",
        str "SELECT * FROM users WHERE ID=1"] ({ Name := str "shop", Tables := [] }, [])).1
      = [str "Table 'users' created successfully.", str "Row inserted successfully.",
          str "\x7b\"age\":25,\"id\":1,\"username\":\"John\"\x7d"] :=
  ⟨rfl, insert_select_scenario_output (str "shop") [] rfl⟩

/-- C14 (counterexample). On the database `shop` without tables and files, the scenario
returns the keys in sorted order, which is not the string with the keys in schema
order. -/
theorem insert_select_scenario_counterexample :
    (execAll asciiOnly
      [str "CREATE TABLE users (id int, username text, age int)",
        str "INSERT INTO users VALUES (1, \"John\", 25)",
        str "SELECT * FROM users WHERE ID=1"] (emptyDb "shop", [])).1.getLast?
      = some (str "\x7b\"age\":25,\"id\":1,\"username\":\"John\"\x7d") ∧
    str "\x7b\"age\":25,\"id\":1,\"username\":\"John\"\x7d"
      ≠ str "\x7b\"id\":1,\"username\":\"John\",\"age\":25\x7d" := by
  decide

/-! ## The file paths of the tables of a database -/

theorem Insert_filePath (t : Table) (file : Option (List Nat)) (row : Row) :
    (t.Insert file row).2.1.filePath = t.filePath := by
  unfold Table.Insert
  split
  · rfl
  · split <;> rfl

theorem Delete_filePath (t : Table) (file : Option (List Nat)) (id : Int) :
    (t.Delete file id).2.1.filePath = t.filePath := by
  unfold Table.Delete
  split
  · rfl
  · split <;> rfl

theorem Update_filePath (t : Table) (file : Option (List Nat)) (row : Row) :
    (t.Update file row).2.1.filePath = t.filePath := by
  unfold Table.Update
  rcases hd : t.Delete file row.Id with ⟨r, t1, f1⟩
  have h1 := Delete_filePath t file row.Id
  rw [hd] at h1
  cases r with
  | ok => simp only; rw [Insert_filePath]; exact h1
  | error e => exact h1
  | panic => exact h1

theorem NewTable_filePath {dbName tableName : GoString} {cols : List ColumnDef}
    {file : Option (List Nat)} {s : Table × Option (List Nat)}
    (h : NewTable dbName tableName cols file = some s) :
    s.1.filePath = tablePath dbName tableName := by
  unfold NewTable at h
  simp only [Option.map_eq_some'] at h
  obtain ⟨t1, h1, h2⟩ := h
  rw [← h2]
  unfold Table.loadIndex at h1
  split at h1
  · simp only [Option.some.injEq] at h1; rw [← h1]
  · simp only [Option.map_eq_some'] at h1
    obtain ⟨p, _, hp⟩ := h1
    rw [← hp]

theorem PathsOk_putTable (db : Database) (files : Files) (name : GoString)
    (r : Table × Option (List Nat)) (h : PathsOk db)
    (hr : r.1.filePath = tablePath db.Name name) : PathsOk (putTable db files name r).1 := by
  intro n t hg
  simp only [putTable] at hg ⊢
  by_cases hn : name = n
  · subst hn
    rw [mapGet_mapSet_self] at hg
    cases hg
    exact hr
  · rw [mapGet_mapSet_other _ _ _ _ hn] at hg
    exact h n t hg

theorem PathsOk_afterCall (db : Database) (files : Files) (name : GoString)
    (r : Ret × Table × Option (List Nat)) (onOk : GoString) (onError : TableError → GoString)
    (h : PathsOk db) (hr : r.2.1.filePath = tablePath db.Name name) :
    PathsOk (afterCall db files name r onOk onError).2.1 := by
  unfold afterCall
  split <;> exact PathsOk_putTable db files name r.2 h hr

theorem PathsOk_handleCreate (U : Unicode) (db : Database) (files : Files) (sql : GoString)
    (h : PathsOk db) : PathsOk (handleCreate U db files sql).2.1 := by
  unfold handleCreate
  split
  · split
    · split
      · exact h
      · split
        · exact h
        · split
          · exact h
          · split
            · exact h
            · rename_i r hr
              exact PathsOk_putTable db files _ r h (NewTable_filePath hr)
    · exact h
  · exact h

theorem PathsOk_handleDrop (db : Database) (files : Files) (sql : GoString)
    (h : PathsOk db) : PathsOk (handleDrop db files sql).2.1 := by
  unfold handleDrop
  split
  · split
    · rename_i tableName _ _ _ t ht
      intro n t1 hg
      simp only at hg ⊢
      by_cases hn : tableName = n
      · subst hn
        rw [mapGet_mapDelete_self] at hg
        cases hg
      · rw [mapGet_mapDelete_other _ _ _ hn] at hg
        exact h n t1 hg
    · exact h
  · exact h

theorem PathsOk_handleInsert (U : Unicode) (db : Database) (files : Files) (sql : GoString)
    (h : PathsOk db) : PathsOk (handleInsert U db files sql).2.1 := by
  unfold handleInsert
  split
  · split
    · split
      · exact h
      · rename_i table ht
        apply PathsOk_afterCall _ _ _ _ _ _ h
        rw [Insert_filePath]
        exact h _ _ ht
    · exact h
  · exact h

theorem PathsOk_handleUpdate (U : Unicode) (db : Database) (files : Files) (sql : GoString)
    (h : PathsOk db) : PathsOk (handleUpdate U db files sql).2.1 := by
  unfold handleUpdate
  split
  · split
    · split
      · exact h
      · rename_i t ht
        split
        · split
          · exact h
          · exact h
          · split
            · exact h
            · apply PathsOk_afterCall _ _ _ _ _ _ h
              rw [Update_filePath]
              exact h _ _ ht
        · exact h
    · exact h
  · exact h

theorem PathsOk_handleDelete (U : Unicode) (db : Database) (files : Files) (sql : GoString)
    (h : PathsOk db) : PathsOk (handleDelete U db files sql).2.1 := by
  unfold handleDelete
  split
  · split
    · exact h
    · split
      · exact h
      · split
        · exact h
        · rename_i t ht
          apply PathsOk_afterCall _ _ _ _ _ _ h
          rw [Delete_filePath]
          exact h _ _ ht
  · exact h

theorem PathsOk_ExecuteSql (U : Unicode) (db : Database) (files : Files) (sql : GoString)
    (h : PathsOk db) : PathsOk (ExecuteSql U db files sql).2.1 := by
  unfold ExecuteSql
  split
  · exact h
  · simp only
    unfold dispatch
    split
    · exact PathsOk_handleCreate U db files sql h
    · split
      · exact PathsOk_handleDrop db files sql h
      · split
        · exact PathsOk_handleInsert U db files sql h
        · split
          · exact h
          · split
            · exact PathsOk_handleUpdate U db files sql h
            · split
              · exact PathsOk_handleDelete U db files sql h
              · exact h

theorem PathsOk_execAll (U : Unicode) (stmts : List GoString) (s : Database × Files)
    (h : PathsOk s.1) : PathsOk (execAll U stmts s).2.1 := by
  induction stmts generalizing s with
  | nil => exact h
  | cons sql rest ih =>
    simp only [execAll]
    exact ih _ (PathsOk_ExecuteSql U s.1 s.2 sql h)

theorem PathsOk_empty (name : GoString) : PathsOk { Name := name, Tables := [] } := by
  intro n t h
  cases h

theorem drop_create_of_pathsOk (U : Unicode) (db : Database) (files : Files) (t : Table)
    (hp : PathsOk db) (hex : mapGet db.Tables (str "users") = some t) :
    ∃ db1 files1 t1,
      execAll U [str "DROP TABLE users", str "CREATE TABLE users (id int)"] (db, files)
        = ([str "Table 'users' dropped.", str "Table 'users' created successfully."],
            db1, files1) ∧
      mapGet db1.Tables (str "users") = some t1 ∧
      t1.Schema.Columns = idCols ∧
      t1.SelectAll (mapGet files1 t1.filePath) = some [] ∧
      t1.PrimaryKeyIdx = [] ∧ t1.UniqueIndexes = [] := by
  have hpath : t.filePath = tablePath db.Name (str "users") := hp _ _ hex
  have h1 : ExecuteSql U db files (str "DROP TABLE users")
      = (str "Table 'users' dropped.",
          { db with Tables := mapDelete db.Tables (str "users") },
          mapDelete files (tablePath db.Name (str "users"))) := by
    unfold ExecuteSql
    rw [show Fields (str "DROP TABLE users") = [str "DROP", str "TABLE", str "users"]
      from by decide]
    simp only [show ToUpper U (str "DROP") = str "DROP" from rfl, dispatch,
      show (str "DROP" = str "CREATE") = False from by decide, if_false, if_true, handleDrop,
      show Fields (str "DROP TABLE users") = [str "DROP", str "TABLE", str "users"]
        from by decide, hex, Table.Drop, hpath]
    rfl
  have h2 : ExecuteSql U { db with Tables := mapDelete db.Tables (str "users") }
      (mapDelete files (tablePath db.Name (str "users"))) (str "CREATE TABLE users (id int)")
      = (str "Table 'users' created successfully.",
          { db with Tables := (mapSet (mapDelete db.Tables (str "users")) (str "users")
              { Schema := { Name := str "users", Columns := idCols }
                filePath := tablePath db.Name (str "users")
                PrimaryKeyIdx := [], UniqueIndexes := [] }) },
          mapSet (mapDelete files (tablePath db.Name (str "users")))
            (tablePath db.Name (str "users")) []) := by
    unfold ExecuteSql
    rw [show Fields (str "CREATE TABLE users (id int)")
      = [str "CREATE", str "TABLE", str "users", str "(id", str "int)"] from by decide]
    simp only [show ToUpper U (str "CREATE") = str "CREATE" from rfl, dispatch, if_true,
      handleCreate,
      show Index (str "CREATE TABLE users (id int)") (str "(") = some 19 from by decide,
      show LastIndex (str "CREATE TABLE users (id int)") (str ")") = some 26 from by decide,
      show slice (str "CREATE TABLE users (id int)") 0 19 = some (str "CREATE TABLE users ")
        from by decide,
      show slice (str "CREATE TABLE users (id int)") (19 + 1) 26 = some (str "id int")
        from by decide,
      show (Fields (TrimSpace (str "CREATE TABLE users "))).getLast? = some (str "users")
        from by decide,
      show parseColumns U (Split (str "id int") (str ",")) = idCols from rfl,
      show hasId idCols = true from by decide, mapGet_mapDelete_self, NewTable_fresh]
    rfl
  simp only [execAll, h1, h2]
  refine ⟨_, _, _, rfl, mapGet_mapSet_self _ _ _, rfl, ?_, rfl, rfl⟩
  simp only [mapGet_mapSet_self]
  rfl

/-- C15. Drop then recreate: in every database state that statements produce from a
database without tables, over any directory of files, in which the table `users`
exists, `DROP TABLE users` followed by `CREATE TABLE users (id int)` succeed and leave a
table `users` with the single column `id`, whose `SelectAll` is empty and whose
primary-key index and uniqueness sets are empty. -/
theorem drop_then_create_empty (U : Unicode) (name : GoString) (files0 : Files)
    (stmts : List GoString) (t : Table)
    (hex : mapGet (execAll U stmts ({ Name := name, Tables := [] }, files0)).2.1.Tables
      (str "users") = some t) :
    ∃ db1 files1 t1,
      execAll U [str "DROP TABLE users", str "CREATE TABLE users (id int)"]
          (execAll U stmts ({ Name := name, Tables := [] }, files0)).2
        = ([str "Table 'users' dropped.", str "Table 'users' created successfully."],
            db1, files1) ∧
      mapGet db1.Tables (str "users") = some t1 ∧
      t1.Schema.Columns = idCols ∧
      t1.SelectAll (mapGet files1 t1.filePath) = some [] ∧
      t1.PrimaryKeyIdx = [] ∧ t1.UniqueIndexes = [] :=
  drop_create_of_pathsOk U _ _ t
    (PathsOk_execAll U stmts _ (PathsOk_empty name)) hex

/-- Witness of `drop_then_create_empty`: the table `users` created over a file that
already holds the record of row 1, with a second row inserted. -/
theorem drop_then_create_empty_witness :
    (mapGet (execAll asciiOnly
        [str "CREATE TABLE users (id int, username text, age int)",
          str "INSERT INTO users VALUES (2, \"Jane Smith\", 30)"]
        (emptyDb "shop", [(str "shop_users.db", encodeRecord userCols johnRow)])).2.1.Tables
      (str "users")).isSome = true ∧
    ∃ db1 files1 t1,
      execAll asciiOnly [str "DROP TABLE users", str "CREATE TABLE users (id int)"]
          (execAll asciiOnly
            [str "CREATE TABLE users (id int, username text, age int)",
              str "INSERT INTO users VALUES (2, \"Jane Smith\", 30)"]
            (emptyDb "shop", [(str "shop_users.db", encodeRecord userCols johnRow)])).2
        = ([str "Table 'users' dropped.", str "Table 'users' created successfully."],
            db1, files1) ∧
      mapGet db1.Tables (str "users") = some t1 ∧
      t1.Schema.Columns = idCols ∧
      t1.SelectAll (mapGet files1 t1.filePath) = some [] ∧
      t1.PrimaryKeyIdx = [] ∧ t1.UniqueIndexes = [] :=
  ⟨by decide,
    drop_then_create_empty asciiOnly (str "shop")
      [(str "shop_users.db", encodeRecord userCols johnRow)]
      [str "CREATE TABLE users (id int, username text, age int)",
        str "INSERT INTO users VALUES (2, \"Jane Smith\", 30)"]
      { Schema := { Name := str "users", Columns := userCols }
        filePath := str "shop_users.db"
        PrimaryKeyIdx := [(1, 0), (2, 21)]
        UniqueIndexes := [] }
      (by decide)⟩

/-! ## The record Insert appends -/

theorem encodeColumns_eq_flatMap (row : Row) (cols : List ColumnDef) :
    encodeColumns row cols
      = (cols.filter (fun c => decide (c.Name ≠ str "id"))).flatMap (fun c =>
          if c.Typ = DbType.IntType then putInt32 (int32 (assertInt (mapGet row.Data c.Name)))
          else putInt32 (int32 (Int.ofNat (assertString (mapGet row.Data c.Name)).length))
            ++ assertString (mapGet row.Data c.Name)) := by
  induction cols with
  | nil => rfl
  | cons col cols ih =>
    by_cases hid : col.Name = str "id"
    · have hd : decide (col.Name ≠ str "id") = false := by simp [hid]
      rw [encodeColumns, if_pos hid, List.filter_cons, hd]
      exact ih
    · have hd : decide (col.Name ≠ str "id") = true := by simp [hid]
      rw [encodeColumns, if_neg hid, List.filter_cons, hd, if_pos rfl, List.flatMap_cons, ← ih]
      by_cases ht : col.Typ = DbType.IntType
      · rw [if_pos ht, if_pos ht]
      · rw [if_neg ht, if_neg ht]; rfl

theorem putInt32_bytes (v : Int) (h1 : -2147483648 ≤ v) (h2 : v < 2147483648) :
    ∃ b0 b1 b2 b3 : Nat, putInt32 (int32 v) = [b0, b1, b2, b3] ∧
      b0 < 256 ∧ b1 < 256 ∧ b2 < 256 ∧ b3 < 256 ∧ getInt32 b0 b1 b2 b3 = v := by
  refine ⟨_, _, _, _, rfl, Nat.mod_lt _ (by decide), Nat.mod_lt _ (by decide),
    Nat.mod_lt _ (by decide), Nat.mod_lt _ (by decide), ?_⟩
  rw [getInt32_putInt32, int32_idem, int32_of_range v h1 h2]

/-- C16 (amended). Insert is a pure append: when `Insert row` returns nil, the new file
is the old file (empty when it did not exist) followed by one record: the byte 0, the
four little-endian bytes of the id converted to `int32`, then for every column not named
`id`, in schema order, either the four bytes of the value converted to `int32` (an
`IntType` column) or the four bytes of the length converted to `int32` followed by the
raw bytes (a text column).  No byte of the old file changes, and the primary-key index
maps the id to the old file length.  An integer in the signed 32-bit range is converted
to itself, and its four bytes are the ones that decode to it. -/
theorem insert_appends_record (t t1 : Table) (file file1 : Option (List Nat)) (row : Row)
    (h : t.Insert file row = (Ret.ok, t1, file1)) :
    file1 = some (file.getD [] ++ 0 :: (putInt32 (int32 row.Id) ++
      (t.Schema.Columns.filter (fun c => decide (c.Name ≠ str "id"))).flatMap (fun c =>
        if c.Typ = DbType.IntType then putInt32 (int32 (assertInt (mapGet row.Data c.Name)))
        else putInt32 (int32 (Int.ofNat (assertString (mapGet row.Data c.Name)).length))
          ++ assertString (mapGet row.Data c.Name)))) ∧
    (∀ i, i < (file.getD []).length → (file1.getD [])[i]? = (file.getD [])[i]?) ∧
    mapGet t1.PrimaryKeyIdx row.Id = some (file.getD []).length ∧
    ∀ v : Int, -2147483648 ≤ v → v < 2147483648 →
      ∃ b0 b1 b2 b3 : Nat, putInt32 (int32 v) = [b0, b1, b2, b3] ∧
        b0 < 256 ∧ b1 < 256 ∧ b2 < 256 ∧ b3 < 256 ∧ getInt32 b0 b1 b2 b3 = v := by
  obtain ⟨_, _, ht1, hf1⟩ := Insert_ok h
  refine ⟨?_, ?_, ?_, putInt32_bytes⟩
  · rw [hf1, encodeRecord, encodeColumns_eq_flatMap]
  · intro i hi
    rw [hf1, Option.getD_some, List.getElem?_append_left hi]
  · rw [ht1]
    exact mapGet_mapSet_self _ _ _

/-- Witness of `insert_appends_record`: the row (1, "John Doe", 25) inserted into the
empty `users` table. -/
theorem insert_appends_record_witness :
    (run [Op.insert johnRow] usersFresh).2 = some ([] ++ 0 :: (putInt32 (int32 1) ++
      (userCols.filter (fun c => decide (c.Name ≠ str "id"))).flatMap (fun c =>
        if c.Typ = DbType.IntType then putInt32 (int32 (assertInt (mapGet johnRow.Data c.Name)))
        else putInt32 (int32 (Int.ofNat (assertString (mapGet johnRow.Data c.Name)).length))
          ++ assertString (mapGet johnRow.Data c.Name)))) ∧
    (∀ i, i < ([] : List Nat).length →
      ((run [Op.insert johnRow] usersFresh).2.getD [])[i]? = ([] : List Nat)[i]?) ∧
    mapGet (run [Op.insert johnRow] usersFresh).1.PrimaryKeyIdx 1 = some 0 ∧
    ∀ v : Int, -2147483648 ≤ v → v < 2147483648 →
      ∃ b0 b1 b2 b3 : Nat, putInt32 (int32 v) = [b0, b1, b2, b3] ∧
        b0 < 256 ∧ b1 < 256 ∧ b2 < 256 ∧ b3 < 256 ∧ getInt32 b0 b1 b2 b3 = v :=
  insert_appends_record usersFresh.1 (run [Op.insert johnRow] usersFresh).1 usersFresh.2
    (run [Op.insert johnRow] usersFresh).2 johnRow (by decide)

/-- C16 (counterexample). On `CREATE TABLE t (id int)`, `Insert` of the id 4294967296
returns nil and appends the record 00 00 00 00 00, the record of id 0: the four id bytes
are not those of the row id. -/
theorem insert_wide_id_record_counterexample :
    (idRow 4294967296).Id = 4294967296 ∧
    (NewTable (str "db") (str "t") idCols none).map (fun s =>
      ((Op.insert (idRow 4294967296)).apply s).1) = some Ret.ok ∧
    (NewTable (str "db") (str "t") idCols none).map (fun s =>
      (run [Op.insert (idRow 4294967296)] s).2) = some (some [0, 0, 0, 0, 0]) ∧
    (NewTable (str "db") (str "t") idCols none).map (fun s =>
      (run [Op.insert (idRow 0)] s).2) = some (some [0, 0, 0, 0, 0]) ∧
    (readInt32 [0, 0, 0, 0]).1 = some 0 := by
  decide

/-! ## The records of a file -/

theorem scanRecords_offset (cols : List ColumnDef) (fuel pos : Nat) (r : List Nat)
    (rec : RecordHead) (h : rec ∈ scanRecords cols fuel pos r) :
    pos ≤ rec.offset ∧ rec.offset < pos + r.length := by
  induction fuel generalizing pos r with
  | zero => simp [scanRecords] at h
  | succ fuel ih =>
    unfold scanRecords at h
    cases r with
    | nil => simp [readBool] at h
    | cons b r1 =>
      simp only [readBool] at h
      rcases hi : readInt32 r1 with ⟨_ | id, r2⟩
      · rw [hi] at h; simp at h
      · rw [hi] at h
        simp only at h
        have hr2 : r2.length ≤ r1.length := by
          have := readInt32_rest_length r1
          rw [hi] at this
          exact this
        rcases hc : readColumns cols r2 [] with _ | ⟨data, r3⟩
        · rw [hc] at h
          simp only [List.mem_singleton] at h
          subst h
          simp
        · rw [hc] at h
          simp only [List.mem_cons] at h
          have hr3 := readColumns_rest_length cols r2 [] data r3 hc
          rcases h with h | h
          · subst h
            simp
          · have := ih _ _ h
            simp only [List.length_cons] at this ⊢
            omega

theorem scanRecords_fuel (cols : List ColumnDef) (f1 f2 pos : Nat) (r : List Nat)
    (h1 : r.length ≤ f1) (h2 : r.length ≤ f2) :
    scanRecords cols f1 pos r = scanRecords cols f2 pos r := by
  induction f1 generalizing f2 pos r with
  | zero =>
    have hr : r = [] := List.eq_nil_of_length_eq_zero (Nat.le_zero.mp h1)
    subst hr
    cases f2 <;> simp [scanRecords, readBool]
  | succ f1 ih =>
    cases f2 with
    | zero =>
      have hr : r = [] := List.eq_nil_of_length_eq_zero (Nat.le_zero.mp h2)
      subst hr
      simp [scanRecords, readBool]
    | succ f2 =>
      unfold scanRecords
      cases r with
      | nil => simp [readBool]
      | cons b r0 =>
        simp only [readBool]
        have hlen := readInt32_rest_length r0
        rcases hi : readInt32 r0 with ⟨v, r2⟩
        rw [hi] at hlen
        cases v with
        | none => rfl
        | some id =>
          simp only
          cases hc : readColumns cols r2 [] with
          | none => rfl
          | some p =>
            obtain ⟨data, r3⟩ := p
            have hlen3 := readColumns_rest_length cols r2 _ data r3 hc
            simp only [List.length_cons] at h1 h2 hlen
            simp only
            rw [ih f2 _ r3 (by omega) (by omega)]

theorem scanRecords_encodeLog (cols : List ColumnDef) (log : List Entry)
    (hs : ∀ e ∈ log, ShortText cols e.row) (fuel pos : Nat)
    (hf : (encodeLog cols log).length ≤ fuel) :
    scanRecords cols fuel pos (encodeLog cols log) = logHeads cols log pos := by
  induction log generalizing fuel pos with
  | nil =>
    cases fuel <;> simp [scanRecords, encodeLog, readBool, logHeads]
  | cons e log ih =>
    have hlen : (encodeLog cols (e :: log)).length
        = 5 + (encodeColumns e.row cols).length + (encodeLog cols log).length := by
      simp [encodeLog, encodeEntry_length]
    cases fuel with
    | zero => omega
    | succ fuel =>
      have hse := hs e (List.mem_cons_self _ _)
      simp only [scanRecords, encodeLog, encodeEntry, List.cons_append, readBool,
        List.append_assoc, readInt32_putInt32, int32_idem,
        readColumns_encodeColumns _ _ _ _ hse, logHeads]
      rw [ih (fun e1 he1 => hs e1 (List.mem_cons_of_mem _ he1)) fuel _ (by omega)]
      have harith : pos + (((if e.deleted = true then 1 else 0) ::
            (putInt32 (int32 e.row.Id) ++ (encodeColumns e.row cols ++ encodeLog cols log))).length
              - (encodeLog cols log).length)
          = pos + ((if e.deleted = true then 1 else 0) ::
            (putInt32 (int32 e.row.Id) ++ encodeColumns e.row cols)).length := by
        simp only [List.length_cons, List.length_append]
        omega
      rw [harith]
      cases hd : e.deleted <;> simp

theorem mem_logHeads_live (cols : List ColumnDef) (log : List Entry) (pos : Nat)
    (rec : RecordHead) (h : rec ∈ logHeads cols log pos) (hd : rec.deleted = false) :
    ∃ e ∈ log, e.deleted = false ∧ int32 e.row.Id = rec.id := by
  induction log generalizing pos with
  | nil => simp [logHeads] at h
  | cons e log ih =>
    simp only [logHeads, List.mem_cons] at h
    rcases h with h | h
    · subst h
      exact ⟨e, List.mem_cons_self _ _, hd, rfl⟩
    · obtain ⟨e1, he1, h1, h2⟩ := ih _ h
      exact ⟨e1, List.mem_cons_of_mem _ he1, h1, h2⟩

theorem liveRows_mem_of_live {log : List Entry} {e : Entry} (he : e ∈ log)
    (hd : e.deleted = false) : e.row ∈ liveRows log := by
  induction log with
  | nil => cases he
  | cons e1 log ih =>
    unfold liveRows
    rcases List.mem_cons.mp he with rfl | he1
    · rw [hd]; simp
    · cases hd1 : e1.deleted
      · simp only [Bool.false_eq_true, if_false, List.mem_cons]
        exact Or.inr (ih he1)
      · simp only [if_true]
        exact ih he1

theorem liveOffset_mem_logHeads (cols : List ColumnDef) (log : List Entry) (pos : Nat)
    (k : Int) (off : Nat) (h : liveOffset cols log pos k = some off) :
    { offset := off, deleted := false, id := int32 k } ∈ logHeads cols log pos := by
  induction log generalizing pos with
  | nil => simp [liveOffset] at h
  | cons e log ih =>
    unfold liveOffset at h
    by_cases hc : e.deleted = false ∧ e.row.Id = k
    · rw [if_pos hc] at h
      simp only [Option.some.injEq] at h
      subst h
      simp only [logHeads, List.mem_cons]
      left
      rw [hc.1, hc.2]
    · rw [if_neg hc] at h
      simp only [logHeads, List.mem_cons]
      right
      exact ih _ h

theorem logHeads_live_unique (cols : List ColumnDef) (log : List Entry) (pos : Nat)
    (hn : ((liveRows log).map (fun r => int32 r.Id)).Nodup)
    (r1 r2 : RecordHead) (h1 : r1 ∈ logHeads cols log pos) (h2 : r2 ∈ logHeads cols log pos)
    (hd1 : r1.deleted = false) (hd2 : r2.deleted = false) (hid : r1.id = r2.id) : r1 = r2 := by
  induction log generalizing pos with
  | nil => simp [logHeads] at h1
  | cons e log ih =>
    have htail : ((liveRows log).map (fun r => int32 r.Id)).Nodup := by
      unfold liveRows at hn
      cases hd : e.deleted
      · rw [hd] at hn
        simp only [Bool.false_eq_true, if_false, List.map_cons, List.nodup_cons] at hn
        exact hn.2
      · rw [hd] at hn
        simpa using hn
    have hhead : ∀ r : RecordHead, r ∈ logHeads cols log (pos + (encodeEntry cols e).length) →
        r.deleted = false → e.deleted = false → r.id ≠ int32 e.row.Id := by
      intro r hr hrd hed heq
      obtain ⟨e1, he1, hl1, hi1⟩ := mem_logHeads_live cols log _ r hr hrd
      unfold liveRows at hn
      rw [hed] at hn
      simp only [Bool.false_eq_true, if_false, List.map_cons, List.nodup_cons] at hn
      apply hn.1
      rw [← heq, ← hi1]
      exact List.mem_map.mpr ⟨e1.row, liveRows_mem_of_live he1 hl1, rfl⟩
    simp only [logHeads, List.mem_cons] at h1 h2
    rcases h1 with h1 | h1 <;> rcases h2 with h2 | h2
    · rw [h1, h2]
    · subst h1
      exact absurd hid.symm (hhead r2 h2 hd2 hd1)
    · subst h2
      exact absurd hid (hhead r1 h1 hd1 hd2)
    · exact ih _ htail h1 h2

theorem IndexInvariant_of_Inv {cols : List ColumnDef} {s : Table × Option (List Nat)}
    {log : List Entry} (h : Inv cols s log) (hs : ∀ e ∈ log, ShortText cols e.row)
    (hr : ∀ e ∈ log, int32 e.row.Id = e.row.Id) : IndexInvariant s.1 s.2 := by
  have hrec : fileRecords s.1.Schema.Columns s.2 = logHeads cols log 0 := by
    rw [h.file_eq, h.schema]
    exact scanRecords_encodeLog cols log hs _ 0 (le_refl _)
  have hmap : (liveRows log).map (fun r => int32 r.Id) = (liveRows log).map (fun r => r.Id) := by
    apply List.map_congr_left
    intro r hrm
    obtain ⟨e, he, _, her⟩ := mem_liveRows hrm
    rw [← her]
    exact hr e he
  intro id
  rw [hrec]
  refine ⟨⟨?_, ?_⟩, ?_, ?_⟩
  · intro hsome
    rw [h.index] at hsome
    rcases ho : liveOffset cols log 0 id with _ | off
    · rw [ho] at hsome; cases hsome
    · have hm := liveOffset_mem_logHeads cols log 0 id off ho
      have hin : id ∈ (liveRows log).map (fun r => r.Id) := by
        by_contra hc
        rw [(liveOffset_none_iff cols log 0 id).mpr hc] at ho
        cases ho
      obtain ⟨r, hrm, hrid⟩ := List.mem_map.mp hin
      obtain ⟨e, he, _, her⟩ := mem_liveRows hrm
      have h32 : int32 id = id := by
        rw [← hrid, ← her]
        exact hr e he
      rw [h32] at hm
      exact ⟨_, hm, rfl, rfl⟩
  · rintro ⟨rec, hm, hd, hid⟩
    obtain ⟨e, he, hl, hi⟩ := mem_logHeads_live cols log 0 rec hm hd
    rw [h.index]
    rcases ho : liveOffset cols log 0 id with _ | off
    · exfalso
      apply (liveOffset_none_iff cols log 0 id).mp ho
      rw [← hid, ← hi, hr e he]
      exact List.mem_map.mpr ⟨e.row, liveRows_mem_of_live he hl, rfl⟩
    · rfl
  · intro r1 h1 r2 h2 hd1 hi1 hd2 hi2
    exact logHeads_live_unique cols log 0 (by rw [hmap]; exact h.nodup) r1 r2 h1 h2 hd1 hd2
      (by rw [hi1, hi2])
  · intro off hoff
    rw [h.index] at hoff
    have hm := liveOffset_mem_logHeads cols log 0 id off hoff
    have hin : id ∈ (liveRows log).map (fun r => r.Id) := by
      by_contra hc
      rw [(liveOffset_none_iff cols log 0 id).mpr hc] at hoff
      cases hoff
    obtain ⟨r, hrm, hrid⟩ := List.mem_map.mp hin
    obtain ⟨e, he, _, her⟩ := mem_liveRows hrm
    have h32 : int32 id = id := by
      rw [← hrid, ← her]
      exact hr e he
    rw [h32] at hm
    exact hm

theorem writeByteAt_eq_set (content : List Nat) (offset b : Nat) (h : offset < content.length) :
    writeByteAt content offset b = content.set offset b := by
  unfold writeByteAt
  rw [List.set_eq_take_append_cons_drop, if_pos h, Nat.sub_eq_zero_of_le (le_of_lt h)]
  simp

theorem IndexInvariant_run (dbName tableName : GoString) (cols : List ColumnDef)
    (ops : List Op) (s : Table × Option (List Nat))
    (hnew : NewTable dbName tableName cols none = some s)
    (hrows : ∀ op ∈ ops, ∀ row, op.row? = some row →
      ShortText cols row ∧ -2147483648 ≤ row.Id ∧ row.Id < 2147483648) :
    IndexInvariant (run ops s).1 (run ops s).2 := by
  have hinv := Inv_run ops (Inv_fresh hnew)
  have hP := runLog_rows
    (fun row => ShortText cols row ∧ -2147483648 ≤ row.Id ∧ row.Id < 2147483648) ops s []
    (fun e he => by cases he) hrows
  exact IndexInvariant_of_Inv hinv (fun e he => (hP e he).1)
    (fun e he => int32_of_range _ (hP e he).2.1 (hP e he).2.2)

/-- C17. Delete changes a single byte: in a table state that satisfies the index
invariant, `Delete id` for an id the primary-key index maps to `offset` returns nil,
keeps the length of the file, changes no byte other than the one at `offset`, the
tombstone flag of the record of `id`, which becomes 1, removes the entry of `id` from
the index and leaves every other entry as it was; for an id that is not in the index,
`Delete` returns the not-found error and leaves table and file as they were. -/
theorem delete_changes_one_byte (t : Table) (file : Option (List Nat)) (id : Int)
    (hinv : IndexInvariant t file) :
    (∀ offset, mapGet t.PrimaryKeyIdx id = some offset →
      { offset := offset, deleted := false, id := id } ∈ fileRecords t.Schema.Columns file ∧
      ∃ content content1 t1, file = some content ∧
        t.Delete file id = (Ret.ok, t1, some content1) ∧
        content1.length = content.length ∧
        (∀ i, i ≠ offset → content1[i]? = content[i]?) ∧
        content1[offset]? = some 1 ∧
        mapGet t1.PrimaryKeyIdx id = none ∧
        (∀ k, k ≠ id → mapGet t1.PrimaryKeyIdx k = mapGet t.PrimaryKeyIdx k) ∧
        t1.UniqueIndexes = t.UniqueIndexes ∧ t1.Schema = t.Schema) ∧
    (mapGet t.PrimaryKeyIdx id = none →
      t.Delete file id = (Ret.error (TableError.notFound id), t, file)) := by
  constructor
  · intro offset hoff
    have hrec := (hinv id).2.2 offset hoff
    refine ⟨hrec, ?_⟩
    cases file with
    | none => simp [fileRecords] at hrec
    | some content =>
      have hlt : offset < content.length := by
        have := (scanRecords_offset _ _ _ _ _ hrec).2
        simpa using this
      refine ⟨content, writeByteAt content offset 1,
        { t with PrimaryKeyIdx := mapDelete t.PrimaryKeyIdx id }, rfl, ?_, ?_, ?_, ?_, ?_, ?_,
        rfl, rfl⟩
      · unfold Table.Delete
        rw [hoff]
      · rw [writeByteAt_eq_set _ _ _ hlt, List.length_set]
      · intro i hi
        rw [writeByteAt_eq_set _ _ _ hlt, List.getElem?_set_ne (Ne.symm hi)]
      · rw [writeByteAt_eq_set _ _ _ hlt, List.getElem?_set_self hlt]
      · exact mapGet_mapDelete_self _ _
      · intro k hk
        exact mapGet_mapDelete_other _ _ _ (Ne.symm hk)
  · intro hnone
    unfold Table.Delete
    rw [hnone]

/-- Witness of `delete_changes_one_byte`: `Delete 1` on the `users` table that holds the
rows 1 and 2; the flag byte of row 1 is at offset 0. -/
theorem delete_changes_one_byte_witness :
    IndexInvariant
      (run [Op.insert (userRow 1 "John Doe" 25), Op.insert (userRow 2 "Jane Smith" 30)]
        usersFresh).1
      (run [Op.insert (userRow 1 "John Doe" 25), Op.insert (userRow 2 "Jane Smith" 30)]
        usersFresh).2 ∧
    mapGet (run [Op.insert (userRow 1 "John Doe" 25), Op.insert (userRow 2 "Jane Smith" 30)]
        usersFresh).1.PrimaryKeyIdx 1 = some 0 ∧
    ∃ content content1 t1,
      (run [Op.insert (userRow 1 "John Doe" 25), Op.insert (userRow 2 "Jane Smith" 30)]
        usersFresh).2 = some content ∧
      (run [Op.insert (userRow 1 "John Doe" 25), Op.insert (userRow 2 "Jane Smith" 30)]
        usersFresh).1.Delete
        (run [Op.insert (userRow 1 "John Doe" 25), Op.insert (userRow 2 "Jane Smith" 30)]
          usersFresh).2 1 = (Ret.ok, t1, some content1) ∧
      content1.length = content.length ∧
      (∀ i, i ≠ 0 → content1[i]? = content[i]?) ∧
      content1[0]? = some 1 ∧
      mapGet t1.PrimaryKeyIdx 1 = none ∧
      (∀ k, k ≠ 1 → mapGet t1.PrimaryKeyIdx k
        = mapGet (run [Op.insert (userRow 1 "John Doe" 25),
            Op.insert (userRow 2 "Jane Smith" 30)] usersFresh).1.PrimaryKeyIdx k) ∧
      t1.UniqueIndexes = (run [Op.insert (userRow 1 "John Doe" 25),
        Op.insert (userRow 2 "Jane Smith" 30)] usersFresh).1.UniqueIndexes ∧
      t1.Schema = (run [Op.insert (userRow 1 "John Doe" 25),
        Op.insert (userRow 2 "Jane Smith" 30)] usersFresh).1.Schema :=
  have hI := IndexInvariant_run (str "default") (str "users") userCols
    [Op.insert (userRow 1 "John Doe" 25), Op.insert (userRow 2 "Jane Smith" 30)] usersFresh
    (by decide)
    (by
      intro op hop row hrow
      simp only [List.mem_cons, List.mem_singleton, List.not_mem_nil, or_false] at hop
      rcases hop with rfl | rfl <;> cases hrow <;>
        exact ⟨by unfold ShortText; decide, by decide, by decide⟩)
  ⟨hI, by decide,
    ((delete_changes_one_byte
      (run [Op.insert (userRow 1 "John Doe" 25), Op.insert (userRow 2 "Jane Smith" 30)]
        usersFresh).1
      (run [Op.insert (userRow 1 "John Doe" 25), Op.insert (userRow 2 "Jane Smith" 30)]
        usersFresh).2 1 hI).1 0 (by decide)).2⟩

/-! ## The sanitized names of the file path -/

theorem sanitize_no_separator (s : GoString) : 47 ∉ sanitize s ∧ 92 ∉ sanitize s := by
  induction s using sanitize.induct with
  | case1 => simp [sanitize]
  | case2 r ih => simpa [sanitize] using ih
  | case3 r ih => simpa [sanitize] using ih
  | case4 r ih => simpa [sanitize] using ih
  | case5 c r h1 h2 h3 ih =>
    rw [sanitize]
    · simp only [List.mem_cons, not_or]
      refine ⟨⟨?_, ih.1⟩, ⟨?_, ih.2⟩⟩
      · intro h; exact h1 h.symm
      · intro h; exact h2 h.symm
    · exact h1
    · exact h2
    · exact h3

/-- C18 (failing input). File-name sanitization: the replacer makes one pass, so the
table name `./.`, from which the separator is removed, is sanitized to `..`, and the
file path `NewTable` computes for it in database `shop` is `shop_...db`. -/
theorem sanitize_leaves_parent_sequence :
    sanitize (str "./.") = str ".." ∧
    tablePath (str "shop") (str "./.") = str "shop_...db" ∧
    (NewTable (str "shop") (str "./.") idCols none).map (fun s => s.1.filePath)
      = some (str "shop_...db") := by
  decide

/-! ## The index invariant in the reachable states -/

/-- C19 (amended). Primary-key index invariant: in every state reached from a freshly
created table by any sequence of `Insert`, `Delete` and `Update` calls, whatever each
returned, whose rows have an id in the signed 32-bit range and text values that fit the
length field of a record, an id is a key of the primary-key index if and only if the
file contains a record with tombstone flag 0 and that id, there is at most one such
record, and the index maps the id to the offset of that record's flag byte. -/
theorem index_invariant_reachable (dbName tableName : GoString) (cols : List ColumnDef)
    (ops : List Op) (s : Table × Option (List Nat))
    (hnew : NewTable dbName tableName cols none = some s)
    (hrows : ∀ op ∈ ops, ∀ row, op.row? = some row →
      ShortText cols row ∧ -2147483648 ≤ row.Id ∧ row.Id < 2147483648) :
    IndexInvariant (run ops s).1 (run ops s).2 :=
  IndexInvariant_run dbName tableName cols ops s hnew hrows

/-- Witness of `index_invariant_reachable`: two inserts, an update and a delete on the
`users` table. -/
theorem index_invariant_reachable_witness :
    NewTable (str "default") (str "users") userCols none = some usersFresh ∧
    IndexInvariant
      (run [Op.insert (userRow 1 "John Doe" 25), Op.insert (userRow 2 "Jane Smith" 30),
        Op.update (userRow 1 "John Doe" 26), Op.delete 2] usersFresh).1
      (run [Op.insert (userRow 1 "John Doe" 25), Op.insert (userRow 2 "Jane Smith" 30),
        Op.update (userRow 1 "John Doe" 26), Op.delete 2] usersFresh).2 :=
  ⟨by decide,
    index_invariant_reachable (str "default") (str "users") userCols
      [Op.insert (userRow 1 "John Doe" 25), Op.insert (userRow 2 "Jane Smith" 30),
        Op.update (userRow 1 "John Doe" 26), Op.delete 2] usersFresh (by decide)
      (by
        intro op hop row hrow
        simp only [List.mem_cons, List.mem_singleton, List.not_mem_nil, or_false] at hop
        rcases hop with rfl | rfl | rfl | rfl <;> cases hrow <;>
          exact ⟨by unfold ShortText; decide, by decide, by decide⟩)⟩

/-- C19 (counterexample). On `CREATE TABLE t (id int)`, after `Insert` of the id
4294967296 the index has the key 4294967296 while the only record of the file has the
id 0: the invariant fails. -/
theorem index_invariant_wide_id_counterexample :
    NewTable (str "db") (str "t") idCols none = some idFresh ∧
    (run [Op.insert (idRow 4294967296)] idFresh).1.PrimaryKeyIdx = [(4294967296, 0)] ∧
    fileRecords idCols (run [Op.insert (idRow 4294967296)] idFresh).2
      = [{ offset := 0, deleted := false, id := 0 }] ∧
    ¬ IndexInvariant (run [Op.insert (idRow 4294967296)] idFresh).1
      (run [Op.insert (idRow 4294967296)] idFresh).2 := by
  refine ⟨by decide, by decide, by decide, ?_⟩
  intro h
  obtain ⟨rec, hm, _, hid⟩ := (h 4294967296).1.mp (by decide)
  have hrec : fileRecords (run [Op.insert (idRow 4294967296)] idFresh).1.Schema.Columns
      (run [Op.insert (idRow 4294967296)] idFresh).2
      = [{ offset := 0, deleted := false, id := 0 }] := by decide
  rw [hrec, List.mem_singleton] at hm
  rw [hm] at hid
  exact absurd hid (by decide)

/-! ## The uniqueness sets after Insert and Delete -/

theorem addUnique_hasSets (row : Row) (cols : List ColumnDef)
    (uq : List (GoString × List GoString)) (h : (addUnique row cols uq).2 = true) :
    HasSets cols uq := by
  induction cols generalizing uq with
  | nil => intro c hc; cases hc
  | cons col cols ih =>
    unfold addUnique at h
    by_cases hcol : (col.IsUnique && decide (col.Name ≠ str "id")) = true
    · rw [if_pos hcol] at h
      rcases hg : mapGet uq col.Name with _ | idx
      · rw [hg] at h; cases h
      · rw [hg] at h
        have h1 := ih _ h
        intro c hc hu hid
        rcases List.mem_cons.mp hc with rfl | hc1
        · rw [hg]; rfl
        · have h2 := h1 c hc1 hu hid
          by_cases hk : col.Name = c.Name
          · rw [← hk, hg]; rfl
          · rwa [mapGet_mapSet_other _ _ _ _ hk] at h2
    · rw [if_neg hcol] at h
      have h1 := ih _ h
      intro c hc hu hid
      rcases List.mem_cons.mp hc with rfl | hc1
      · exact absurd (by simp [hu, hid]) hcol
      · exact h1 c hc1 hu hid

theorem Insert_ok_sets {t t1 : Table} {file file1 : Option (List Nat)} {row : Row}
    (h : t.Insert file row = (Ret.ok, t1, file1)) :
    (addUnique row t.Schema.Columns t.UniqueIndexes).2 = true := by
  unfold Table.Insert at h
  split at h
  · cases h
  · split at h
    · cases h
    · simp only [Prod.mk.injEq] at h
      by_cases hb : (addUnique row t.Schema.Columns t.UniqueIndexes).2 = true
      · exact hb
      · rw [if_neg hb] at h
        exact absurd h.1 (by decide)

theorem Delete_uniqueIndexes (t : Table) (file : Option (List Nat)) (id : Int) :
    (t.Delete file id).2.1.UniqueIndexes = t.UniqueIndexes := by
  unfold Table.Delete
  split
  · rfl
  · split <;> rfl

/-- C20 (amended). Uniqueness sets are not pruned by Delete: every call of `Delete`
leaves the uniqueness sets as they were; so, for a table with a unique column `u` not
named `id`, after `Insert r` and `Delete r.Id` have returned nil, `Insert` of a row
whose value in `u` equals that of `r` and whose id is not in the primary-key index
returns a UNIQUE-constraint error and leaves table and file as they were. -/
theorem delete_keeps_uniqueness_sets (t t1 t2 : Table) (file f1 f2 : Option (List Nat))
    (r r2 : Row) (u : ColumnDef)
    (hu : u ∈ t.Schema.Columns) (huniq : u.IsUnique = true) (hid : u.Name ≠ str "id")
    (hins : t.Insert file r = (Ret.ok, t1, f1))
    (hdel : t1.Delete f1 r.Id = (Ret.ok, t2, f2))
    (heq : mapGet r2.Data u.Name = mapGet r.Data u.Name)
    (hpk : mapGet t2.PrimaryKeyIdx r2.Id = none) :
    (∀ (t0 : Table) (f0 : Option (List Nat)) (id : Int),
      (t0.Delete f0 id).2.1.UniqueIndexes = t0.UniqueIndexes) ∧
    t2.UniqueIndexes = t1.UniqueIndexes ∧
    ∃ c v, t2.Insert f2 r2 = (Ret.error (TableError.uniqueViolation c v), t2, f2) := by
  have hd1 := Delete_uniqueIndexes t1 f1 r.Id
  have hd2 := Delete_schema t1 f1 r.Id
  rw [hdel] at hd1 hd2
  simp only at hd1 hd2
  obtain ⟨_, _, ht1, _⟩ := Insert_ok hins
  have hs1 : t1.Schema = t.Schema := by rw [ht1]
  have hu1 : t1.UniqueIndexes = (addUnique r t.Schema.Columns t.UniqueIndexes).1 := by rw [ht1]
  obtain ⟨idx, hg, hm⟩ := addUnique_mem r t.Schema.Columns t.UniqueIndexes
    (addUnique_hasSets _ _ _ (Insert_ok_sets hins)) u hu huniq hid
  refine ⟨Delete_uniqueIndexes, hd1, ?_⟩
  apply Insert_unique_error t2 f2 r2 hpk u (by rw [hd2, hs1]; exact hu) huniq hid idx
  · rw [hd1, hu1]; exact hg
  · rw [heq]; exact hm

/-- Witness of `delete_keeps_uniqueness_sets`: on `members`, after the row
(1, "a@x", 30) is inserted and deleted, the row (2, "a@x", 41) is refused. -/
theorem delete_keeps_uniqueness_sets_witness :
    (∀ (t0 : Table) (f0 : Option (List Nat)) (id : Int),
      (t0.Delete f0 id).2.1.UniqueIndexes = t0.UniqueIndexes) ∧
    (run [Op.insert (memberRow 1 "a@x" 30), Op.delete 1] membersFresh).1.UniqueIndexes
      = (run [Op.insert (memberRow 1 "a@x" 30)] membersFresh).1.UniqueIndexes ∧
    ∃ c v, (run [Op.insert (memberRow 1 "a@x" 30), Op.delete 1] membersFresh).1.Insert
        (run [Op.insert (memberRow 1 "a@x" 30), Op.delete 1] membersFresh).2
        (memberRow 2 "a@x" 41)
      = (Ret.error (TableError.uniqueViolation c v),
          run [Op.insert (memberRow 1 "a@x" 30), Op.delete 1] membersFresh) :=
  delete_keeps_uniqueness_sets membersFresh.1
    (run [Op.insert (memberRow 1 "a@x" 30)] membersFresh).1
    (run [Op.insert (memberRow 1 "a@x" 30), Op.delete 1] membersFresh).1
    membersFresh.2
    (run [Op.insert (memberRow 1 "a@x" 30)] membersFresh).2
    (run [Op.insert (memberRow 1 "a@x" 30), Op.delete 1] membersFresh).2
    (memberRow 1 "a@x" 30) (memberRow 2 "a@x" 41) emailCol
    (by decide) (by decide) (by decide) (by decide) (by decide) (by decide) (by decide)

/-- C20 (counterexample). On `CREATE TABLE t (id int UNIQUE)` the unique column is `id`,
which has no uniqueness set: after row 1 is inserted and deleted, row 1 is inserted
again.  On `members`, with row 2 live, after the row (1, "a@x", 30) is inserted and
deleted, `Insert` of (2, "a@x", 41) returns the duplicate-primary-key error, not a
UNIQUE-constraint error. -/
theorem reinsert_after_delete_counterexample :
    parseColumns asciiOnly (Split (str "id int UNIQUE") (str ",")) = idUniqueCols ∧
    (execAll asciiOnly
      [str "CREATE TABLE t (id int UNIQUE)", str "INSERT INTO t VALUES (1)",
        str "DELETE FROM t WHERE id=1", str "INSERT INTO t VALUES (1)"] (emptyDb "shop", [])).1
      = [str "Table 't' created successfully.", str "Row inserted successfully.",
          str "Row deleted successfully.", str "Row inserted successfully."] ∧
    ((Op.insert (memberRow 2 "a@x" 41)).apply
      (run [Op.insert (memberRow 2 "b@x" 20), Op.insert (memberRow 1 "a@x" 30), Op.delete 1]
        membersFresh)).1 = Ret.error (TableError.duplicateKey 2) := by
  decide

/-! ## The primary-key index loadIndex rebuilds -/

theorem loadLog_pk (cols : List ColumnDef) (log : List Entry) (pos : Nat)
    (pk : List (Int × Nat)) (uq : List (GoString × List GoString)) (k : Int)
    (hr : ∀ e ∈ log, int32 e.row.Id = e.row.Id)
    (hn : ((liveRows log).map (fun r => r.Id)).Nodup) :
    mapGet (loadLog cols log pos pk uq).1 k
      = match liveOffset cols log pos k with
        | some off => some off
        | none => mapGet pk k := by
  induction log generalizing pos pk uq with
  | nil => rfl
  | cons e log ih =>
    have hr1 : ∀ e1 ∈ log, int32 e1.row.Id = e1.row.Id :=
      fun e1 he1 => hr e1 (List.mem_cons_of_mem _ he1)
    unfold loadLog liveOffset
    cases hd : e.deleted
    · have hn1 : e.row.Id ∉ (liveRows log).map (fun r => r.Id) ∧
          ((liveRows log).map (fun r => r.Id)).Nodup := by
        unfold liveRows at hn
        rw [hd] at hn
        simpa using hn
      simp only [Bool.false_eq_true, if_false, true_and]
      rw [ih _ _ _ hr1 hn1.2, hr e (List.mem_cons_self _ _)]
      by_cases hk : e.row.Id = k
      · rw [if_pos hk]
        have hnone : liveOffset cols log (pos + (encodeEntry cols e).length) k = none := by
          rw [liveOffset_none_iff, ← hk]
          exact hn1.1
        rw [hnone, hk]
        exact mapGet_mapSet_self _ _ _
      · rw [if_neg hk]
        cases liveOffset cols log (pos + (encodeEntry cols e).length) k with
        | some off => rfl
        | none => exact mapGet_mapSet_other _ _ _ _ hk
    · have hn1 : ((liveRows log).map (fun r => r.Id)).Nodup := by
        unfold liveRows at hn
        rw [hd] at hn
        simpa using hn
      simp only [if_true, Bool.true_eq_false, false_and, if_false]
      exact ih _ _ _ hr1 hn1

theorem loadIndex_of_inv {cols : List ColumnDef} {s : Table × Option (List Nat)}
    {log : List Entry} (h : Inv cols s log) (hs : ∀ e ∈ log, ShortText cols e.row)
    (hr : ∀ e ∈ log, int32 e.row.Id = e.row.Id) :
    ∃ t2, s.1.loadIndex s.2 = some t2 ∧
      ∀ k, mapGet t2.PrimaryKeyIdx k = mapGet s.1.PrimaryKeyIdx k := by
  unfold Table.loadIndex
  rw [h.file_eq, h.schema]
  simp only [loadIndexLoop_encodeLog cols log hs _ 0 [] _ (le_refl _), Option.map_some']
  refine ⟨_, rfl, ?_⟩
  intro k
  simp only
  rw [loadLog_pk cols log 0 [] _ k hr h.nodup, h.index]
  cases liveOffset cols log 0 k <;> rfl

/-- C21 (amended). Rebuilt index equals maintained index: after any sequence of `Insert`,
`Delete` and `Update` calls on a freshly created table, whatever each returned, whose
rows have an id in the signed 32-bit range and text values that fit the length field of
a record, `loadIndex` on the resulting file returns, and the primary-key index it builds
has the same keys with the same offsets as the index the calls maintained in memory. -/
theorem loadIndex_rebuilds_maintained_index (dbName tableName : GoString)
    (cols : List ColumnDef) (ops : List Op) (s : Table × Option (List Nat))
    (hnew : NewTable dbName tableName cols none = some s)
    (hrows : ∀ op ∈ ops, ∀ row, op.row? = some row →
      ShortText cols row ∧ -2147483648 ≤ row.Id ∧ row.Id < 2147483648) :
    ∃ t2, (run ops s).1.loadIndex (run ops s).2 = some t2 ∧
      ∀ k, mapGet t2.PrimaryKeyIdx k = mapGet (run ops s).1.PrimaryKeyIdx k := by
  have hinv := Inv_run ops (Inv_fresh hnew)
  have hP := runLog_rows
    (fun row => ShortText cols row ∧ -2147483648 ≤ row.Id ∧ row.Id < 2147483648) ops s []
    (fun e he => by cases he) hrows
  exact loadIndex_of_inv hinv (fun e he => (hP e he).1)
    (fun e he => int32_of_range _ (hP e he).2.1 (hP e he).2.2)

/-- Witness of `loadIndex_rebuilds_maintained_index`: two inserts, an update and a delete
on the `users` table; both indexes map id 1 to the offset 44 of its rewritten record. -/
theorem loadIndex_rebuilds_maintained_index_witness :
    NewTable (str "default") (str "users") userCols none = some usersFresh ∧
    (run [Op.insert (userRow 1 "John Doe" 25), Op.insert (userRow 2 "Jane Smith" 30),
        Op.update (userRow 1 "John Doe" 26), Op.delete 2] usersFresh).1.PrimaryKeyIdx
      = [(1, 44)] ∧
    ∃ t2, (run [Op.insert (userRow 1 "John Doe" 25), Op.insert (userRow 2 "Jane Smith" 30),
          Op.update (userRow 1 "John Doe" 26), Op.delete 2] usersFresh).1.loadIndex
        (run [Op.insert (userRow 1 "John Doe" 25), Op.insert (userRow 2 "Jane Smith" 30),
          Op.update (userRow 1 "John Doe" 26), Op.delete 2] usersFresh).2 = some t2 ∧
      ∀ k, mapGet t2.PrimaryKeyIdx k
        = mapGet (run [Op.insert (userRow 1 "John Doe" 25),
            Op.insert (userRow 2 "Jane Smith" 30), Op.update (userRow 1 "John Doe" 26),
            Op.delete 2] usersFresh).1.PrimaryKeyIdx k :=
  ⟨by decide, by decide,
    loadIndex_rebuilds_maintained_index (str "default") (str "users") userCols
      [Op.insert (userRow 1 "John Doe" 25), Op.insert (userRow 2 "Jane Smith" 30),
        Op.update (userRow 1 "John Doe" 26), Op.delete 2] usersFresh (by decide)
      (by
        intro op hop row hrow
        simp only [List.mem_cons, List.mem_singleton, List.not_mem_nil, or_false] at hop
        rcases hop with rfl | rfl | rfl | rfl <;> cases hrow <;>
          exact ⟨by unfold ShortText; decide, by decide, by decide⟩)⟩

/-- C21 (counterexample). On `CREATE TABLE t (id int)`, after `Insert` of the id
4294967296 the maintained index has the key 4294967296, and `loadIndex` on the file
builds an index with the key 0. -/
theorem loadIndex_wide_id_counterexample :
    NewTable (str "db") (str "t") idCols none = some idFresh ∧
    ((Op.insert (idRow 4294967296)).apply idFresh).1 = Ret.ok ∧
    (run [Op.insert (idRow 4294967296)] idFresh).1.PrimaryKeyIdx = [(4294967296, 0)] ∧
    ((run [Op.insert (idRow 4294967296)] idFresh).1.loadIndex
      (run [Op.insert (idRow 4294967296)] idFresh).2).map (fun t => t.PrimaryKeyIdx)
      = some [(0, 0)] := by
  decide

/-! ## The file paths of two tables -/

theorem append_cons_inj {x : Nat} (a c b d : List Nat) (ha : x ∉ a) (hc : x ∉ c)
    (h : a ++ x :: b = c ++ x :: d) : a = c ∧ b = d := by
  induction a generalizing c with
  | nil =>
    cases c with
    | nil => simpa using h
    | cons y c =>
      simp only [List.nil_append, List.cons_append, List.cons.injEq] at h
      exact absurd (by rw [h.1]; exact List.mem_cons_self _ _) hc
  | cons y a ih =>
    cases c with
    | nil =>
      simp only [List.nil_append, List.cons_append, List.cons.injEq] at h
      exact absurd (by rw [← h.1]; exact List.mem_cons_self _ _) ha
    | cons z c =>
      simp only [List.cons_append, List.cons.injEq] at h
      obtain ⟨h1, h2⟩ := ih c (fun hm => ha (List.mem_cons_of_mem _ hm))
        (fun hm => hc (List.mem_cons_of_mem _ hm)) h.2
      exact ⟨by rw [h.1, h1], h2⟩

theorem tablePath_inj (d1 t1 d2 t2 : GoString) (h1 : 95 ∉ sanitize d1) (h2 : 95 ∉ sanitize d2)
    (h : tablePath d1 t1 = tablePath d2 t2) :
    sanitize d1 = sanitize d2 ∧ sanitize t1 = sanitize t2 := by
  unfold tablePath at h
  have hu : str "_" = [95] := by decide
  rw [hu] at h
  simp only [List.append_assoc, List.singleton_append] at h
  obtain ⟨ha, hb⟩ := append_cons_inj _ _ _ _ h1 h2 h
  exact ⟨ha, List.append_cancel_right hb⟩

/-- C22 (amended). Backing-file names do not collide for plain names: for any two
distinct pairs (database name, table name) whose four names the sanitizer of `NewTable`
leaves unchanged and whose database names hold no underscore, `NewTable` computes
distinct file paths. -/
theorem distinct_names_distinct_paths (d1 t1 d2 t2 : GoString) (cols1 cols2 : List ColumnDef)
    (f1 f2 : Option (List Nat)) (s1 s2 : Table × Option (List Nat))
    (hd1 : sanitize d1 = d1) (ht1 : sanitize t1 = t1)
    (hd2 : sanitize d2 = d2) (ht2 : sanitize t2 = t2)
    (hu1 : 95 ∉ d1) (hu2 : 95 ∉ d2)
    (hn1 : NewTable d1 t1 cols1 f1 = some s1) (hn2 : NewTable d2 t2 cols2 f2 = some s2)
    (hne : (d1, t1) ≠ (d2, t2)) :
    s1.1.filePath ≠ s2.1.filePath := by
  rw [NewTable_filePath hn1, NewTable_filePath hn2]
  intro h
  obtain ⟨ha, hb⟩ := tablePath_inj d1 t1 d2 t2 (by rw [hd1]; exact hu1) (by rw [hd2]; exact hu2) h
  rw [hd1, hd2] at ha
  rw [ht1, ht2] at hb
  exact hne (by rw [ha, hb])

/-- Witness of `distinct_names_distinct_paths`: the tables `users` and `orders` of the
database `default`. -/
theorem distinct_names_distinct_paths_witness :
    (NewTable (str "default") (str "users") userCols none).map (fun s => s.1.filePath)
      = some (str "default_users.db") ∧
    (NewTable (str "default") (str "orders") idCols none).map (fun s => s.1.filePath)
      = some (str "default_orders.db") ∧
    usersFresh.1.filePath
      ≠ (({ Schema := { Name := str "orders", Columns := idCols }
            filePath := str "default_orders.db"
            PrimaryKeyIdx := []
            UniqueIndexes := [] }, some []) : Table × Option (List Nat)).1.filePath :=
  ⟨by decide, by decide,
    distinct_names_distinct_paths (str "default") (str "users") (str "default") (str "orders")
      userCols idCols none none usersFresh
      ({ Schema := { Name := str "orders", Columns := idCols }
         filePath := str "default_orders.db"
         PrimaryKeyIdx := []
         UniqueIndexes := [] }, some [])
      (by decide) (by decide) (by decide) (by decide) (by decide) (by decide)
      (by decide) (by decide) (by decide)⟩

/-- C22 (counterexample). The pairs (`a_b`, `c`) and (`a`, `b_c`) are distinct and get
the same file path `a_b_c.db`.  In one database, the tables `users` and `us/ers` get
the same path `shop_users.db`: a row inserted into `users` is returned by the scan of
`us/ers`. -/
theorem table_paths_collide_counterexample :
    (str "a_b", str "c") ≠ (str "a", str "b_c") ∧
    (NewTable (str "a_b") (str "c") idCols none).map (fun s => s.1.filePath)
      = some (str "a_b_c.db") ∧
    (NewTable (str "a") (str "b_c") idCols none).map (fun s => s.1.filePath)
      = some (str "a_b_c.db") ∧
    tablePath (str "shop") (str "users") = tablePath (str "shop") (str "us/ers") ∧
    (execAll asciiOnly
      [str "CREATE TABLE users (id int)", str "CREATE TABLE us/ers (id int)",
        str "INSERT INTO users VALUES (1)", str "SELECT * FROM us/ers"]
      (emptyDb "shop", [])).1
      = [str "Table 'users' created successfully.", str "Table 'us/ers' created successfully.",
          str "Row inserted successfully.", str "\x7b\"id\":1\x7d\n"] := by
  decide

end SQLly
